import Mathlib

/-!
# Boundary-tag allocator (`myAllocator.c`): embedding and verification

The C program manages one contiguous arena obtained from `sbrk`.  A block is
a header (`BlockPrefix_t`: a pointer to the footer and an `int allocated`),
a payload, and a footer (`BlockSuffix_t`: a pointer back to the header).

Embedding conventions (LP64, little endian):

* memory is a total map from byte addresses to bytes; a pointer occupies
  8 bytes, an `int` 4 bytes; `sizeof(BlockPrefix_t) = 16`,
  `sizeof(BlockSuffix_t) = 8`;
* `size_t` and pointer arithmetic is arithmetic modulo `2^64`;
* the globals `arenaBegin`, `arenaEnd`, `growingDisabled` are fields of an
  explicit `State`, next to the memory and the host's program break;
* the `while`/`for` loops that walk the arena take a fuel argument and
  return `none` when it runs out;
* the host's `sbrk` takes its argument as an `intptr_t`: a `size_t` chunk
  size of `2^63` or more is a negative increment.
-/

namespace MyAllocator

/-! ## Machine arithmetic -/

/-- Pointer or `size_t` addition, modulo `2^64`. -/
def padd (p n : Nat) : Nat := (p + n) % 18446744073709551616

/-- Pointer or `size_t` subtraction, modulo `2^64`. -/
def psub (p n : Nat) : Nat :=
  (p + (18446744073709551616 - n % 18446744073709551616)) % 18446744073709551616

/-- The macro `align8(x) = ((x+7) & ~7)` on a `size_t`. -/
def align8 (x : Nat) : Nat := (x + 7) % 18446744073709551616 / 8 * 8

/-- The macro `prefixSize = align8(sizeof(BlockPrefix_t))`. -/
def prefixSize : Nat := 16

/-- The macro `suffixSize = align8(sizeof(BlockSuffix_t))`. -/
def suffixSize : Nat := 8

/-- The constant `DEFAULT_BRKSIZE` (1 MiB). -/
def DEFAULT_BRKSIZE : Nat := 1048576

/-! ## Byte memory -/

/-- Memory: the byte stored at each address. -/
abbrev Mem := Nat → Nat

/-- Load of one `char`. -/
def readByte (m : Mem) (a : Nat) : Nat := m a % 256

/-- Store of one `char`. -/
def writeByte (m : Mem) (a v : Nat) : Mem :=
  fun x => if x = a then v % 256 else m x

/-- Load of a pointer: 8 bytes, little endian. -/
def readPtr (m : Mem) (a : Nat) : Nat :=
  m a % 256 + 256 * (m (a + 1) % 256 + 256 * (m (a + 2) % 256 + 256 * (m (a + 3) % 256
    + 256 * (m (a + 4) % 256 + 256 * (m (a + 5) % 256 + 256 * (m (a + 6) % 256
    + 256 * (m (a + 7) % 256)))))))

/-- Store of a pointer: 8 bytes, little endian. -/
def writePtr (m : Mem) (a v : Nat) : Mem :=
  fun x => if a ≤ x ∧ x < a + 8 then v / 256 ^ (x - a) % 256 else m x

/-- Load of an `int`: 4 bytes, little endian (read as an unsigned value; the
program only tests it against zero). -/
def readInt (m : Mem) (a : Nat) : Nat :=
  m a % 256 + 256 * (m (a + 1) % 256 + 256 * (m (a + 2) % 256 + 256 * (m (a + 3) % 256)))

/-- Store of an `int`: 4 bytes, little endian. -/
def writeInt (m : Mem) (a v : Nat) : Mem :=
  fun x => if a ≤ x ∧ x < a + 4 then v / 256 ^ (x - a) % 256 else m x

/-! ## Program state -/

/-- The globals of `myAllocator.c`, the memory, and the host's program break.
`brk` is the current break, `brkLimit` the highest and `brkMin` the lowest
break the host grants. -/
structure State where
  mem : Mem
  arenaBegin : Nat
  arenaEnd : Nat
  growingDisabled : Nat
  brk : Nat
  brkLimit : Nat
  brkMin : Nat

/-- The host primitive `sbrk(intptr_t increment)` (libc, outside the
repository).  The source passes a `size_t`, which the call converts to
`intptr_t`: a value below `2^63` is a positive increment, a value of `2^63`
or more is the negative increment `incr - 2^64`.  The host moves the break by
the increment and returns the old break; it fails, returning `(void *)-1` and
leaving the break where it was, when the new break would exceed `brkLimit` or
fall below `brkMin`.  A break that differs from `arenaEnd` models memory that
is not contiguous with the arena. -/
def sbrk (incr : Nat) (st : State) : Nat × State :=
  if incr < 9223372036854775808 then
    if st.brk + incr ≤ st.brkLimit then (st.brk, { st with brk := st.brk + incr })
    else (18446744073709551615, st)
  else
    if st.brkMin + (18446744073709551616 - incr) ≤ st.brk then
      (st.brk, { st with brk := st.brk - (18446744073709551616 - incr) })
    else (18446744073709551615, st)

/-! ## The functions of `myAllocator.c` -/

/-- Function `makeFreeBlock(addr, size)`: write header and footer of a free block. -/
def makeFreeBlock (m : Mem) (addr size : Nat) : Mem :=
  let p := addr
  let limitAddr := padd addr size
  let s := psub limitAddr 8
  let m1 := writePtr m p s
  let m2 := writePtr m1 s p
  writeInt m2 (p + 8) 0

/-- Function `initializeArena()`. -/
def initializeArena (st : State) : State :=
  if st.arenaBegin ≠ 0 then st
  else
    let r := sbrk DEFAULT_BRKSIZE st
    { r.2 with
      mem := makeFreeBlock r.2.mem r.1 DEFAULT_BRKSIZE
      arenaBegin := r.1
      arenaEnd := padd r.1 DEFAULT_BRKSIZE }

/-- Function `computeUsableSpace(p)`. -/
def computeUsableSpace (m : Mem) (p : Nat) : Nat :=
  psub (readPtr m p) (padd p prefixSize)

/-- Function `computeNextPrefixAddr(p)`. -/
def computeNextPrefixAddr (m : Mem) (p : Nat) : Nat :=
  padd (readPtr m p) suffixSize

/-- Function `computePrevSuffixAddr(p)`. -/
def computePrevSuffixAddr (p : Nat) : Nat := psub p suffixSize

/-- Function `getNextPrefix(p)`: address of the next header, or 0 for the last block. -/
def getNextPrefix (st : State) (p : Nat) : Nat :=
  let np := computeNextPrefixAddr st.mem p
  if np < st.arenaEnd then np else 0

/-- Function `getPrevPrefix(p)`: address of the previous header, or 0 for the first. -/
def getPrevPrefix (st : State) (p : Nat) : Nat :=
  let ps := computePrevSuffixAddr p
  if ps > st.arenaBegin then readPtr st.mem ps else 0

/-- Function `coalescePrev(p)`: merge `p` into its predecessor when both are free. -/
def coalescePrev (st : State) (p : Nat) : Nat × State :=
  let prev := getPrevPrefix st p
  if p ≠ 0 ∧ prev ≠ 0 ∧ readInt st.mem (p + 8) = 0 ∧ readInt st.mem (prev + 8) = 0 then
    (prev, { st with
      mem := makeFreeBlock st.mem prev (psub (computeNextPrefixAddr st.mem p) prev) })
  else (p, st)

/-- Function `coalesce(p)`: merge with the previous and the next block. -/
def coalesce (st : State) (p : Nat) : State :=
  if p ≠ 0 then
    let r := coalescePrev st p
    let next := getNextPrefix r.2 r.1
    if next ≠ 0 then (coalescePrev r.2 next).2 else r.2
  else st

/-- Function `growArena(s)`. -/
def growArena (st : State) (s : Nat) : Nat × State :=
  if st.growingDisabled ≠ 0 then (0, st)
  else
    let s1 := padd s (prefixSize + suffixSize)
    let s2 := if s1 < DEFAULT_BRKSIZE then DEFAULT_BRKSIZE else s1
    let r := sbrk s2 st
    let n := r.1
    if n = 0 ∨ n ≠ r.2.arenaEnd then (0, r.2)
    else
      let st2 : State := { r.2 with arenaEnd := padd n s2 }
      coalescePrev { st2 with mem := makeFreeBlock st2.mem n s2 } n

/-- Function `pcheck(p)`: is the pointer within the arena. -/
def pcheck (st : State) (p : Nat) : Bool :=
  decide (st.arenaBegin ≤ p) && decide (p < st.arenaEnd)

/-- Counters of `arenaCheck`: `numBlocks`, `amtAllocated`, `amtFree`. -/
structure Tally where
  numBlocks : Nat
  amtAllocated : Nat
  amtFree : Nat
deriving DecidableEq, Repr

/-- The loop of `arenaCheck()`.  `none`: out of fuel; `some none`: an
`assert` failed; `some (some t)`: the walk finished with counters `t`. -/
def arenaCheckFrom (st : State) : Nat → Nat → Tally → Option (Option Tally)
  | 0, _, _ => none
  | fuel + 1, p, t =>
    if p ≠ 0 then
      if !pcheck st p then some none
      else if !pcheck st (readPtr st.mem p) then some none
      else if readPtr st.mem (readPtr st.mem p) ≠ p then some none
      else
        let t1 : Tally :=
          if readInt st.mem (p + 8) ≠ 0 then
            { t with amtAllocated := padd t.amtAllocated (computeUsableSpace st.mem p) }
          else { t with amtFree := padd t.amtFree (computeUsableSpace st.mem p) }
        let t2 : Tally := { t1 with numBlocks := t1.numBlocks + 1 }
        let p1 := computeNextPrefixAddr st.mem p
        if p1 = st.arenaEnd then some (some t2)
        else if !pcheck st p1 then some none
        else arenaCheckFrom st fuel p1 t2
    else some (some t)

/-- Function `arenaCheck()`. -/
def arenaCheck (fuel : Nat) (st : State) : Option (Option Tally) :=
  arenaCheckFrom st fuel st.arenaBegin ⟨0, 0, 0⟩

/-- The loop of `findFirstFit(s)`, started at `p`. -/
def findFirstFitFrom (st : State) (s : Nat) : Nat → Nat → Option (Nat × State)
  | 0, _ => none
  | fuel + 1, p =>
    if p ≠ 0 then
      if readInt st.mem (p + 8) = 0 ∧ computeUsableSpace st.mem p ≥ s then some (p, st)
      else findFirstFitFrom st s fuel (getNextPrefix st p)
    else some (growArena st s)

/-- Function `findFirstFit(s)`. -/
def findFirstFit (fuel : Nat) (st : State) (s : Nat) : Option (Nat × State) :=
  findFirstFitFrom st s fuel st.arenaBegin

/-- The loop of `findBestFit(s)`, at block `p` with candidate `bestFit`. -/
def findBestFitFrom (st : State) (s : Nat) : Nat → Nat → Nat → Option (Nat × State)
  | 0, _, _ => none
  | fuel + 1, p, bestFit =>
    if p ≠ 0 then
      let bestFit1 :=
        if readInt st.mem (p + 8) = 0 ∧ computeUsableSpace st.mem p ≥ s then
          if bestFit = 0 then p
          else if computeUsableSpace st.mem bestFit > computeUsableSpace st.mem p then p
          else bestFit
        else bestFit
      findBestFitFrom st s fuel (getNextPrefix st p) bestFit1
    else if bestFit ≠ 0 then some (bestFit, st)
    else some (growArena st s)

/-- Function `findBestFit(s)`. -/
def findBestFit (fuel : Nat) (st : State) (s : Nat) : Option (Nat × State) :=
  findBestFitFrom st s fuel st.arenaBegin 0

/-- Function `regionToPrefix(r)`. -/
def regionToPrefix (r : Nat) : Nat := if r ≠ 0 then psub r prefixSize else 0

/-- Function `prefixToRegion(p)`. -/
def prefixToRegion (p : Nat) : Nat := if p ≠ 0 then padd p prefixSize else 0

/-- Function `firstFitAllocRegion(s)`. -/
def firstFitAllocRegion (fuel : Nat) (s : Nat) (st : State) : Option (Nat × State) :=
  let asize := align8 s
  let st0 := if st.arenaBegin = 0 then initializeArena st else st
  match findFirstFit fuel st0 s with
  | none => none
  | some (p, st1) =>
    if p ≠ 0 then
      let availSize := computeUsableSpace st1.mem p
      let m1 :=
        if availSize ≥ padd asize (prefixSize + suffixSize + 8) then
          let freeSliverStart := padd p (prefixSize + suffixSize + asize)
          let freeSliverEnd := computeNextPrefixAddr st1.mem p
          let m0 := makeFreeBlock st1.mem freeSliverStart (psub freeSliverEnd freeSliverStart)
          makeFreeBlock m0 p (psub freeSliverStart p)
        else st1.mem
      some (prefixToRegion p, { st1 with mem := writeInt m1 (p + 8) 1 })
    else some (0, st1)

/-- Function `bestFitAllocRegion(s)`. -/
def bestFitAllocRegion (fuel : Nat) (s : Nat) (st : State) : Option (Nat × State) :=
  let asize := align8 s
  let st0 := if st.arenaBegin = 0 then initializeArena st else st
  match findBestFit fuel st0 s with
  | none => none
  | some (p, st1) =>
    if p ≠ 0 then
      let availSize := computeUsableSpace st1.mem p
      let m1 :=
        if availSize ≥ padd asize (prefixSize + suffixSize + 8) then
          let freeSliverStart := padd p (prefixSize + suffixSize + asize)
          let freeSliverEnd := computeNextPrefixAddr st1.mem p
          let m0 := makeFreeBlock st1.mem freeSliverStart (psub freeSliverEnd freeSliverStart)
          makeFreeBlock m0 p (psub freeSliverStart p)
        else st1.mem
      some (prefixToRegion p, { st1 with mem := writeInt m1 (p + 8) 1 })
    else some (0, st1)

/-- Function `freeRegion(r)`. -/
def freeRegion (r : Nat) (st : State) : State :=
  if r ≠ 0 then
    let p := regionToPrefix r
    coalesce { st with mem := writeInt st.mem (p + 8) 0 } p
  else st

/-- The value of an `int` whose two's-complement bit pattern is `i`, after the
conversion to `size_t` (sign extension to 64 bits). -/
def intToSize (i : Nat) : Nat :=
  if i < 2147483648 then i else 18446744069414584320 + i

/-- The byte copy loop `int i; for (i = 0; i < oldSize; i++) n[i] = o[i];`.
The counter `i` is an `int`, kept as its 32-bit pattern: the comparison with
the `size_t` bound and the indexing use its sign extension, and `i++` wraps
at `2^31` (two's complement; in C the overflow is undefined).  Each iteration
takes one unit of fuel. -/
def copyBytes (o n oldSize : Nat) : Nat → Nat → Mem → Option Mem
  | 0, _, _ => none
  | fuel + 1, i, m =>
    if intToSize i < oldSize then
      copyBytes o n oldSize fuel ((i + 1) % 4294967296)
        (writeByte m (padd n (intToSize i)) (readByte m (padd o (intToSize i))))
    else some m

/-- Function `resizeRegion(r, newSize)`. -/
def resizeRegion (fuel : Nat) (r newSize : Nat) (st : State) : Option (Nat × State) :=
  let oldSize := if r ≠ 0 then computeUsableSpace st.mem (regionToPrefix r) else 0
  if oldSize ≥ newSize then some (r, st)
  else
    let current := regionToPrefix r
    let next := getNextPrefix st current
    let prev := getPrevPrefix st current
    let minSizeNeededAligned8 := align8 (psub newSize oldSize)
    if next ≠ 0 ∧ readInt st.mem (next + 8) = 0
        ∧ computeUsableSpace st.mem next ≥ minSizeNeededAligned8 then
      let m1 := writePtr st.mem current (padd (readPtr st.mem current) minSizeNeededAligned8)
      let m2 := writePtr m1 (readPtr m1 current) current
      let m3 := writePtr m2 (readPtr m2 next) (computeNextPrefixAddr m2 current)
      let nextSuffix := readPtr m3 next
      let next1 := computeNextPrefixAddr m3 current
      let m4 := writePtr m3 next1 nextSuffix
      some (prefixToRegion current, { st with mem := m4 })
    else if prev ≠ 0 ∧ readInt st.mem (prev + 8) = 0
        ∧ computeUsableSpace st.mem prev ≥ minSizeNeededAligned8 then
      let oldCurrent := prefixToRegion current
      let curSuffix := readPtr st.mem current
      let current1 := psub current minSizeNeededAligned8
      let m1 := writePtr st.mem current1 curSuffix
      let m2 := writePtr m1 (readPtr m1 current1) current1
      let m3 := writePtr m2 prev (computePrevSuffixAddr current1)
      let n := prefixToRegion current1
      match copyBytes oldCurrent n oldSize fuel 0 m3 with
      | none => none
      | some m => some (n, { st with mem := m })
    else
      match bestFitAllocRegion fuel newSize st with
      | none => none
      | some (n, st1) =>
        match copyBytes r n oldSize fuel 0 st1.mem with
        | none => none
        | some m => some (n, freeRegion r { st1 with mem := m })


/-! ## Block lists: the abstract view of a well-formed arena -/

/-- One block as seen by the walk: its usable space and its `allocated` field. -/
structure Blk where
  usable : Nat
  alloc : Nat
deriving DecidableEq, Repr

/-- Bytes covered by a list of blocks (header 16 + payload + footer 8 each). -/
def span : List Blk → Nat
  | [] => 0
  | b :: bs => 24 + b.usable + span bs

/-- The blocks `bs` tile `[p, e)` in memory `m`: each header points to its
footer, each footer points back to its header, and the next header follows
the footer immediately; the last footer ends at `e`. -/
def Tiles (m : Mem) : Nat → List Blk → Nat → Prop
  | p, [], e => p = e
  | p, b :: bs, e =>
    readPtr m p = p + 16 + b.usable ∧ readPtr m (p + 16 + b.usable) = p ∧
    readInt m (p + 8) = b.alloc ∧ Tiles m (p + 24 + b.usable) bs e

/-- A well-formed arena with block list `bs`: the arena is initialised, it and
the host's break limit lie in the lower half of the address space, and the
blocks tile `[arenaBegin, arenaEnd)`. -/
def WellFormed (st : State) (bs : List Blk) : Prop :=
  8 ≤ st.arenaBegin ∧ st.arenaEnd ≤ 9223372036854775808 ∧
  st.brkLimit ≤ 9223372036854775808 ∧ bs ≠ [] ∧
  Tiles st.mem st.arenaBegin bs st.arenaEnd

/-- Memories that agree outside `[lo, hi)`. -/
def EqOutside (m m1 : Mem) (lo hi : Nat) : Prop :=
  ∀ x, x < lo ∨ hi ≤ x → m1 x = m x

/-- The search predicate of both policies: free and large enough. -/
def Fits (s : Nat) (b : Blk) : Prop := b.alloc = 0 ∧ s ≤ b.usable

instance (s : Nat) (b : Blk) : Decidable (Fits s b) := by unfold Fits; infer_instance

/-- Block at `p` is the best fit among `bs` (a list starting at `a`): `p` is 0
when nothing fits; otherwise `p` heads a fitting block that is strictly
smaller than every fitting block before it and no larger than every fitting
block after it. -/
def BestAt (s a : Nat) (bs : List Blk) (p : Nat) : Prop :=
  (p = 0 ∧ ∀ c ∈ bs, ¬ Fits s c) ∨
  (∃ x1 b x2, bs = x1 ++ b :: x2 ∧ p = a + span x1 ∧ Fits s b ∧
    (∀ c ∈ x1, Fits s c → b.usable < c.usable) ∧ (∀ c ∈ x2, Fits s c → b.usable ≤ c.usable))

/-- Block list after `coalescePrev` on the block `b` that follows the blocks
`xs`: the last block of `xs` absorbs `b` when both are free.  The result is
the new list of preceding blocks and the block that now holds `b`. -/
def mergePrev (xs : List Blk) (b : Blk) : List Blk × Blk :=
  match xs.getLast? with
  | some c =>
    if c.alloc = 0 ∧ b.alloc = 0 then (xs.dropLast, ⟨c.usable + 24 + b.usable, 0⟩) else (xs, b)
  | none => (xs, b)

/-- Block list after `coalescePrev` on the successor of the block `b` that is
followed by `ys`: `b` absorbs the first block of `ys` when both are free. -/
def mergeNext (b : Blk) (ys : List Blk) : Blk × List Blk :=
  match ys with
  | d :: ys1 =>
    if b.alloc = 0 ∧ d.alloc = 0 then (⟨b.usable + 24 + d.usable, 0⟩, ys1) else (b, ys)
  | [] => (b, [])

/-- Block list after `freeRegion` on the block `b` between `xs` and `ys`: the
block is marked free, merged with its predecessor when that is free, and the
result is merged with its successor when that is free.  The result is the
list of blocks before the freed block, the freed block, and the blocks after. -/
def absFree (xs : List Blk) (b : Blk) (ys : List Blk) : List Blk × Blk × List Blk :=
  let r := mergePrev xs ⟨b.usable, 0⟩
  let r2 := mergeNext r.2 ys
  (r.1, r2.1, r2.2)

/-- Blocks that replace the block `b` when it is allocated with aligned size
`asize`: an allocated block of that size and a free remainder when the
remainder can hold a block, the whole block otherwise. -/
def absSplit (asize : Nat) (b : Blk) : List Blk :=
  if asize + 32 ≤ b.usable then [⟨asize, 1⟩, ⟨b.usable - asize - 24, 0⟩] else [⟨b.usable, 1⟩]

/-- No two adjacent blocks of the list are both free. -/
def NoAdjFree (bs : List Blk) : Prop :=
  List.Chain' (fun x y => ¬ (x.alloc = 0 ∧ y.alloc = 0)) bs

/-- Number of bytes `growArena(s)` asks the host for. -/
def chunkSize (s : Nat) : Nat :=
  if padd s (prefixSize + suffixSize) < DEFAULT_BRKSIZE then DEFAULT_BRKSIZE
  else padd s (prefixSize + suffixSize)

/-- The code that `firstFitAllocRegion` and `bestFitAllocRegion` share after
the search returned `p`: split the block `p` when the remainder is large
enough, mark it allocated and return its region; a null `p` gives a null
region. -/
def allocFound (asize : Nat) (p : Nat) (st : State) : Nat × State :=
  if p ≠ 0 then
    let availSize := computeUsableSpace st.mem p
    let m1 :=
      if availSize ≥ padd asize (prefixSize + suffixSize + 8) then
        let freeSliverStart := padd p (prefixSize + suffixSize + asize)
        let freeSliverEnd := computeNextPrefixAddr st.mem p
        let m0 := makeFreeBlock st.mem freeSliverStart (psub freeSliverEnd freeSliverStart)
        makeFreeBlock m0 p (psub freeSliverStart p)
      else st.mem
    (prefixToRegion p, { st with mem := writeInt m1 (p + 8) 1 })
  else (0, st)

/-- What the search of either policy yields on the block list `bs`: the
header of a fitting block of the list, with the state untouched, or the
result of `growArena` when no block fits. -/
def SearchOutcome (st : State) (bs : List Blk) (s : Nat) (r : Nat × State) : Prop :=
  (∃ xs b ys, bs = xs ++ b :: ys ∧ Fits s b ∧ r = (st.arenaBegin + span xs, st)) ∨
  ((∀ c ∈ bs, ¬ Fits s c) ∧ r = growArena st s)

/-- Where an allocation takes its block from, on an arena with block list
`bs`: a block `b` of the list, between `xs` and `ys`; or, after the arena
grew by a chunk, the last block `b` of the grown arena (the new chunk, merged
into the old last block when that was free), behind `xs`. -/
def AllocSite (bs xs : List Blk) (b : Blk) (ys : List Blk) : Prop :=
  bs = xs ++ b :: ys ∨ (ys = [] ∧ ∃ u, mergePrev bs ⟨u, 0⟩ = (xs, b))

/-- Header address and block, for each block of a list that starts at `p`. -/
def blocksAt : Nat → List Blk → List (Nat × Blk)
  | _, [] => []
  | p, b :: bs => (p, b) :: blocksAt (p + 24 + b.usable) bs

/-- What a correct allocation of `s` bytes guarantees about its result `res`
(region and state) on an arena that had block list `bs`: the arena is still
well formed, and a non-null region belongs to a block marked allocated, with
usable space at least `s`, whose payload lies inside the arena and is
disjoint from the payload of every block that was allocated before. -/
def AllocOK (st : State) (bs : List Blk) (s : Nat) (res : Nat × State) : Prop :=
  (∃ bs1, WellFormed res.2 bs1) ∧
  (res.1 ≠ 0 →
    readInt res.2.mem (regionToPrefix res.1 + 8) = 1 ∧
    s ≤ computeUsableSpace res.2.mem (regionToPrefix res.1) ∧
    res.2.arenaBegin ≤ res.1 ∧
    res.1 + computeUsableSpace res.2.mem (regionToPrefix res.1) ≤ res.2.arenaEnd ∧
    ∀ qc ∈ blocksAt st.arenaBegin bs, qc.2.alloc ≠ 0 →
      qc.1 + 16 + qc.2.usable ≤ res.1 ∨
      res.1 + computeUsableSpace res.2.mem (regionToPrefix res.1) ≤ qc.1 + 16)

/-- Sum of the usable space of the allocated blocks of a list. -/
def allocatedBytes : List Blk → Nat
  | [] => 0
  | b :: bs => (if b.alloc ≠ 0 then b.usable else 0) + allocatedBytes bs

/-- Sum of the usable space of the free blocks of a list. -/
def freeBytes : List Blk → Nat
  | [] => 0
  | b :: bs => (if b.alloc ≠ 0 then 0 else b.usable) + freeBytes bs


/-- The three tag stores of the predecessor path of `resizeRegion`, for the
block with header `cur` and usable space `u` that is moved down by `d` bytes
into the predecessor with header `q`: the moved header's footer pointer, the
footer's back-pointer, and the predecessor's footer pointer. -/
def moveDownTags (m : Mem) (q cur u d : Nat) : Mem :=
  writePtr (writePtr (writePtr m (cur - d) (cur + 16 + u)) (cur + 16 + u) (cur - d)) q
    (cur - d - 8)

/-- The split rule of the allocation functions, for a search result `r`
(header `r.1` of the candidate block, of usable space `U` in `r.2`) and the
result `res` of the call for `s` bytes, with `a = align8 s`: the returned
block starts at the candidate's header and is marked allocated; if
`a + 32 ≤ U` it has usable space `a`, its footer points back to it, and a
free block with usable space `U - a - 24` starts right after that footer,
ends where the candidate ended and owns the candidate's footer; otherwise the
returned block keeps usable space `U` and its footer. -/
def SplitRule (s : Nat) (r res : Nat × State) : Prop :=
  res.1 = r.1 + 16 ∧ readInt res.2.mem (r.1 + 8) = 1 ∧
  (align8 s + 32 ≤ computeUsableSpace r.2.mem r.1 →
    computeUsableSpace res.2.mem r.1 = align8 s ∧
    readPtr res.2.mem (r.1 + 16 + align8 s) = r.1 ∧
    readInt res.2.mem (r.1 + 24 + align8 s + 8) = 0 ∧
    computeUsableSpace res.2.mem (r.1 + 24 + align8 s)
      = computeUsableSpace r.2.mem r.1 - align8 s - 24 ∧
    8 ≤ computeUsableSpace res.2.mem (r.1 + 24 + align8 s) ∧
    computeNextPrefixAddr res.2.mem (r.1 + 24 + align8 s)
      = computeNextPrefixAddr r.2.mem r.1 ∧
    readPtr res.2.mem (r.1 + 16 + computeUsableSpace r.2.mem r.1) = r.1 + 24 + align8 s) ∧
  (computeUsableSpace r.2.mem r.1 < align8 s + 32 →
    computeUsableSpace res.2.mem r.1 = computeUsableSpace r.2.mem r.1 ∧
    computeNextPrefixAddr res.2.mem r.1 = computeNextPrefixAddr r.2.mem r.1 ∧
    readPtr res.2.mem (r.1 + 16 + computeUsableSpace r.2.mem r.1) = r.1)

/-- Frame of a call on an arena with block list `bs`, resulting in memory
`m1`; `skip` is the header of the block the call is allowed to change (the
freed block; 0 for none).  Every byte (header, payload, footer) of every
other allocated block of `bs` is unchanged, and a byte that changed lies in a
block of `bs` that was free, in the block at `skip`, or at or above the old
`arenaEnd` (newly grown memory). -/
def FrameOK (st : State) (bs : List Blk) (skip : Nat) (m1 : Mem) : Prop :=
  (∀ qc ∈ blocksAt st.arenaBegin bs, qc.2.alloc ≠ 0 → qc.1 ≠ skip →
    ∀ x, qc.1 ≤ x → x < qc.1 + 24 + qc.2.usable → m1 x = st.mem x) ∧
  (∀ x, m1 x ≠ st.mem x →
    st.arenaEnd ≤ x ∨
    ∃ qc ∈ blocksAt st.arenaBegin bs,
      (qc.2.alloc = 0 ∨ qc.1 = skip) ∧ qc.1 ≤ x ∧ x < qc.1 + 24 + qc.2.usable)

/-- The four tag stores of the successor path of `resizeRegion`, for the
block with header `cur` that grows by `d` bytes into the block with header
`next`: the header's footer pointer, the new footer's back-pointer, the
back-pointer in the successor's footer, and the footer pointer of the
successor's new header. -/
def growUpTags (m : Mem) (cur next d : Nat) : Mem :=
  let m1 := writePtr m cur (padd (readPtr m cur) d)
  let m2 := writePtr m1 (readPtr m1 cur) cur
  let m3 := writePtr m2 (readPtr m2 next) (computeNextPrefixAddr m2 cur)
  writePtr m3 (computeNextPrefixAddr m3 cur) (readPtr m3 next)

/-- The walk over the arena that the searches and `arenaCheck` make, from a
header to `getNextPrefix` of it, looking for two consecutive blocks whose
`allocated` fields are both 0. -/
def walkFindsAdjFree (st : State) : Nat → Nat → Bool
  | 0, _ => false
  | fuel + 1, p =>
    if p = 0 then false
    else if getNextPrefix st p ≠ 0 ∧ readInt st.mem (p + 8) = 0
        ∧ readInt st.mem (getNextPrefix st p + 8) = 0 then true
    else walkFindsAdjFree st fuel (getNextPrefix st p)
/-! ## Concrete arenas used in the worked examples -/

instance Tiles.instDecidable (m : Mem) : ∀ (bs : List Blk) (p e : Nat), Decidable (Tiles m p bs e)
  | [], p, e => inferInstanceAs (Decidable (p = e))
  | b :: bs, p, e =>
    have := Tiles.instDecidable m bs (p + 24 + b.usable) e
    inferInstanceAs (Decidable (readPtr m p = p + 16 + b.usable ∧
      readPtr m (p + 16 + b.usable) = p ∧ readInt m (p + 8) = b.alloc ∧
      Tiles m (p + 24 + b.usable) bs e))

instance (st : State) (bs : List Blk) : Decidable (WellFormed st bs) := by
  unfold WellFormed; infer_instance

/-- A scripted arena at address 4096 with growth disabled: free blocks of
usable sizes 40, 200 and 64, separated by allocated blocks of usable size 8. -/
def scriptedArena : State :=
  let m0 : Mem := fun _ => 0
  let m1 := makeFreeBlock m0 4096 64
  let m2 := writeInt (makeFreeBlock m1 4160 32) 4168 1
  let m3 := makeFreeBlock m2 4192 224
  let m4 := writeInt (makeFreeBlock m3 4416 32) 4424 1
  let m5 := makeFreeBlock m4 4448 88
  { mem := m5, arenaBegin := 4096, arenaEnd := 4536, growingDisabled := 1,
    brk := 4536, brkLimit := 4536, brkMin := 4096 }

/-- The block list of `scriptedArena`. -/
def scriptedBlocks : List Blk := [⟨40, 0⟩, ⟨8, 1⟩, ⟨200, 0⟩, ⟨8, 1⟩, ⟨64, 0⟩]

/-- The scripted arena with its 200-byte block marked allocated: the blocks
at 4160 (usable 8) and 4192 (usable 200) are adjacent and both allocated. -/
def pairArena : State :=
  { scriptedArena with mem := writeInt scriptedArena.mem 4200 1 }

/-- The state before the first call: no arena, growth enabled, the host's
break at 4096 and room up to 2^40. -/
def emptyState : State :=
  { mem := fun _ => 0, arenaBegin := 0, arenaEnd := 0, growingDisabled := 0,
    brk := 4096, brkLimit := 1099511627776, brkMin := 4096 }

/-- The freshly initialised arena: one free block of 1 MiB at 4096. -/
def freshArena : State := initializeArena emptyState

/-- Three calls on the fresh arena: `firstFitAllocRegion(1048577)`, then
`firstFitAllocRegion(1048545)`, then `firstFitAllocRegion(8)`. -/
def oddGrowthRun : Option (Nat × State) :=
  (firstFitAllocRegion 5 1048577 freshArena).bind fun r1 =>
    (firstFitAllocRegion 5 1048545 r1.2).bind fun r2 =>
      firstFitAllocRegion 5 8 r2.2

/-- The fresh arena with the 8 bytes at address 0 (outside the arena) holding
the value `2^63`. -/
def freshHigh : State :=
  { freshArena with mem := writePtr freshArena.mem 0 9223372036854775808 }

/-- The fresh arena with its single block marked allocated. -/
def fullArena : State :=
  { freshArena with mem := writeInt freshArena.mem 4104 1 }

/-- The scripted arena with the byte 171 stored in the payload of the
allocated block at 4160 (region 4176). -/
def dataArena : State :=
  { scriptedArena with mem := writeByte scriptedArena.mem 4176 171 }

/-- The scripted arena with stale data in the payload of its free 200-byte
block: the `int` at 4224 holds 3735928559. -/
def staleArena : State :=
  { scriptedArena with mem := writeInt scriptedArena.mem 4224 3735928559 }

/-- The arena after: allocate `A` with 100 bytes, allocate `B` with 100 bytes
right after it, free `B`.  Region `A` is 4112, its block has usable space
104 and is followed by one free block. -/
def abArena : State :=
  match (firstFitAllocRegion 3 100 freshArena).bind
      (fun a => (firstFitAllocRegion 3 100 a.2).map (fun b => freeRegion b.1 b.2)) with
  | some st => st
  | none => freshArena


/-- The arena after: allocate 40 bytes (region 4112), allocate `2^31 + 8`
bytes (region 4176; the arena grows), allocate 8 bytes, free region 4112, and
store the byte 171 at offset `2^31` of region 4176. -/
def hugeArena : State :=
  match (firstFitAllocRegion 3 40 freshArena).bind (fun a =>
      (firstFitAllocRegion 3 2147483656 a.2).bind (fun b =>
        (firstFitAllocRegion 4 8 b.2).map (fun c => freeRegion a.1 c.2))) with
  | some st => { st with mem := writeByte st.mem 2147487824 171 }
  | none => freshArena

/-- The arena after: allocate 1048656 bytes (the arena grows to 2101352),
allocate 1048472 bytes (region 1052792), allocate 16 bytes (region 2101288),
free region 1052792.  Its blocks are an allocated block of 1048656 bytes at
4096, a free block of 1048472 bytes at 1052776, an allocated block of 16
bytes at 2101272 and a free block of 16 bytes at 2101312; the host's break is
at `arenaEnd`. -/
def tailArena : State :=
  match (firstFitAllocRegion 5 1048656 freshArena).bind (fun a =>
      (firstFitAllocRegion 5 1048472 a.2).bind (fun b =>
        (firstFitAllocRegion 5 16 b.2).map (fun c => freeRegion b.1 c.2))) with
  | some st => st
  | none => freshArena
/-! ## Memory lemmas -/

theorem readPtr_congr {m m1 : Mem} {a : Nat} (h : ∀ x, a ≤ x → x < a + 8 → m1 x = m x) :
    readPtr m1 a = readPtr m a := by
  unfold readPtr
  rw [h a (by omega) (by omega), h (a+1) (by omega) (by omega), h (a+2) (by omega) (by omega),
    h (a+3) (by omega) (by omega), h (a+4) (by omega) (by omega), h (a+5) (by omega) (by omega),
    h (a+6) (by omega) (by omega), h (a+7) (by omega) (by omega)]

theorem readInt_congr {m m1 : Mem} {a : Nat} (h : ∀ x, a ≤ x → x < a + 4 → m1 x = m x) :
    readInt m1 a = readInt m a := by
  unfold readInt
  rw [h a (by omega) (by omega), h (a+1) (by omega) (by omega), h (a+2) (by omega) (by omega),
    h (a+3) (by omega) (by omega)]

theorem writePtr_outside (m : Mem) (a v x : Nat) (h : x < a ∨ a + 8 ≤ x) :
    writePtr m a v x = m x := by
  unfold writePtr
  rw [if_neg (by omega)]

theorem writeInt_outside (m : Mem) (a v x : Nat) (h : x < a ∨ a + 4 ≤ x) :
    writeInt m a v x = m x := by
  unfold writeInt
  rw [if_neg (by omega)]

theorem readPtr_writePtr_same (m : Mem) (a v : Nat) :
    readPtr (writePtr m a v) a = v % 18446744073709551616 := by
  unfold readPtr writePtr
  simp only [le_refl, Nat.le_add_right, Nat.lt_add_one, true_and, and_self, if_true,
    Nat.add_lt_add_iff_left, Nat.sub_self, Nat.add_sub_cancel_left, Nat.reducePow,
    Nat.reduceLT, Nat.lt_add_right_iff_pos, Nat.zero_lt_succ, Nat.div_one, pow_zero, pow_one]
  omega

theorem readInt_writeInt_same (m : Mem) (a v : Nat) :
    readInt (writeInt m a v) a = v % 4294967296 := by
  unfold readInt writeInt
  simp only [le_refl, Nat.le_add_right, Nat.lt_add_one, true_and, and_self, if_true,
    Nat.add_lt_add_iff_left, Nat.sub_self, Nat.add_sub_cancel_left, Nat.reducePow,
    Nat.reduceLT, Nat.lt_add_right_iff_pos, Nat.zero_lt_succ, Nat.div_one, pow_zero, pow_one]
  omega

theorem readPtr_lt (m : Mem) (a : Nat) : readPtr m a < 18446744073709551616 := by
  unfold readPtr
  omega

theorem padd_eq {a b : Nat} (h : a + b < 18446744073709551616) : padd a b = a + b := by
  unfold padd; omega

theorem psub_eq {a b : Nat} (h : b ≤ a) (ha : a < 18446744073709551616) : psub a b = a - b := by
  unfold psub; omega

theorem readPtr_writePtr_disj (m : Mem) (a v b : Nat) (h : b + 8 ≤ a ∨ a + 8 ≤ b) :
    readPtr (writePtr m a v) b = readPtr m b :=
  readPtr_congr (fun x _ _ => writePtr_outside m a v x (by omega))

theorem readPtr_writeInt_disj (m : Mem) (a v b : Nat) (h : b + 8 ≤ a ∨ a + 4 ≤ b) :
    readPtr (writeInt m a v) b = readPtr m b :=
  readPtr_congr (fun x _ _ => writeInt_outside m a v x (by omega))

theorem readInt_writePtr_disj (m : Mem) (a v b : Nat) (h : b + 4 ≤ a ∨ a + 8 ≤ b) :
    readInt (writePtr m a v) b = readInt m b :=
  readInt_congr (fun x _ _ => writePtr_outside m a v x (by omega))

theorem readInt_writeInt_disj (m : Mem) (a v b : Nat) (h : b + 4 ≤ a ∨ a + 4 ≤ b) :
    readInt (writeInt m a v) b = readInt m b :=
  readInt_congr (fun x _ _ => writeInt_outside m a v x (by omega))

/-! ## Tilings -/

theorem span_append (xs ys : List Blk) : span (xs ++ ys) = span xs + span ys := by
  induction xs with
  | nil => simp [span]
  | cons b xs ih => simp [span, ih]; omega

theorem Tiles.end_eq {m : Mem} {bs : List Blk} {p e : Nat} (h : Tiles m p bs e) :
    e = p + span bs := by
  induction bs generalizing p with
  | nil => simpa [Tiles, span] using h.symm
  | cons b bs ih =>
    obtain ⟨-, -, -, h4⟩ := h
    rw [ih h4]; simp [span]; omega

theorem Tiles.congr {m m1 : Mem} {bs : List Blk} {p e : Nat}
    (hm : ∀ x, p ≤ x → x < e → m1 x = m x) (h : Tiles m p bs e) : Tiles m1 p bs e := by
  induction bs generalizing p with
  | nil => exact h
  | cons b bs ih =>
    obtain ⟨h1, h2, h3, h4⟩ := h
    have he := h4.end_eq
    refine ⟨?_, ?_, ?_, ih (fun x hx hx2 => hm x (by omega) hx2) h4⟩
    · rw [readPtr_congr (fun x hx hx2 => hm x hx (by omega))]; exact h1
    · rw [readPtr_congr (fun x hx hx2 => hm x (by omega) (by omega))]; exact h2
    · rw [readInt_congr (fun x hx hx2 => hm x (by omega) (by omega))]; exact h3

theorem Tiles.frame {m m1 : Mem} {bs : List Blk} {p e lo hi : Nat}
    (hm : EqOutside m m1 lo hi) (hd : e ≤ lo ∨ hi ≤ p) (h : Tiles m p bs e) :
    Tiles m1 p bs e :=
  h.congr (fun x hx hx2 => hm x (by omega))

theorem Tiles_append {m : Mem} {xs ys : List Blk} {p e : Nat} :
    Tiles m p (xs ++ ys) e ↔ Tiles m p xs (p + span xs) ∧ Tiles m (p + span xs) ys e := by
  induction xs generalizing p with
  | nil => simp [Tiles, span]
  | cons b xs ih =>
    have h : p + (24 + b.usable + span xs) = p + 24 + b.usable + span xs := by omega
    rw [List.cons_append]
    simp only [Tiles, span]
    rw [ih, h]
    tauto

/-- A free block written by `makeFreeBlock` over `[p, p + 24 + u)`. -/
theorem makeFreeBlock_tiles (m : Mem) (p u : Nat) (hp : p + 24 + u ≤ 9223372036854775808) :
    Tiles (makeFreeBlock m p (24 + u)) p [⟨u, 0⟩] (p + 24 + u) := by
  have hs : psub (padd p (24 + u)) 8 = p + 16 + u := by unfold psub padd; omega
  unfold makeFreeBlock
  simp only [hs, Tiles, and_true]
  refine ⟨?_, ?_, ?_⟩
  · rw [readPtr_writeInt_disj _ _ _ _ (by omega), readPtr_writePtr_disj _ _ _ _ (by omega),
      readPtr_writePtr_same]
    omega
  · rw [readPtr_writeInt_disj _ _ _ _ (by omega), readPtr_writePtr_same]
    omega
  · rw [readInt_writeInt_same]

theorem makeFreeBlock_outside (m : Mem) (p u : Nat) (hp : p + 24 + u ≤ 9223372036854775808) :
    EqOutside m (makeFreeBlock m p (24 + u)) p (p + 24 + u) := by
  have hs : psub (padd p (24 + u)) 8 = p + 16 + u := by unfold psub padd; omega
  intro x hx
  unfold makeFreeBlock
  simp only [hs]
  rw [writeInt_outside _ _ _ _ (by omega), writePtr_outside _ _ _ _ (by omega),
    writePtr_outside _ _ _ _ (by omega)]

/-- Writing the `allocated` field of the first block of a tiling. -/
theorem Tiles.setAlloc {m : Mem} {b : Blk} {ys : List Blk} {p e : Nat} (v : Nat)
    (hv : v < 4294967296) (h : Tiles m p (b :: ys) e) :
    Tiles (writeInt m (p + 8) v) p (⟨b.usable, v⟩ :: ys) e := by
  obtain ⟨h1, h2, -, h4⟩ := h
  refine ⟨?_, ?_, ?_, ?_⟩
  · rw [readPtr_writeInt_disj _ _ _ _ (by omega)]; exact h1
  · rw [readPtr_writeInt_disj _ _ _ _ (by simp only []; omega)]; exact h2
  · rw [readInt_writeInt_same]; simp only []; omega
  · exact h4.congr (fun x hx _ => writeInt_outside _ _ _ _ (by simp only [] at hx; omega))

theorem writeInt_eqOutside (m : Mem) (a v : Nat) : EqOutside m (writeInt m a v) a (a + 4) :=
  fun x hx => writeInt_outside m a v x hx

theorem Tiles.usable_eq {m : Mem} {b : Blk} {ys : List Blk} {p e : Nat}
    (h : Tiles m p (b :: ys) e) (he : e ≤ 9223372036854775808) :
    computeUsableSpace m p = b.usable := by
  have h4 := h.2.2.2.end_eq
  unfold computeUsableSpace prefixSize
  rw [h.1]; unfold psub padd; omega

theorem Tiles.next_eq {m : Mem} {b : Blk} {ys : List Blk} {p e : Nat}
    (h : Tiles m p (b :: ys) e) (he : e ≤ 9223372036854775808) :
    computeNextPrefixAddr m p = p + 24 + b.usable := by
  have h4 := h.2.2.2.end_eq
  unfold computeNextPrefixAddr suffixSize
  rw [h.1]; unfold padd; omega

/-! ## The search loops -/

theorem getNextPrefix_eq {st : State} {b : Blk} {ys : List Blk} {p : Nat}
    (h : Tiles st.mem p (b :: ys) st.arenaEnd) (he : st.arenaEnd ≤ 9223372036854775808) :
    getNextPrefix st p = if ys = [] then 0 else p + 24 + b.usable := by
  unfold getNextPrefix
  simp only [h.next_eq he]
  have h4 := h.2.2.2
  cases ys with
  | nil => simp only [Tiles] at h4; simp; omega
  | cons c ys =>
    have := h4.end_eq
    simp only [span] at this
    simp; omega

theorem fits_iff {st : State} {b : Blk} {ys : List Blk} {p s : Nat}
    (h : Tiles st.mem p (b :: ys) st.arenaEnd) (he : st.arenaEnd ≤ 9223372036854775808) :
    (readInt st.mem (p + 8) = 0 ∧ computeUsableSpace st.mem p ≥ s) ↔ Fits s b := by
  rw [h.usable_eq he, h.2.2.1]; rfl

/-- The first-fit loop over a tiling: it stops at the first fitting block, or
walks to the end and calls `growArena`. -/
theorem findFirstFitFrom_spec (st : State) (s : Nat) (he : st.arenaEnd ≤ 9223372036854775808) :
    ∀ (ys : List Blk) (p fuel : Nat), 0 < p → ys ≠ [] → Tiles st.mem p ys st.arenaEnd →
      ys.length < fuel →
      (∃ ys1 b ys2, ys = ys1 ++ b :: ys2 ∧ Fits s b ∧ (∀ c ∈ ys1, ¬ Fits s c) ∧
          findFirstFitFrom st s fuel p = some (p + span ys1, st)) ∨
      ((∀ c ∈ ys, ¬ Fits s c) ∧ findFirstFitFrom st s fuel p = some (growArena st s)) := by
  intro ys
  induction ys with
  | nil => intro p fuel _ h; exact absurd rfl h
  | cons b ys ih =>
    intro p fuel hp _ ht hf
    obtain ⟨fuel, rfl⟩ : ∃ k, fuel = k + 1 := ⟨fuel - 1, by omega⟩
    rw [findFirstFitFrom, if_pos (by omega)]
    by_cases hb : Fits s b
    · left
      refine ⟨[], b, ys, rfl, hb, by simp, ?_⟩
      rw [if_pos ((fits_iff ht he).2 hb)]; simp [span]
    · rw [if_neg (fun h => hb ((fits_iff ht he).1 h)), getNextPrefix_eq ht he]
      cases ys with
      | nil =>
        right
        refine ⟨by simpa using hb, ?_⟩
        obtain ⟨fuel, rfl⟩ : ∃ k, fuel = k + 1 := ⟨fuel - 1, by simp at hf; omega⟩
        simp [findFirstFitFrom]
      | cons c ys =>
        rw [if_neg (by simp)]
        rcases ih (p + 24 + b.usable) fuel (by omega) (by simp) ht.2.2.2
          (by simp at hf ⊢; omega) with ⟨ys1, d, ys2, h1, h2, h3, h4⟩ | ⟨h1, h2⟩
        · left
          refine ⟨b :: ys1, d, ys2, by simp [h1], h2, ?_, ?_⟩
          · intro x hx
            rcases List.mem_cons.1 hx with rfl | hx
            · exact hb
            · exact h3 x hx
          · rw [h4]; simp only [span]
            congr 2; omega
        · right
          refine ⟨?_, h2⟩
          intro x hx
          rcases List.mem_cons.1 hx with rfl | hx
          · exact hb
          · exact h1 x hx

theorem BestAt.step {st : State} {s : Nat} {xs ys : List Blk} {b : Blk} {best : Nat}
    (ha : 0 < st.arenaBegin) (he : st.arenaEnd ≤ 9223372036854775808)
    (ht : Tiles st.mem st.arenaBegin (xs ++ b :: ys) st.arenaEnd)
    (hB : BestAt s st.arenaBegin xs best) :
    BestAt s st.arenaBegin (xs ++ [b])
      (if readInt st.mem (st.arenaBegin + span xs + 8) = 0
          ∧ computeUsableSpace st.mem (st.arenaBegin + span xs) ≥ s then
        if best = 0 then st.arenaBegin + span xs
        else if computeUsableSpace st.mem best
            > computeUsableSpace st.mem (st.arenaBegin + span xs) then
          st.arenaBegin + span xs
        else best
      else best) := by
  have htb := (Tiles_append.1 ht).2
  by_cases hb : Fits s b
  · rw [if_pos ((fits_iff htb he).2 hb), htb.usable_eq he]
    rcases hB with ⟨h0, hn⟩ | ⟨x1, b0, x2, hx, hp, hf, h1, h2⟩
    · rw [if_pos h0]
      exact Or.inr ⟨xs, b, [], rfl, rfl, hb, fun c hc h => absurd h (hn c hc), by simp⟩
    · rw [if_neg (by omega)]
      have hu : computeUsableSpace st.mem best = b0.usable := by
        subst hx hp
        rw [List.append_assoc] at ht
        exact (Tiles_append.1 ht).2.usable_eq he
      rw [hu]
      by_cases hlt : b0.usable > b.usable
      · rw [if_pos hlt]
        refine Or.inr ⟨xs, b, [], rfl, rfl, hb, ?_, by simp⟩
        intro c hc hfc
        subst hx
        rcases List.mem_append.1 hc with hc | hc
        · have := h1 c hc hfc; omega
        · rcases List.mem_cons.1 hc with rfl | hc
          · exact hlt
          · have := h2 c hc hfc; omega
      · rw [if_neg hlt]
        refine Or.inr ⟨x1, b0, x2 ++ [b], by simp [hx], hp, hf, h1, ?_⟩
        intro c hc hfc
        rcases List.mem_append.1 hc with hc | hc
        · exact h2 c hc hfc
        · rw [List.mem_singleton] at hc; subst hc; omega
  · rw [if_neg (fun h => hb ((fits_iff htb he).1 h))]
    rcases hB with ⟨h0, hn⟩ | ⟨x1, b0, x2, hx, hp, hf, h1, h2⟩
    · refine Or.inl ⟨h0, ?_⟩
      intro c hc
      rcases List.mem_append.1 hc with hc | hc
      · exact hn c hc
      · rw [List.mem_singleton] at hc; subst hc; exact hb
    · refine Or.inr ⟨x1, b0, x2 ++ [b], by simp [hx], hp, hf, h1, ?_⟩
      intro c hc hfc
      rcases List.mem_append.1 hc with hc | hc
      · exact h2 c hc hfc
      · rw [List.mem_singleton] at hc; subst hc; exact absurd hfc hb

/-- The best-fit loop over a tiling: after the whole list is scanned the
candidate is the best fit of the whole list; it is returned when there is
one, and `growArena` is called otherwise. -/
theorem findBestFitFrom_spec (st : State) (s : Nat) (ha : 0 < st.arenaBegin)
    (he : st.arenaEnd ≤ 9223372036854775808) :
    ∀ (ys xs : List Blk) (fuel best : Nat), ys ≠ [] →
      Tiles st.mem st.arenaBegin (xs ++ ys) st.arenaEnd → ys.length < fuel →
      BestAt s st.arenaBegin xs best →
      ∃ best1, BestAt s st.arenaBegin (xs ++ ys) best1 ∧
        findBestFitFrom st s fuel (st.arenaBegin + span xs) best
          = some (if best1 ≠ 0 then (best1, st) else growArena st s) := by
  intro ys
  induction ys with
  | nil => intro xs fuel best h; exact absurd rfl h
  | cons b ys ih =>
    intro xs fuel best _ ht hf hB
    obtain ⟨fuel, rfl⟩ : ∃ k, fuel = k + 1 := ⟨fuel - 1, by omega⟩
    obtain ⟨best1, hb1, hstep⟩ : ∃ best1, best1 = _ ∧ BestAt s st.arenaBegin (xs ++ [b]) best1 :=
      ⟨_, rfl, BestAt.step ha he ht hB⟩
    have htb := (Tiles_append.1 ht).2
    rw [findBestFitFrom, if_pos (by omega), getNextPrefix_eq htb he]
    simp only []
    rw [← hb1]
    cases ys with
    | nil =>
      obtain ⟨fuel, rfl⟩ : ∃ k, fuel = k + 1 := ⟨fuel - 1, by simp at hf; omega⟩
      refine ⟨best1, hstep, ?_⟩
      rw [if_pos rfl, findBestFitFrom, if_neg (by simp)]
      by_cases h0 : best1 ≠ 0
      · rw [if_pos h0, if_pos h0]
      · rw [if_neg h0, if_neg h0]
    | cons c ys =>
      rw [if_neg (by simp)]
      have h1 : st.arenaBegin + span xs + 24 + b.usable = st.arenaBegin + span (xs ++ [b]) := by
        rw [span_append]; simp only [span]; omega
      have h2 : xs ++ b :: c :: ys = (xs ++ [b]) ++ c :: ys := by simp
      rw [h1, h2]
      exact ih (xs ++ [b]) fuel _ (by simp) (h2 ▸ ht) (by simp at hf ⊢; omega) hstep

/-! ## Coalescing and `freeRegion` -/

theorem mergePrev_nil (b : Blk) : mergePrev [] b = ([], b) := rfl

theorem mergePrev_concat (xs : List Blk) (c b : Blk) :
    mergePrev (xs ++ [c]) b =
      if c.alloc = 0 ∧ b.alloc = 0 then (xs, ⟨c.usable + 24 + b.usable, 0⟩) else (xs ++ [c], b) := by
  simp [mergePrev]

theorem eq_nil_or_snoc (xs : List Blk) : xs = [] ∨ ∃ ys c, xs = ys ++ [c] := by
  rcases List.eq_nil_or_concat xs with h | ⟨ys, c, h⟩
  · exact Or.inl h
  · exact Or.inr ⟨ys, c, by rw [h, List.concat_eq_append]⟩

theorem span_snoc (xs : List Blk) (c : Blk) : span (xs ++ [c]) = span xs + 24 + c.usable := by
  rw [span_append]; simp only [span]; omega

theorem getPrevPrefix_first (st : State) (h8 : 8 ≤ st.arenaBegin)
    (he : st.arenaBegin ≤ 9223372036854775808) :
    getPrevPrefix st st.arenaBegin = 0 := by
  unfold getPrevPrefix computePrevSuffixAddr suffixSize psub
  simp only []
  rw [if_neg (by omega)]

theorem getPrevPrefix_eq {st : State} {c : Blk} {ys : List Blk} {q : Nat}
    (h8 : 8 ≤ st.arenaBegin) (hq : st.arenaBegin ≤ q) (he : st.arenaEnd ≤ 9223372036854775808)
    (h : Tiles st.mem q (c :: ys) st.arenaEnd) :
    getPrevPrefix st (q + 24 + c.usable) = q := by
  have hend := h.2.2.2.end_eq
  unfold getPrevPrefix computePrevSuffixAddr suffixSize psub
  simp only []
  have e1 : (q + 24 + c.usable + (18446744073709551616 - 8 % 18446744073709551616))
      % 18446744073709551616 = q + 16 + c.usable := by omega
  rw [e1, if_pos (by omega), h.2.1]

theorem coalescePrev_keep {st : State} {c b : Blk} {ys : List Blk} {q : Nat}
    (h8 : 8 ≤ st.arenaBegin) (hq : st.arenaBegin ≤ q) (he : st.arenaEnd ≤ 9223372036854775808)
    (h : Tiles st.mem q (c :: b :: ys) st.arenaEnd) (hcb : ¬ (c.alloc = 0 ∧ b.alloc = 0)) :
    coalescePrev st (q + 24 + c.usable) = (q + 24 + c.usable, st) := by
  unfold coalescePrev
  simp only [getPrevPrefix_eq h8 hq he h]
  rw [if_neg]
  rintro ⟨-, -, h1, h2⟩
  rw [h.2.2.1] at h2
  rw [h.2.2.2.2.2.1] at h1
  exact hcb ⟨h2, h1⟩

theorem coalescePrev_merge {st : State} {c b : Blk} {ys : List Blk} {q : Nat}
    (h8 : 8 ≤ st.arenaBegin) (hq : st.arenaBegin ≤ q) (he : st.arenaEnd ≤ 9223372036854775808)
    (h : Tiles st.mem q (c :: b :: ys) st.arenaEnd) (hc : c.alloc = 0) (hb : b.alloc = 0) :
    coalescePrev st (q + 24 + c.usable)
      = (q, { st with mem := makeFreeBlock st.mem q (24 + (c.usable + 24 + b.usable)) }) := by
  have hend := h.2.2.2.2.2.2.end_eq
  have hnext := h.2.2.2.next_eq he
  have hsz : psub (computeNextPrefixAddr st.mem (q + 24 + c.usable)) q
      = 24 + (c.usable + 24 + b.usable) := by
    rw [hnext]; unfold psub; omega
  unfold coalescePrev
  simp only [getPrevPrefix_eq h8 hq he h]
  rw [if_pos ⟨by omega, by omega, by rw [h.2.2.2.2.2.1]; exact hb, by rw [h.2.2.1]; exact hc⟩, hsz]

/-- Tiling after a merge: `makeFreeBlock` over two adjacent blocks. -/
theorem Tiles.merge {m : Mem} {xs ys : List Blk} {c b : Blk} {a e : Nat}
    (he : e ≤ 9223372036854775808) (h : Tiles m a (xs ++ c :: b :: ys) e) :
    Tiles (makeFreeBlock m (a + span xs) (24 + (c.usable + 24 + b.usable))) a
      (xs ++ ⟨c.usable + 24 + b.usable, 0⟩ :: ys) e := by
  have hend := h.end_eq
  rw [span_append] at hend
  simp only [span] at hend
  obtain ⟨h1, h2⟩ := Tiles_append.1 h
  have hout := makeFreeBlock_outside m (a + span xs) (c.usable + 24 + b.usable) (by omega)
  rw [Tiles_append]
  refine ⟨h1.frame hout (Or.inl (le_refl _)), ?_⟩
  have hmk := makeFreeBlock_tiles m (a + span xs) (c.usable + 24 + b.usable) (by omega)
  refine ⟨hmk.1, hmk.2.1, hmk.2.2.1, ?_⟩
  refine Tiles.frame hout (Or.inr (le_refl _)) ?_
  have h3 := h2.2.2.2.2.2.2
  have e1 : a + span xs + 24 + c.usable + 24 + b.usable
      = a + span xs + 24 + (c.usable + 24 + b.usable) := by omega
  rw [e1] at h3
  exact h3

/-- Effect of `coalescePrev` on the block `b` at the end of `xs`. -/
theorem coalescePrev_spec {st : State} {xs ys : List Blk} {b : Blk}
    (hwf : WellFormed st (xs ++ b :: ys)) :
    ∃ m1, coalescePrev st (st.arenaBegin + span xs)
        = (st.arenaBegin + span (mergePrev xs b).1, { st with mem := m1 }) ∧
      WellFormed { st with mem := m1 } ((mergePrev xs b).1 ++ (mergePrev xs b).2 :: ys) ∧
      EqOutside st.mem m1 (st.arenaBegin + span (mergePrev xs b).1)
        (st.arenaBegin + span xs + 24 + b.usable) ∧
      ((mergePrev xs b).2 = b → m1 = st.mem) := by
  obtain ⟨h8, he, hl, -, ht⟩ := hwf
  rcases eq_nil_or_snoc xs with rfl | ⟨xs, c, rfl⟩
  · refine ⟨st.mem, ?_, ⟨h8, he, hl, by simp [mergePrev_nil], ht⟩, fun _ _ => rfl, fun _ => rfl⟩
    have hend := ht.end_eq
    unfold coalescePrev
    simp only [span, Nat.add_zero, mergePrev_nil]
    rw [getPrevPrefix_first st h8 (by omega), if_neg (by simp)]
  · have ht1 : Tiles st.mem st.arenaBegin (xs ++ c :: b :: ys) st.arenaEnd := by
      simpa using ht
    have ht2 := (Tiles_append.1 ht1).2
    have hend := ht1.end_eq
    rw [span_append] at hend
    simp only [span] at hend
    have key : st.arenaBegin + span (xs ++ [c]) = st.arenaBegin + span xs + 24 + c.usable := by
      rw [span_snoc]; omega
    rw [mergePrev_concat, key]
    by_cases hcb : c.alloc = 0 ∧ b.alloc = 0
    · rw [if_pos hcb]
      refine ⟨makeFreeBlock st.mem (st.arenaBegin + span xs) (24 + (c.usable + 24 + b.usable)),
        coalescePrev_merge h8 (by omega) he ht2 hcb.1 hcb.2,
        ⟨h8, he, hl, by simp, ht1.merge he⟩, ?_, ?_⟩
      · intro x hx
        exact makeFreeBlock_outside _ _ _ (by omega) x (by simp only [] at hx ⊢; omega)
      · intro hh
        have := congrArg Blk.usable hh
        dsimp only at this
        omega
    · rw [if_neg hcb]
      refine ⟨st.mem, ?_, ⟨h8, he, hl, by simp, ht⟩, fun _ _ => rfl, fun _ => rfl⟩
      simp only [key]
      exact coalescePrev_keep h8 (by omega) he ht2 hcb

theorem EqOutside.trans {m m1 m2 : Mem} {lo hi lo1 hi1 lo2 hi2 : Nat}
    (h1 : EqOutside m m1 lo1 hi1) (h2 : EqOutside m1 m2 lo2 hi2)
    (hlo1 : lo ≤ lo1) (hlo2 : lo ≤ lo2) (hhi1 : hi1 ≤ hi) (hhi2 : hi2 ≤ hi) :
    EqOutside m m2 lo hi := by
  intro x hx
  rw [h2 x (by omega), h1 x (by omega)]

theorem EqOutside.refl (m : Mem) (lo hi : Nat) : EqOutside m m lo hi := fun _ _ => rfl

theorem mergePrev_alloc (xs : List Blk) (b : Blk) (hb : b.alloc = 0) :
    (mergePrev xs b).2.alloc = 0 := by
  rcases eq_nil_or_snoc xs with rfl | ⟨xs, c, rfl⟩
  · exact hb
  · rw [mergePrev_concat]; split
    · rfl
    · exact hb

theorem mergePrev_span (xs : List Blk) (b : Blk) :
    span (mergePrev xs b).1 + 24 + (mergePrev xs b).2.usable = span xs + 24 + b.usable := by
  rcases eq_nil_or_snoc xs with rfl | ⟨xs, c, rfl⟩
  · rfl
  · rw [mergePrev_concat]; split
    · simp only [span_snoc]; omega
    · simp only [span_snoc]

theorem mergePrev_span_le (xs : List Blk) (b : Blk) : span (mergePrev xs b).1 ≤ span xs := by
  rcases eq_nil_or_snoc xs with rfl | ⟨xs, c, rfl⟩
  · exact le_refl _
  · rw [mergePrev_concat]; split
    · simp only [span_snoc]; omega
    · exact le_refl _

/-- Effect of the second half of `coalesce`: `coalescePrev` on the successor. -/
theorem coalesceNext_spec {st : State} {xs ys : List Blk} {b : Blk}
    (hwf : WellFormed st (xs ++ b :: ys)) :
    ∃ m1, (if getNextPrefix st (st.arenaBegin + span xs) ≠ 0 then
          (coalescePrev st (getNextPrefix st (st.arenaBegin + span xs))).2 else st)
        = { st with mem := m1 } ∧
      WellFormed { st with mem := m1 } (xs ++ (mergeNext b ys).1 :: (mergeNext b ys).2) ∧
      EqOutside st.mem m1 (st.arenaBegin + span xs)
        (st.arenaBegin + span xs + 24 + (mergeNext b ys).1.usable) := by
  have hnext := getNextPrefix_eq (Tiles_append.1 hwf.2.2.2.2).2 hwf.2.1
  rw [hnext]
  cases ys with
  | nil =>
    refine ⟨st.mem, ?_, hwf, EqOutside.refl _ _ _⟩
    simp
  | cons d ys =>
    have hwf2 : WellFormed st ((xs ++ [b]) ++ d :: ys) := by simpa using hwf
    obtain ⟨m1, h1, h2, h3, h4⟩ := coalescePrev_spec hwf2
    have key : st.arenaBegin + span (xs ++ [b]) = st.arenaBegin + span xs + 24 + b.usable := by
      rw [span_snoc]; omega
    rw [key] at h1 h3
    rw [mergePrev_concat] at h1 h2 h3 h4
    refine ⟨m1, ?_, ?_, ?_⟩
    · have h8 := hwf.1
      rw [if_neg (List.cons_ne_nil d ys), if_pos (by omega), h1]
    · simp only [mergeNext]
      by_cases hc : b.alloc = 0 ∧ d.alloc = 0
      · rw [if_pos hc] at h2 ⊢; exact h2
      · rw [if_neg hc] at h2 ⊢; simpa using h2
    · simp only [mergeNext]
      by_cases hc : b.alloc = 0 ∧ d.alloc = 0
      · rw [if_pos hc] at h3 ⊢
        dsimp only at h3 ⊢
        intro x hx
        exact h3 x (by omega)
      · rw [if_neg hc] at h4 ⊢
        rw [h4 rfl]
        exact EqOutside.refl _ _ _

/-- Effect of `freeRegion` on the region of the block `b` between `xs` and
`ys`: the arena is well formed with block list `absFree xs b ys`, the globals
are unchanged, and memory changes only inside the freed (merged) block. -/
theorem freeRegion_spec {st : State} {xs ys : List Blk} {b : Blk}
    (hwf : WellFormed st (xs ++ b :: ys)) :
    ∃ m1, freeRegion (st.arenaBegin + span xs + 16) st = { st with mem := m1 } ∧
      WellFormed { st with mem := m1 }
        ((absFree xs b ys).1 ++ (absFree xs b ys).2.1 :: (absFree xs b ys).2.2) ∧
      EqOutside st.mem m1 (st.arenaBegin + span (absFree xs b ys).1)
        (st.arenaBegin + span (absFree xs b ys).1 + 24 + (absFree xs b ys).2.1.usable) := by
  obtain ⟨h8, he, hl, hne, ht⟩ := hwf
  have hend := ht.end_eq
  rw [span_append] at hend
  simp only [span] at hend
  have hreg : regionToPrefix (st.arenaBegin + span xs + 16) = st.arenaBegin + span xs := by
    unfold regionToPrefix prefixSize psub
    rw [if_pos (by omega)]; omega
  obtain ⟨ht1, ht2⟩ := Tiles_append.1 ht
  -- marking the block free
  have hwf0 : WellFormed { st with mem := writeInt st.mem (st.arenaBegin + span xs + 8) 0 }
      (xs ++ ⟨b.usable, 0⟩ :: ys) := by
    refine ⟨h8, he, hl, by simp, ?_⟩
    dsimp only
    refine Tiles_append.2 ⟨?_, ht2.setAlloc 0 (by omega)⟩
    exact ht1.frame (writeInt_eqOutside st.mem (st.arenaBegin + span xs + 8) 0)
      (Or.inl (by omega))
  obtain ⟨m1, hc1, hwf1, ho1, -⟩ := coalescePrev_spec hwf0
  obtain ⟨m2, hc2, hwf2, ho2⟩ := coalesceNext_spec hwf1
  have hsp := mergePrev_span xs ⟨b.usable, 0⟩
  have hle := mergePrev_span_le xs ⟨b.usable, 0⟩
  dsimp only at hsp hc1 hc2 ho1 ho2 hwf2
  refine ⟨m2, ?_, hwf2, ?_⟩
  · unfold freeRegion coalesce
    rw [if_pos (by omega), hreg]
    dsimp only
    rw [if_pos (by omega), hc1]
    exact hc2
  · dsimp only [absFree]
    have hmn : (mergePrev xs ⟨b.usable, 0⟩).2.usable
        ≤ (mergeNext (mergePrev xs ⟨b.usable, 0⟩).2 ys).1.usable := by
      unfold mergeNext
      split
      · split
        · dsimp only; omega
        · exact le_refl _
      · exact le_refl _
    intro x hx
    rw [ho2 x (by omega), ho1 x (by omega), writeInt_outside _ _ _ _ (by omega)]

/-! ## Splitting, growing and allocation -/

theorem chunkSize_ge (s : Nat) : 1048576 ≤ chunkSize s := by
  unfold chunkSize DEFAULT_BRKSIZE; split <;> omega

theorem chunkSize_lt (s : Nat) : chunkSize s < 18446744073709551616 := by
  unfold chunkSize DEFAULT_BRKSIZE padd; split <;> omega

theorem chunkSize_lt_half {s : Nat} (hs : s + 24 < 9223372036854775808) :
    chunkSize s < 9223372036854775808 := by
  unfold chunkSize DEFAULT_BRKSIZE padd prefixSize suffixSize; split <;> omega

theorem chunkSize_ge_size {s : Nat} (hs : s + 24 < 18446744073709551616) :
    s + 24 ≤ chunkSize s := by
  unfold chunkSize DEFAULT_BRKSIZE padd prefixSize suffixSize; split <;> omega

theorem align8_ge {s : Nat} (hs : s + 7 < 18446744073709551616) : s ≤ align8 s := by
  unfold align8; omega

theorem align8_le (s : Nat) : align8 s ≤ s + 7 := by
  unfold align8; omega

theorem absSplit_ne_nil (asize : Nat) (b : Blk) : absSplit asize b ≠ [] := by
  unfold absSplit; split <;> simp

/-- Effect of the tail of the allocation functions on the block `b` between
`xs` and `ys`: it is split when the remainder can hold a block, and marked
allocated; memory changes only inside `b`. -/
theorem allocFound_spec {st : State} {xs ys : List Blk} {b : Blk} (asize : Nat)
    (hwf : WellFormed st (xs ++ b :: ys)) (ha : asize + 32 < 18446744073709551616) :
    ∃ m1, allocFound asize (st.arenaBegin + span xs) st
        = (st.arenaBegin + span xs + 16, { st with mem := m1 }) ∧
      WellFormed { st with mem := m1 } (xs ++ absSplit asize b ++ ys) ∧
      EqOutside st.mem m1 (st.arenaBegin + span xs) (st.arenaBegin + span xs + 24 + b.usable) := by
  obtain ⟨h8, he, hl, -, ht⟩ := hwf
  have hend := ht.end_eq
  rw [span_append] at hend
  simp only [span] at hend
  obtain ⟨ht1, ht2⟩ := Tiles_append.1 ht
  have hreg : prefixToRegion (st.arenaBegin + span xs) = st.arenaBegin + span xs + 16 := by
    unfold prefixToRegion prefixSize padd
    rw [if_pos (by omega)]; omega
  have hthr : padd asize (prefixSize + suffixSize + 8) = asize + 32 := by
    unfold padd prefixSize suffixSize; omega
  unfold allocFound
  rw [if_pos (by omega), hreg, ht2.usable_eq he, hthr]
  dsimp only
  by_cases hsp : asize + 32 ≤ b.usable
  · rw [if_pos hsp]
    have hstart : padd (st.arenaBegin + span xs) (prefixSize + suffixSize + asize)
        = st.arenaBegin + span xs + 24 + asize := by
      unfold padd prefixSize suffixSize; omega
    have hsz1 : psub (computeNextPrefixAddr st.mem (st.arenaBegin + span xs))
        (st.arenaBegin + span xs + 24 + asize) = 24 + (b.usable - asize - 24) := by
      rw [ht2.next_eq he]; unfold psub; omega
    have hsz2 : psub (st.arenaBegin + span xs + 24 + asize) (st.arenaBegin + span xs)
        = 24 + asize := by
      unfold psub; omega
    rw [hstart, hsz1, hsz2]
    have ho1 := makeFreeBlock_outside st.mem (st.arenaBegin + span xs + 24 + asize)
      (b.usable - asize - 24) (by omega)
    have hk1 := makeFreeBlock_tiles st.mem (st.arenaBegin + span xs + 24 + asize)
      (b.usable - asize - 24) (by omega)
    generalize makeFreeBlock st.mem (st.arenaBegin + span xs + 24 + asize)
      (24 + (b.usable - asize - 24)) = m0 at ho1 hk1 ⊢
    have ho2 := makeFreeBlock_outside m0 (st.arenaBegin + span xs) asize (by omega)
    have hk2 := makeFreeBlock_tiles m0 (st.arenaBegin + span xs) asize (by omega)
    generalize makeFreeBlock m0 (st.arenaBegin + span xs) (24 + asize) = m2 at ho2 hk2 ⊢
    have ho3 := writeInt_eqOutside m2 (st.arenaBegin + span xs + 8) 1
    refine ⟨_, rfl, ⟨h8, he, hl, by simp [absSplit_ne_nil], ?_⟩, ?_⟩
    · dsimp only
      rw [List.append_assoc, Tiles_append]
      refine ⟨((ht1.frame ho1 (Or.inl (by omega))).frame ho2 (Or.inl (by omega))).frame ho3
        (Or.inl (by omega)), ?_⟩
      unfold absSplit
      rw [if_pos hsp]
      have hA := hk2.setAlloc 1 (by omega)
      refine ⟨hA.1, hA.2.1, hA.2.2.1, ?_⟩
      dsimp only
      have hB := (hk1.frame ho2 (Or.inr (by omega))).frame ho3 (Or.inr (by omega))
      refine ⟨hB.1, hB.2.1, hB.2.2.1, ?_⟩
      dsimp only
      have hC := ((ht2.2.2.2.frame ho1 (Or.inr (by omega))).frame ho2
        (Or.inr (by omega))).frame ho3 (Or.inr (by omega))
      have e1 : st.arenaBegin + span xs + 24 + asize + 24 + (b.usable - asize - 24)
          = st.arenaBegin + span xs + 24 + b.usable := by omega
      rw [e1]; exact hC
    · intro x hx
      rw [ho3 x (by omega), ho2 x (by omega), ho1 x (by omega)]
  · rw [if_neg hsp]
    refine ⟨_, rfl, ⟨h8, he, hl, by simp [absSplit_ne_nil], ?_⟩, ?_⟩
    · dsimp only
      rw [List.append_assoc, Tiles_append]
      refine ⟨ht1.frame (writeInt_eqOutside _ _ _) (Or.inl (by omega)), ?_⟩
      unfold absSplit
      rw [if_neg hsp]
      exact ht2.setAlloc 1 (by omega)
    · intro x hx
      exact writeInt_outside _ _ _ _ (by omega)

/-- Effect of `growArena(s)` on a well-formed arena when the chunk size is
below `2^63`, a positive increment for `sbrk`.  It either returns no
block and leaves the arena as it was (only the host's break may have moved),
or the host extended the arena contiguously: the new chunk is a free block at
the old `arenaEnd`, merged with the old last block when that was free. -/
theorem growArena_spec {st : State} {bs : List Blk} (s : Nat) (hwf : WellFormed st bs)
    (hpos : chunkSize s < 9223372036854775808) :
    (∃ k, growArena st s = (0, { st with brk := k })) ∨
    (st.growingDisabled = 0 ∧ st.brk = st.arenaEnd ∧ st.arenaEnd + chunkSize s ≤ st.brkLimit ∧
      ∃ m1, growArena st s = (st.arenaBegin + span (mergePrev bs ⟨chunkSize s - 24, 0⟩).1,
          { st with mem := m1, arenaEnd := st.arenaEnd + chunkSize s,
                    brk := st.brk + chunkSize s }) ∧
        WellFormed { st with mem := m1, arenaEnd := st.arenaEnd + chunkSize s,
                             brk := st.brk + chunkSize s }
          ((mergePrev bs ⟨chunkSize s - 24, 0⟩).1 ++ [(mergePrev bs ⟨chunkSize s - 24, 0⟩).2]) ∧
        EqOutside st.mem m1 (st.arenaBegin + span (mergePrev bs ⟨chunkSize s - 24, 0⟩).1)
          (st.arenaEnd + chunkSize s)) := by
  obtain ⟨h8, he, hl, hne, ht⟩ := hwf
  have hend := ht.end_eq
  have hc1 := chunkSize_ge s
  unfold growArena
  by_cases hg : st.growingDisabled ≠ 0
  · left
    rw [if_pos hg]
    exact ⟨st.brk, rfl⟩
  · rw [if_neg hg]
    have hcs : (if padd s (prefixSize + suffixSize) < DEFAULT_BRKSIZE then DEFAULT_BRKSIZE
        else padd s (prefixSize + suffixSize)) = chunkSize s := rfl
    dsimp only
    rw [hcs]
    unfold sbrk
    rw [if_pos hpos]
    by_cases hb : st.brk + chunkSize s ≤ st.brkLimit
    · rw [if_pos hb]
      dsimp only
      by_cases hn : st.brk = 0 ∨ st.brk ≠ st.arenaEnd
      · left
        rw [if_pos hn]
        exact ⟨_, rfl⟩
      · right
        rw [if_neg hn]
        have hbe : st.brk = st.arenaEnd := by
          by_contra h; exact hn (Or.inr h)
        rw [hbe] at hb ⊢
        have hpe : padd st.arenaEnd (chunkSize s) = st.arenaEnd + chunkSize s := by
          unfold padd; omega
        rw [hpe]
        have e24 : chunkSize s = 24 + (chunkSize s - 24) := by omega
        have ho := makeFreeBlock_outside st.mem st.arenaEnd (chunkSize s - 24) (by omega)
        have hk := makeFreeBlock_tiles st.mem st.arenaEnd (chunkSize s - 24) (by omega)
        rw [← e24] at ho hk
        have e2 : st.arenaEnd + 24 + (chunkSize s - 24) = st.arenaEnd + chunkSize s := by omega
        rw [e2] at ho hk
        have hwf3 : WellFormed
            { mem := makeFreeBlock st.mem st.arenaEnd (chunkSize s),
              arenaBegin := st.arenaBegin, arenaEnd := st.arenaEnd + chunkSize s,
              growingDisabled := st.growingDisabled, brk := st.arenaEnd + chunkSize s,
              brkLimit := st.brkLimit, brkMin := st.brkMin }
            (bs ++ ⟨chunkSize s - 24, 0⟩ :: []) := by
          refine ⟨h8, by dsimp only; omega, hl, by simp, ?_⟩
          dsimp only
          rw [Tiles_append, ← hend]
          exact ⟨ht.frame ho (Or.inl (le_refl _)), hk⟩
        obtain ⟨m1, h1, h2, h3, -⟩ := coalescePrev_spec hwf3
        dsimp only at h1 h2 h3
        rw [← hend] at h1
        refine ⟨by omega, rfl, hb, m1, h1, h2, ?_⟩
        have hle := mergePrev_span_le bs ⟨chunkSize s - 24, 0⟩
        intro x hx
        rw [h3 x (by omega), ho x (by omega)]
    · left
      rw [if_neg hb]
      dsimp only
      rw [if_pos (Or.inr (by omega))]
      exact ⟨st.brk, rfl⟩

theorem findFirstFit_outcome {st : State} {bs : List Blk} (s : Nat) {fuel : Nat}
    (hwf : WellFormed st bs) (hf : bs.length < fuel) :
    ∃ r, findFirstFit fuel st s = some r ∧ SearchOutcome st bs s r := by
  obtain ⟨h8, he, -, hne, ht⟩ := hwf
  rcases findFirstFitFrom_spec st s he bs st.arenaBegin fuel (by omega) hne ht hf with
    ⟨xs, b, ys, h1, h2, -, h4⟩ | ⟨h1, h2⟩
  · exact ⟨_, h4, Or.inl ⟨xs, b, ys, h1, h2, rfl⟩⟩
  · exact ⟨_, h2, Or.inr ⟨h1, rfl⟩⟩

theorem findBestFit_outcome {st : State} {bs : List Blk} (s : Nat) {fuel : Nat}
    (hwf : WellFormed st bs) (hf : bs.length < fuel) :
    ∃ r, findBestFit fuel st s = some r ∧ SearchOutcome st bs s r := by
  obtain ⟨h8, he, -, hne, ht⟩ := hwf
  obtain ⟨best, hB, hr⟩ := findBestFitFrom_spec st s (by omega) he bs [] fuel 0 hne
    (by simpa using ht) hf (Or.inl ⟨rfl, by simp⟩)
  simp only [span, Nat.add_zero, List.nil_append] at hr hB
  refine ⟨_, hr, ?_⟩
  rcases hB with ⟨h0, hn⟩ | ⟨x1, b, x2, hx, hp, hfit, -, -⟩
  · rw [if_neg (by simp [h0])]
    exact Or.inr ⟨hn, rfl⟩
  · rw [if_pos (by omega)]
    exact Or.inl ⟨x1, b, x2, hx, hfit, by rw [hp]⟩

theorem WellFormed.of_brk {st : State} {bs : List Blk} (k : Nat) (h : WellFormed st bs) :
    WellFormed { st with brk := k } bs := h

/-- The allocation functions after the search, on a well-formed arena and for
a request with `s + 24 < 2^63`: either no block was produced and the arena
is as it was, or the arena (possibly grown) held a free block `b` with
`s ≤ b.usable` between `xs` and `ys`, which is now split and allocated. -/
theorem allocFound_outcome {st : State} {bs : List Blk} {s : Nat} {r : Nat × State}
    (hwf : WellFormed st bs) (hs : s + 24 < 9223372036854775808)
    (hr : SearchOutcome st bs s r) :
    ((allocFound (align8 s) r.1 r.2).1 = 0 ∧ (∀ c ∈ bs, ¬ Fits s c) ∧
        ∃ k, (allocFound (align8 s) r.1 r.2).2 = { st with brk := k }) ∨
    (∃ xs b ys, AllocSite bs xs b ys ∧ b.alloc = 0 ∧ s ≤ b.usable ∧
      (allocFound (align8 s) r.1 r.2).1 = st.arenaBegin + span xs + 16 ∧
      (allocFound (align8 s) r.1 r.2).2.arenaBegin = st.arenaBegin ∧
      (allocFound (align8 s) r.1 r.2).2.arenaEnd = st.arenaBegin + span (xs ++ b :: ys) ∧
      WellFormed (allocFound (align8 s) r.1 r.2).2 (xs ++ absSplit (align8 s) b ++ ys) ∧
      EqOutside st.mem (allocFound (align8 s) r.1 r.2).2.mem (st.arenaBegin + span xs)
        (st.arenaBegin + span xs + 24 + b.usable)) := by
  have hal := align8_le s
  rcases hr with ⟨xs, b, ys, hbs, hfit, rfl⟩ | ⟨hno, rfl⟩
  · right
    subst hbs
    have hend := hwf.2.2.2.2.end_eq
    have hle : b.usable + 32 ≤ 9223372036854775808 := by
      have := hwf.2.1
      have := hwf.1
      rw [span_append] at hend; simp only [span] at hend; omega
    obtain ⟨m1, h1, h2, h3⟩ := allocFound_spec (align8 s) hwf
      (by have := hfit.2; omega)
    dsimp only
    rw [h1]
    exact ⟨xs, b, ys, Or.inl rfl, hfit.1, hfit.2, rfl, rfl, hend, h2, h3⟩
  · rcases growArena_spec s hwf (chunkSize_lt_half hs) with
      ⟨k, hk⟩ | ⟨hg, hbrk, hlim, m1, h1, h2, h3⟩
    · left
      rw [hk]
      exact ⟨rfl, hno, k, rfl⟩
    · right
      have hcs := chunkSize_ge_size (s := s) (by omega)
      have hsp := mergePrev_span bs ⟨chunkSize s - 24, 0⟩
      have hle := mergePrev_span_le bs ⟨chunkSize s - 24, 0⟩
      have hbe := hwf.2.2.2.2.end_eq
      have hl := hwf.2.2.1
      dsimp only at hsp
      have hwf2 : WellFormed
          { st with mem := m1, arenaEnd := st.arenaEnd + chunkSize s, brk := st.brk + chunkSize s }
          ((mergePrev bs ⟨chunkSize s - 24, 0⟩).1 ++ (mergePrev bs ⟨chunkSize s - 24, 0⟩).2 :: []) :=
        h2
      obtain ⟨m2, h4, h5, h6⟩ := allocFound_spec (align8 s) hwf2 (by omega)
      dsimp only at h4 h5 h6
      rw [h1, h4]
      refine ⟨(mergePrev bs ⟨chunkSize s - 24, 0⟩).1, (mergePrev bs ⟨chunkSize s - 24, 0⟩).2, [],
        Or.inr ⟨rfl, chunkSize s - 24, rfl⟩, mergePrev_alloc _ _ rfl, ?_, rfl, rfl,
        ?_, h5, ?_⟩
      · have : chunkSize s - 24 ≤ (mergePrev bs ⟨chunkSize s - 24, 0⟩).2.usable := by
          rcases eq_nil_or_snoc bs with rfl | ⟨xs, c, rfl⟩
          · exact le_refl _
          · rw [mergePrev_concat]; split
            · dsimp only; omega
            · exact le_refl _
        omega
      · dsimp only
        rw [span_append]; simp only [span]; omega
      · intro x hx
        exact (h6 x hx).trans (h3 x (by omega))

/-! ## Block lists: uniqueness and the no-adjacent-free property -/

/-- A tiling of `[p, e)` that shares its start with a tiling of a shorter
range extends it. -/
theorem Tiles.prefix_of {m : Mem} {e : Nat} :
    ∀ (xs bs : List Blk) (a p : Nat), Tiles m a bs e → Tiles m a xs p → p < e →
      ∃ rest, bs = xs ++ rest ∧ rest ≠ [] ∧ Tiles m p rest e := by
  intro xs
  induction xs with
  | nil =>
    intro bs a p hb hx hlt
    have hpa : a = p := hx
    subst hpa
    refine ⟨bs, rfl, ?_, hb⟩
    rintro rfl
    have hae : a = e := hb
    omega
  | cons x xs ih =>
    intro bs a p hb hx hlt
    have hxe := hx.2.2.2.end_eq
    cases bs with
    | nil =>
      have hae : a = e := hb
      omega
    | cons y bs =>
      have hu : x.usable = y.usable := by
        have := hx.1.symm.trans hb.1
        omega
      have hxy : x = y := by
        cases x; cases y
        simp only [Blk.mk.injEq]
        exact ⟨hu, hx.2.2.1.symm.trans hb.2.2.1⟩
      subst hxy
      obtain ⟨rest, h1, h2, h3⟩ := ih bs _ p hb.2.2.2 hx.2.2.2 hlt
      exact ⟨rest, by rw [h1]; rfl, h2, h3⟩

/-- The block list of a tiling is determined by the memory. -/
theorem Tiles.list_unique {m : Mem} {e : Nat} :
    ∀ (bs bs1 : List Blk) (a : Nat), Tiles m a bs e → Tiles m a bs1 e → bs = bs1 := by
  intro bs
  induction bs with
  | nil =>
    intro bs1 a h h1
    have hae : a = e := h
    cases bs1 with
    | nil => rfl
    | cons y bs1 =>
      have := h1.2.2.2.end_eq
      omega
  | cons x bs ih =>
    intro bs1 a h h1
    cases bs1 with
    | nil =>
      have hae : a = e := h1
      have := h.2.2.2.end_eq
      omega
    | cons y bs1 =>
      have hu : x.usable = y.usable := by
        have := h.1.symm.trans h1.1
        omega
      have hxy : x = y := by
        cases x; cases y
        simp only [Blk.mk.injEq]
        exact ⟨hu, h.2.2.1.symm.trans h1.2.2.1⟩
      subst hxy
      rw [ih bs1 _ h.2.2.2 h1.2.2.2]

theorem WellFormed.blocks_unique {st : State} {bs bs1 : List Blk} (h : WellFormed st bs)
    (h1 : WellFormed st bs1) : bs = bs1 :=
  Tiles.list_unique bs bs1 _ h.2.2.2.2 h1.2.2.2.2

theorem noAdj_snoc_congr {xs : List Blk} {b b1 : Blk} (h : NoAdjFree (xs ++ [b]))
    (hb : b1.alloc = 0 → b.alloc = 0) : NoAdjFree (xs ++ [b1]) := by
  unfold NoAdjFree at h ⊢
  rcases eq_nil_or_snoc xs with rfl | ⟨X, c, rfl⟩
  · exact List.chain'_singleton _
  · simp only [List.append_assoc, List.singleton_append] at h ⊢
    rw [List.chain'_split] at h ⊢
    refine ⟨h.1, ?_⟩
    have h2 := h.2
    simp only [List.chain'_cons, List.chain'_singleton, and_true] at h2 ⊢
    exact fun hh => h2 ⟨hh.1, hb hh.2⟩

theorem noAdj_cons_congr {ys : List Blk} {b b1 : Blk} (h : NoAdjFree (b :: ys))
    (hb : b1.alloc = 0 → b.alloc = 0) : NoAdjFree (b1 :: ys) := by
  unfold NoAdjFree at h ⊢
  cases ys with
  | nil => exact List.chain'_singleton _
  | cons d ys =>
    rw [List.chain'_cons] at h ⊢
    exact ⟨fun hh => h.1 ⟨hb hh.1, hh.2⟩, h.2⟩

theorem noAdj_split {xs ys : List Blk} {b : Blk} :
    NoAdjFree (xs ++ b :: ys) ↔ NoAdjFree (xs ++ [b]) ∧ NoAdjFree (b :: ys) :=
  List.chain'_split

theorem noAdj_replace {xs ys : List Blk} {b b1 : Blk} (h : NoAdjFree (xs ++ b :: ys))
    (hb : b1.alloc = 0 → b.alloc = 0) : NoAdjFree (xs ++ b1 :: ys) := by
  rw [noAdj_split] at h ⊢
  exact ⟨noAdj_snoc_congr h.1 hb, noAdj_cons_congr h.2 hb⟩

theorem noAdj_mergePrev {xs : List Blk} (b : Blk) (h : NoAdjFree xs) (hb : b.alloc = 0) :
    NoAdjFree ((mergePrev xs b).1 ++ [(mergePrev xs b).2]) := by
  rcases eq_nil_or_snoc xs with rfl | ⟨X, c, rfl⟩
  · exact List.chain'_singleton _
  · rw [mergePrev_concat]
    by_cases hc : c.alloc = 0 ∧ b.alloc = 0
    · rw [if_pos hc]
      exact noAdj_snoc_congr h (fun _ => hc.1)
    · rw [if_neg hc]
      dsimp only
      simp only [List.append_assoc, List.singleton_append]
      rw [noAdj_split]
      refine ⟨h, ?_⟩
      unfold NoAdjFree
      simp only [List.chain'_cons, List.chain'_singleton, and_true]
      exact fun hh => hc ⟨hh.1, hb⟩

theorem noAdj_mergeNext {ys : List Blk} (b : Blk) (h : NoAdjFree ys) (_hb : b.alloc = 0) :
    NoAdjFree ((mergeNext b ys).1 :: (mergeNext b ys).2) := by
  cases ys with
  | nil => exact List.chain'_singleton _
  | cons d ys =>
    unfold mergeNext
    dsimp only
    by_cases hd : b.alloc = 0 ∧ d.alloc = 0
    · rw [if_pos hd]
      exact noAdj_cons_congr h (fun _ => hd.2)
    · rw [if_neg hd]
      unfold NoAdjFree at h ⊢
      rw [List.chain'_cons]
      exact ⟨hd, h⟩

theorem NoAdjFree.left {xs ys : List Blk} (h : NoAdjFree (xs ++ ys)) : NoAdjFree xs :=
  List.Chain'.left_of_append h

theorem NoAdjFree.right {xs ys : List Blk} (h : NoAdjFree (xs ++ ys)) : NoAdjFree ys :=
  List.Chain'.right_of_append h

/-- The block list after `freeRegion` has no two adjacent free blocks when
the list before had none. -/
theorem noAdj_absFree {xs ys : List Blk} (b : Blk) (h : NoAdjFree (xs ++ b :: ys)) :
    NoAdjFree ((absFree xs b ys).1 ++ (absFree xs b ys).2.1 :: (absFree xs b ys).2.2) := by
  unfold absFree
  dsimp only
  have h1 := noAdj_mergePrev ⟨b.usable, 0⟩ h.left rfl
  have hy : NoAdjFree ys := by
    have := h.right
    unfold NoAdjFree at this ⊢
    exact this.tail
  have hal := mergePrev_alloc xs ⟨b.usable, 0⟩ rfl
  have h2 := noAdj_mergeNext (mergePrev xs ⟨b.usable, 0⟩).2 hy hal
  rw [noAdj_split]
  exact ⟨noAdj_snoc_congr h1 (fun _ => hal), h2⟩

/-- The block list after an allocation has no two adjacent free blocks when
the list before had none and the allocated block was free. -/
theorem noAdj_absSplit {xs ys : List Blk} {b : Blk} (asize : Nat)
    (h : NoAdjFree (xs ++ b :: ys)) (hb : b.alloc = 0) :
    NoAdjFree (xs ++ absSplit asize b ++ ys) := by
  unfold absSplit
  split
  · simp only [List.append_assoc, List.cons_append, List.nil_append]
    have h1 : NoAdjFree (xs ++ ⟨asize, 1⟩ :: ys) := noAdj_replace h (fun h0 => by simp at h0)
    rw [noAdj_split] at h1 h ⊢
    refine ⟨h1.1, ?_⟩
    have h2 : NoAdjFree (⟨b.usable - asize - 24, 0⟩ :: ys) := noAdj_cons_congr h.2 (fun _ => hb)
    unfold NoAdjFree at h2 ⊢
    rw [List.chain'_cons]
    exact ⟨by simp, h2⟩
  · simp only [List.append_assoc, List.cons_append, List.nil_append]
    exact noAdj_replace h (fun h0 => by simp at h0)

theorem noAdj_allocSite {bs xs ys : List Blk} {b : Blk} (h : NoAdjFree bs)
    (hg : AllocSite bs xs b ys) : NoAdjFree (xs ++ b :: ys) := by
  rcases hg with rfl | ⟨rfl, u, hu⟩
  · exact h
  · have := noAdj_mergePrev ⟨u, 0⟩ h rfl
    rw [hu] at this
    exact this

/-! ## Requests whose aligned size wraps around -/

/-- The tail of the allocation functions on the last block `b` of the arena
when `asize + 24` wraps around to `k` (0, 8 or 16): the block is "split" at
`p + k`, inside its own header. -/
theorem allocFound_wrapped_eq {st : State} {xs : List Blk} {b : Blk} {asize k : Nat}
    (hwf : WellFormed st (xs ++ [b])) (hk : asize + 24 = 18446744073709551616 + k)
    (hk16 : k ≤ 16) (hb : 24 ≤ b.usable) :
    allocFound asize (st.arenaBegin + span xs) st
      = (st.arenaBegin + span xs + 16,
          { st with mem := writeInt (makeFreeBlock (makeFreeBlock st.mem
              (st.arenaBegin + span xs + k) (24 + (b.usable - k)))
              (st.arenaBegin + span xs) k) (st.arenaBegin + span xs + 8) 1 }) := by
  obtain ⟨h8, he, hl, -, ht⟩ := hwf
  have hend := ht.end_eq
  rw [span_append] at hend
  simp only [span] at hend
  have ht2 := (Tiles_append.1 ht).2
  have hreg : prefixToRegion (st.arenaBegin + span xs) = st.arenaBegin + span xs + 16 := by
    unfold prefixToRegion prefixSize padd
    rw [if_pos (by omega)]; omega
  have hthr : padd asize (prefixSize + suffixSize + 8) = 8 + k := by
    unfold padd prefixSize suffixSize; omega
  have hstart : padd (st.arenaBegin + span xs) (prefixSize + suffixSize + asize)
      = st.arenaBegin + span xs + k := by
    unfold padd prefixSize suffixSize; omega
  have hsz1 : psub (computeNextPrefixAddr st.mem (st.arenaBegin + span xs))
      (st.arenaBegin + span xs + k) = 24 + (b.usable - k) := by
    rw [ht2.next_eq he]; unfold psub; omega
  have hsz2 : psub (st.arenaBegin + span xs + k) (st.arenaBegin + span xs) = k := by
    unfold psub; omega
  unfold allocFound
  rw [if_pos (by omega), hreg, ht2.usable_eq he, hthr]
  dsimp only
  rw [if_pos (by omega), hstart, hsz1, hsz2]

/-- After such a wrapped split the header at `p` points below `p + 16`, the
footer it points to holds `p`, and memory below `p - 8` is untouched. -/
theorem wrapped_mem (m : Mem) (p u k : Nat) (h8 : 8 ≤ p)
    (hp : p + 24 + u ≤ 9223372036854775808) (hk : k = 0 ∨ k = 8 ∨ k = 16) (hu : 24 ≤ u) :
    readPtr (writeInt (makeFreeBlock (makeFreeBlock m (p + k) (24 + (u - k))) p k) (p + 8) 1) p
        = p + k - 8 ∧
    (k = 0 → readPtr (writeInt (makeFreeBlock (makeFreeBlock m (p + k) (24 + (u - k))) p k)
        (p + 8) 1) (p - 8) = p) ∧
    (∀ x, x < p → (k = 0 → x + 8 < p) →
      writeInt (makeFreeBlock (makeFreeBlock m (p + k) (24 + (u - k))) p k) (p + 8) 1 x = m x) := by
  have ho := makeFreeBlock_outside m (p + k) (u - k) (by omega)
  generalize makeFreeBlock m (p + k) (24 + (u - k)) = m0 at ho ⊢
  have hs : psub (padd p k) 8 = p + k - 8 := by unfold psub padd; omega
  unfold makeFreeBlock
  simp only [hs]
  refine ⟨?_, ?_, ?_⟩
  · rw [readPtr_writeInt_disj _ _ _ _ (by omega), readPtr_writeInt_disj _ _ _ _ (by omega)]
    rcases hk with rfl | rfl | rfl
    · rw [readPtr_writePtr_disj _ _ _ _ (by omega), readPtr_writePtr_same]; omega
    · have e : p + 8 - 8 = p := by omega
      rw [e, readPtr_writePtr_same]; omega
    · rw [readPtr_writePtr_disj _ _ _ _ (by omega), readPtr_writePtr_same]; omega
  · rintro rfl
    rw [readPtr_writeInt_disj _ _ _ _ (by omega), readPtr_writeInt_disj _ _ _ _ (by omega)]
    simp only [Nat.add_zero]
    rw [readPtr_writePtr_same]; omega
  · intro x hx hx0
    rw [writeInt_outside _ _ _ _ (by omega), writeInt_outside _ _ _ _ (by omega),
      writePtr_outside _ _ _ _ (by omega), writePtr_outside _ _ _ _ (by omega),
      ho x (by omega)]

/-- After a wrapped split the arena has no block list at all. -/
theorem allocFound_wrapped_not_wellFormed {st : State} {xs : List Blk} {b : Blk}
    {asize k : Nat} (hwf : WellFormed st (xs ++ [b]))
    (hk : asize + 24 = 18446744073709551616 + k) (hk3 : k = 0 ∨ k = 8 ∨ k = 16)
    (hb : 24 ≤ b.usable) (bs1 : List Blk) :
    ¬ WellFormed (allocFound asize (st.arenaBegin + span xs) st).2 bs1 := by
  rw [allocFound_wrapped_eq hwf hk (by omega) hb]
  obtain ⟨h8, he, hl, -, ht⟩ := hwf
  have hend := ht.end_eq
  rw [span_append] at hend
  simp only [span] at hend
  obtain ⟨ht1, ht2⟩ := Tiles_append.1 ht
  obtain ⟨f1, f2, f3⟩ := wrapped_mem st.mem (st.arenaBegin + span xs) b.usable k (by omega)
    (by omega) hk3 hb
  generalize writeInt (makeFreeBlock (makeFreeBlock st.mem (st.arenaBegin + span xs + k)
    (24 + (b.usable - k))) (st.arenaBegin + span xs) k) (st.arenaBegin + span xs + 8) 1
    = m3 at f1 f2 f3
  rintro ⟨-, -, -, hne, hT⟩
  dsimp only at hT
  by_cases hk0 : k = 0
  · subst hk0
    rcases eq_nil_or_snoc xs with rfl | ⟨X, c, rfl⟩
    · cases bs1 with
      | nil => exact hne rfl
      | cons c1 bs1 =>
        have := hT.1
        simp only [span, Nat.add_zero] at this f1
        omega
    · obtain ⟨hX, hc⟩ := Tiles_append.1 ht1
      rw [span_snoc] at hc f1 f2 f3 hend
      have hX3 : Tiles m3 st.arenaBegin X (st.arenaBegin + span X) :=
        hX.congr (fun x _ hx => f3 x (by omega) (fun _ => by omega))
      obtain ⟨rest, -, hr, hrest⟩ := Tiles.prefix_of X bs1 _ _ hT hX3 (by omega)
      cases rest with
      | nil => exact hr rfl
      | cons c1 rest =>
        have e1 : readPtr m3 (st.arenaBegin + span X) = readPtr st.mem (st.arenaBegin + span X) :=
          readPtr_congr (fun x _ hx => f3 x (by omega) (fun _ => by omega))
        have hu : c1.usable = c.usable := by
          have := hrest.1
          rw [e1, hc.1] at this
          omega
        have h2 := hrest.2.1
        have e2 : st.arenaBegin + span X + 16 + c1.usable
            = st.arenaBegin + (span X + 24 + c.usable) - 8 := by omega
        rw [e2, f2 rfl] at h2
        omega
  · have h3 : Tiles m3 st.arenaBegin xs (st.arenaBegin + span xs) :=
      ht1.congr (fun x _ hx => f3 x (by omega) (fun h => absurd h hk0))
    obtain ⟨rest, -, hr, hrest⟩ := Tiles.prefix_of xs bs1 _ _ hT h3 (by omega)
    cases rest with
    | nil => exact hr rfl
    | cons c1 rest =>
      have := hrest.1
      rw [f1] at this
      omega

/-! ## Allocation of a request that does not overflow -/

theorem blocksAt_append (xs ys : List Blk) (a : Nat) :
    blocksAt a (xs ++ ys) = blocksAt a xs ++ blocksAt (a + span xs) ys := by
  induction xs generalizing a with
  | nil => simp [blocksAt, span]
  | cons x xs ih =>
    have e : a + 24 + x.usable + span xs = a + (24 + x.usable + span xs) := by omega
    show (a, x) :: blocksAt (a + 24 + x.usable) (xs ++ ys)
      = (a, x) :: blocksAt (a + 24 + x.usable) xs ++ blocksAt (a + (24 + x.usable + span xs)) ys
    rw [ih, e, List.cons_append]

theorem mem_blocksAt_bounds {xs : List Blk} {a : Nat} {qc : Nat × Blk}
    (h : qc ∈ blocksAt a xs) : a ≤ qc.1 ∧ qc.1 + 24 + qc.2.usable ≤ a + span xs := by
  induction xs generalizing a with
  | nil => simp [blocksAt] at h
  | cons x xs ih =>
    simp only [blocksAt, List.mem_cons] at h
    simp only [span]
    rcases h with rfl | h
    · dsimp only; omega
    · have := ih h
      omega

theorem absSplit_head (asize : Nat) (b : Blk) :
    ∃ u rest, absSplit asize b = ⟨u, 1⟩ :: rest ∧ u ≤ b.usable ∧
      (u = asize ∨ u = b.usable) := by
  unfold absSplit
  split
  · exact ⟨asize, _, rfl, by omega, Or.inl rfl⟩
  · exact ⟨b.usable, _, rfl, le_refl _, Or.inr rfl⟩

/-- Both allocation functions meet `AllocOK` for every request `s` with
`s + 24 < 2^63`. -/
theorem allocFound_ok {st : State} {bs : List Blk} {s : Nat} {r : Nat × State}
    (hwf : WellFormed st bs) (hs : s + 24 < 9223372036854775808)
    (hr : SearchOutcome st bs s r) :
    AllocOK st bs s (allocFound (align8 s) r.1 r.2) := by
  rcases allocFound_outcome hwf hs hr with
    ⟨h0, -, k, hk⟩ | ⟨xs, b, ys, hg, hb, hsb, hreg, hbeg, hend, hw, -⟩
  · exact ⟨⟨bs, by rw [hk]; exact hwf.of_brk k⟩, fun h => absurd h0 h⟩
  · refine ⟨⟨_, hw⟩, fun _ => ?_⟩
    generalize allocFound (align8 s) r.1 r.2 = res at hreg hbeg hend hw
    obtain ⟨h8, he, -, -, ht⟩ := hw
    have h8' := hwf.1
    rw [hbeg] at ht h8
    rw [span_append] at hend
    simp only [span] at hend
    have hrp : regionToPrefix res.1 = st.arenaBegin + span xs := by
      rw [hreg]
      unfold regionToPrefix prefixSize psub
      rw [if_pos (by omega)]
      omega
    obtain ⟨u, rest, hsplit, hu, hu2⟩ := absSplit_head (align8 s) b
    rw [hsplit, List.append_assoc, List.cons_append] at ht
    have ht2 := (Tiles_append.1 ht).2
    have husable := ht2.usable_eq he
    have halloc := ht2.2.2.1
    have hlen := ht2.2.2.2.end_eq
    dsimp only at husable halloc hlen
    rw [hrp, husable, halloc, hbeg]
    have hsu : s ≤ u := by
      rcases hu2 with rfl | rfl
      · exact align8_ge (by omega)
      · exact hsb
    refine ⟨rfl, hsu, by omega, by omega, ?_⟩
    intro qc hqc hqa
    rcases hg with hbs | ⟨hys, v, hbs⟩
    · rw [hbs, blocksAt_append] at hqc
      rcases List.mem_append.1 hqc with h1 | h1
      · have := mem_blocksAt_bounds h1
        left; omega
      · simp only [blocksAt, List.mem_cons] at h1
        rcases h1 with rfl | h1
        · exact absurd hb hqa
        · have := mem_blocksAt_bounds h1
          right; omega
    · rcases eq_nil_or_snoc bs with rfl | ⟨X, c, rfl⟩
      · simp [blocksAt] at hqc
      · rw [mergePrev_concat] at hbs
        by_cases hc : c.alloc = 0 ∧ (⟨v, 0⟩ : Blk).alloc = 0
        · rw [if_pos hc] at hbs
          obtain ⟨hx, -⟩ := Prod.mk.inj hbs
          subst hx
          rw [blocksAt_append] at hqc
          rcases List.mem_append.1 hqc with h1 | h1
          · have := mem_blocksAt_bounds h1
            left; omega
          · simp only [blocksAt, List.mem_cons, List.not_mem_nil, or_false] at h1
            subst h1
            exact absurd hc.1 hqa
        · rw [if_neg hc] at hbs
          obtain ⟨hx, -⟩ := Prod.mk.inj hbs
          subst hx
          have := mem_blocksAt_bounds hqc
          left; omega

/-- The allocation functions on a well-formed arena, for a request `s` with
`s + 24 < 2^63`: both return (with enough fuel) and meet `AllocOK`. -/
theorem alloc_ok (st : State) (bs : List Blk) (s fuel : Nat) (hwf : WellFormed st bs)
    (hs : s + 24 < 9223372036854775808) (hf : bs.length < fuel) :
    ∃ res1 res2, firstFitAllocRegion fuel s st = some res1 ∧
      bestFitAllocRegion fuel s st = some res2 ∧
      AllocOK st bs s res1 ∧ AllocOK st bs s res2 := by
  obtain ⟨r1, h1, o1⟩ := findFirstFit_outcome s hwf hf
  obtain ⟨r2, h2, o2⟩ := findBestFit_outcome s hwf hf
  have hbeg : ¬ st.arenaBegin = 0 := by have := hwf.1; omega
  refine ⟨_, _, ?_, ?_, allocFound_ok hwf hs o1, allocFound_ok hwf hs o2⟩
  · unfold firstFitAllocRegion
    simp only [if_neg hbeg, h1]
    unfold allocFound
    split <;> rfl
  · unfold bestFitAllocRegion
    simp only [if_neg hbeg, h2]
    unfold allocFound
    split <;> rfl

/-! ## `arenaCheck` on a well-formed arena -/

theorem bytes_span (bs : List Blk) :
    allocatedBytes bs + freeBytes bs + 24 * bs.length = span bs := by
  induction bs with
  | nil => rfl
  | cons b bs ih =>
    simp only [allocatedBytes, freeBytes, span, List.length_cons]
    split <;> omega

theorem arenaCheckFrom_spec (st : State) (he : st.arenaEnd ≤ 9223372036854775808) :
    ∀ (ys : List Blk) (p fuel : Nat) (t : Tally), 0 < p → st.arenaBegin ≤ p → ys ≠ [] →
      Tiles st.mem p ys st.arenaEnd → ys.length ≤ fuel →
      t.amtAllocated + span ys ≤ 9223372036854775808 →
      t.amtFree + span ys ≤ 9223372036854775808 →
      arenaCheckFrom st fuel p t = some (some ⟨t.numBlocks + ys.length,
        t.amtAllocated + allocatedBytes ys, t.amtFree + freeBytes ys⟩) := by
  intro ys
  induction ys with
  | nil => intro p fuel t _ _ h; exact absurd rfl h
  | cons b ys ih =>
    intro p fuel t hp hbeg _ ht hf hA hF
    obtain ⟨fuel, rfl⟩ : ∃ k, fuel = k + 1 := ⟨fuel - 1, by simp at hf; omega⟩
    have hend := ht.2.2.2.end_eq
    have hsum := bytes_span ys
    simp only [span] at hA hF
    have hpc1 : pcheck st p = true := by
      unfold pcheck; simp only [Bool.and_eq_true, decide_eq_true_eq]; omega
    have hpc2 : pcheck st (p + 16 + b.usable) = true := by
      unfold pcheck; simp only [Bool.and_eq_true, decide_eq_true_eq]; omega
    rw [arenaCheckFrom, if_pos (by omega)]
    simp only [hpc1, ht.1, hpc2, ht.2.1, ht.usable_eq he, ht.next_eq he, ht.2.2.1,
      Bool.not_true, Bool.false_eq_true, if_false, ne_eq, not_true_eq_false]
    have hpa : padd t.amtAllocated b.usable = t.amtAllocated + b.usable := by
      unfold padd; omega
    have hpf : padd t.amtFree b.usable = t.amtFree + b.usable := by
      unfold padd; omega
    cases ys with
    | nil =>
      have hpe : p + 24 + b.usable = st.arenaEnd := ht.2.2.2
      rw [if_pos hpe]
      simp only [allocatedBytes, freeBytes, List.length_singleton, hpa, hpf]
      by_cases hb : b.alloc = 0
      · simp [hb]
      · simp [hb]
    | cons c ys =>
      have hlen := ht.2.2.2.end_eq
      simp only [span] at hlen hA hF
      have hpc3 : pcheck st (p + 24 + b.usable) = true := by
        unfold pcheck; simp only [Bool.and_eq_true, decide_eq_true_eq]; omega
      rw [if_neg (by omega)]
      simp only [hpc3, Bool.not_true, Bool.false_eq_true, if_false]
      rw [ih (p + 24 + b.usable) fuel _ (by omega) (by omega) (by simp) ht.2.2.2
        (by simp at hf ⊢; omega)]
      · simp only [allocatedBytes, freeBytes, List.length_cons, hpa, hpf]
        by_cases hb : b.alloc = 0
        · simp [hb]; omega
        · simp [hb]; omega
      · by_cases hb : b.alloc = 0
        · simp [hb, span]; omega
        · simp [hb, span, hpa]; omega
      · by_cases hb : b.alloc = 0
        · simp [hb, span, hpf]; omega
        · simp [hb, span]; omega

/-- On a well-formed arena no assert of `arenaCheck` fails, and the counters
it ends with add up to the size of the arena: usable space of all blocks plus
24 bytes of header and footer per block equals `arenaEnd - arenaBegin`. -/
theorem arenaCheck_ok (st : State) (bs : List Blk) (fuel : Nat) (hwf : WellFormed st bs)
    (hf : bs.length ≤ fuel) :
    arenaCheck fuel st = some (some ⟨bs.length, allocatedBytes bs, freeBytes bs⟩) ∧
    allocatedBytes bs + freeBytes bs + 24 * bs.length = st.arenaEnd - st.arenaBegin := by
  obtain ⟨h8, he, -, hne, ht⟩ := hwf
  have hend := ht.end_eq
  have hsum := bytes_span bs
  constructor
  · unfold arenaCheck
    rw [arenaCheckFrom_spec st he bs st.arenaBegin fuel ⟨0, 0, 0⟩ (by omega) (le_refl _) hne ht hf
      (by dsimp only; omega) (by dsimp only; omega)]
    simp
  · omega

/-- Function `freeRegion` on the region of any block of a well-formed arena leaves a
well-formed arena with the same bounds. -/
theorem free_wellFormed (st : State) (xs ys : List Blk) (b : Blk)
    (hwf : WellFormed st (xs ++ b :: ys)) :
    WellFormed (freeRegion (st.arenaBegin + span xs + 16) st)
      ((absFree xs b ys).1 ++ (absFree xs b ys).2.1 :: (absFree xs b ys).2.2) ∧
    (freeRegion (st.arenaBegin + span xs + 16) st).arenaBegin = st.arenaBegin ∧
    (freeRegion (st.arenaBegin + span xs + 16) st).arenaEnd = st.arenaEnd := by
  obtain ⟨m1, e1, w1, -⟩ := freeRegion_spec hwf
  rw [e1]
  exact ⟨w1, rfl, rfl⟩

/-! ## Search policies, exhaustion and the no-op resize -/

/-- C7: on a well-formed arena in which some free block has usable space at
least `s`, `findBestFit(s)` returns (with enough fuel) the header of a free
block `b` with `s ≤ b.usable` whose usable space is minimal among all fitting
blocks and strictly smaller than that of every fitting block at a lower
address, and it returns the state unchanged. -/
theorem findBestFit_minimal (st : State) (bs : List Blk) (s fuel : Nat)
    (hwf : WellFormed st bs) (hfit : ∃ c ∈ bs, c.alloc = 0 ∧ s ≤ c.usable)
    (hfuel : bs.length < fuel) :
    ∃ xs b ys, bs = xs ++ b :: ys ∧
      findBestFit fuel st s = some (st.arenaBegin + span xs, st) ∧
      readInt st.mem (st.arenaBegin + span xs + 8) = 0 ∧
      computeUsableSpace st.mem (st.arenaBegin + span xs) = b.usable ∧
      b.alloc = 0 ∧ s ≤ b.usable ∧
      (∀ c ∈ bs, c.alloc = 0 → s ≤ c.usable → b.usable ≤ c.usable) ∧
      (∀ c ∈ xs, c.alloc = 0 → s ≤ c.usable → b.usable < c.usable) := by
  obtain ⟨h8, he, -, hne, ht⟩ := hwf
  obtain ⟨best, hB, hr⟩ := findBestFitFrom_spec st s (by omega) he bs [] fuel 0 hne
    (by simpa using ht) hfuel (Or.inl ⟨rfl, by simp⟩)
  simp only [span, Nat.add_zero, List.nil_append] at hr hB
  rcases hB with ⟨-, hn⟩ | ⟨x1, b, x2, hx, hp, hf, h1, h2⟩
  · obtain ⟨c, hc, hc2⟩ := hfit
    exact absurd hc2 (hn c hc)
  · subst hx
    have htb := (Tiles_append.1 ht).2
    refine ⟨x1, b, x2, rfl, ?_, ?_, htb.usable_eq he, hf.1, hf.2, ?_, fun c hc h3 h4 => h1 c hc ⟨h3, h4⟩⟩
    · unfold findBestFit
      rw [hr, if_pos (by omega), hp]
    · rw [htb.2.2.1]; exact hf.1
    · intro c hc h3 h4
      rcases List.mem_append.1 hc with hc | hc
      · exact Nat.le_of_lt (h1 c hc ⟨h3, h4⟩)
      · rcases List.mem_cons.1 hc with rfl | hc
        · exact le_refl _
        · exact h2 c hc ⟨h3, h4⟩

/-- C7 on the scripted arena (free blocks of usable sizes 40, 200 and 64):
a request for 50 bytes selects the 64-byte block, at address 4448. -/
theorem findBestFit_minimal_witness :
    WellFormed scriptedArena scriptedBlocks ∧
    (∃ xs b ys, scriptedBlocks = xs ++ b :: ys ∧
      findBestFit 6 scriptedArena 50 = some (scriptedArena.arenaBegin + span xs, scriptedArena) ∧
      readInt scriptedArena.mem (scriptedArena.arenaBegin + span xs + 8) = 0 ∧
      computeUsableSpace scriptedArena.mem (scriptedArena.arenaBegin + span xs) = b.usable ∧
      b.alloc = 0 ∧ 50 ≤ b.usable ∧
      (∀ c ∈ scriptedBlocks, c.alloc = 0 → 50 ≤ c.usable → b.usable ≤ c.usable) ∧
      (∀ c ∈ xs, c.alloc = 0 → 50 ≤ c.usable → b.usable < c.usable)) ∧
    (findBestFit 6 scriptedArena 50).map Prod.fst = some 4448 ∧
    computeUsableSpace scriptedArena.mem 4448 = 64 :=
  ⟨by decide,
    findBestFit_minimal scriptedArena scriptedBlocks 50 6 (by decide)
      ⟨⟨200, 0⟩, by decide, by decide⟩ (by decide),
    by decide, by decide⟩

/-- C8: on a well-formed arena in which some free block has usable space at
least `s`, `findFirstFit(s)` returns (with enough fuel) the header of the
first block `b` that is free with `s ≤ b.usable`: every block at a lower
address is allocated or too small; the state is returned unchanged. -/
theorem findFirstFit_lowest (st : State) (bs : List Blk) (s fuel : Nat)
    (hwf : WellFormed st bs) (hfit : ∃ c ∈ bs, c.alloc = 0 ∧ s ≤ c.usable)
    (hfuel : bs.length < fuel) :
    ∃ xs b ys, bs = xs ++ b :: ys ∧
      findFirstFit fuel st s = some (st.arenaBegin + span xs, st) ∧
      readInt st.mem (st.arenaBegin + span xs + 8) = 0 ∧
      computeUsableSpace st.mem (st.arenaBegin + span xs) = b.usable ∧
      b.alloc = 0 ∧ s ≤ b.usable ∧
      (∀ c ∈ xs, c.alloc ≠ 0 ∨ c.usable < s) := by
  obtain ⟨h8, he, -, hne, ht⟩ := hwf
  rcases findFirstFitFrom_spec st s he bs st.arenaBegin fuel (by omega) hne ht hfuel with
    ⟨xs, b, ys, h1, h2, h3, h4⟩ | ⟨h1, -⟩
  · subst h1
    have htb := (Tiles_append.1 ht).2
    refine ⟨xs, b, ys, rfl, h4, ?_, htb.usable_eq he, h2.1, h2.2, ?_⟩
    · rw [htb.2.2.1]; exact h2.1
    · intro c hc
      have := h3 c hc
      unfold Fits at this
      by_cases h0 : c.alloc = 0
      · right
        by_contra hlt
        exact this ⟨h0, by omega⟩
      · exact Or.inl h0
  · obtain ⟨c, hc, hc2⟩ := hfit
    exact absurd hc2 (h1 c hc)

/-- C8 on the scripted arena (free blocks of usable sizes 40, 200 and 64):
a request for 50 bytes selects the 200-byte block, at address 4192. -/
theorem findFirstFit_lowest_witness :
    WellFormed scriptedArena scriptedBlocks ∧
    (∃ xs b ys, scriptedBlocks = xs ++ b :: ys ∧
      findFirstFit 6 scriptedArena 50 = some (scriptedArena.arenaBegin + span xs, scriptedArena) ∧
      readInt scriptedArena.mem (scriptedArena.arenaBegin + span xs + 8) = 0 ∧
      computeUsableSpace scriptedArena.mem (scriptedArena.arenaBegin + span xs) = b.usable ∧
      b.alloc = 0 ∧ 50 ≤ b.usable ∧
      (∀ c ∈ xs, c.alloc ≠ 0 ∨ c.usable < 50)) ∧
    (findFirstFit 6 scriptedArena 50).map Prod.fst = some 4192 ∧
    computeUsableSpace scriptedArena.mem 4192 = 200 :=
  ⟨by decide,
    findFirstFit_lowest scriptedArena scriptedBlocks 50 6 (by decide)
      ⟨⟨200, 0⟩, by decide, by decide⟩ (by decide),
    by decide, by decide⟩

/-- C9: on a well-formed (hence initialised) arena with `growingDisabled` set
and no free block of usable space at least `s`, both allocation functions
return (with enough fuel) the null region and the state they were given:
globals and every byte of memory are unchanged. -/
theorem alloc_exhausted (st : State) (bs : List Blk) (s fuel : Nat)
    (hwf : WellFormed st bs) (hdis : st.growingDisabled ≠ 0)
    (hno : ∀ c ∈ bs, ¬ (c.alloc = 0 ∧ s ≤ c.usable)) (hfuel : bs.length < fuel) :
    firstFitAllocRegion fuel s st = some (0, st) ∧
    bestFitAllocRegion fuel s st = some (0, st) := by
  have hgrow : growArena st s = (0, st) := by
    unfold growArena; rw [if_pos hdis]
  have hout : ∀ r, SearchOutcome st bs s r → r = (0, st) := by
    intro r hr
    rcases hr with ⟨xs, b, ys, hbs, hfit, -⟩ | ⟨-, rfl⟩
    · exact absurd hfit (hno b (by rw [hbs]; simp))
    · exact hgrow
  have hbeg : st.arenaBegin ≠ 0 := by have := hwf.1; omega
  obtain ⟨r1, h1, ho1⟩ := findFirstFit_outcome s hwf hfuel
  obtain ⟨r2, h2, ho2⟩ := findBestFit_outcome s hwf hfuel
  rw [hout r1 ho1] at h1
  rw [hout r2 ho2] at h2
  constructor
  · unfold firstFitAllocRegion
    simp only [if_neg hbeg, h1]
    rfl
  · unfold bestFitAllocRegion
    simp only [if_neg hbeg, h2]
    rfl

/-- C9 on the scripted arena (growth disabled, largest free block 200 bytes):
a request for 201 bytes fails and leaves the state as it was. -/
theorem alloc_exhausted_witness :
    WellFormed scriptedArena scriptedBlocks ∧ scriptedArena.growingDisabled ≠ 0 ∧
    firstFitAllocRegion 6 201 scriptedArena = some (0, scriptedArena) ∧
    bestFitAllocRegion 6 201 scriptedArena = some (0, scriptedArena) :=
  ⟨by decide, by decide,
    alloc_exhausted scriptedArena scriptedBlocks 201 6 (by decide) (by decide) (by decide)
      (by decide)⟩

/-- C10: for a non-null region `r` and `newSize` at most the usable space of
its block, `resizeRegion(r, newSize)` returns `r` and the state it was given:
no byte of memory and no global changes. -/
theorem resizeRegion_fits (st : State) (r newSize fuel : Nat) (hr : r ≠ 0)
    (hsz : newSize ≤ computeUsableSpace st.mem (regionToPrefix r)) :
    resizeRegion fuel r newSize st = some (r, st) := by
  unfold resizeRegion
  simp only [if_pos hr]
  rw [if_pos hsz]

/-- C10 on the scripted arena: shrinking the allocated 8-byte region at
4176 to 5 bytes returns the same region and state. -/
theorem resizeRegion_fits_witness :
    (4176 ≠ 0 ∧ 5 ≤ computeUsableSpace scriptedArena.mem (regionToPrefix 4176)) ∧
    resizeRegion 6 4176 5 scriptedArena = some (4176, scriptedArena) :=
  ⟨⟨by decide, by decide⟩, resizeRegion_fits scriptedArena 4176 5 6 (by decide) (by decide)⟩

/-! ## Freeing two adjacent blocks in either order -/

theorem mergeNext_alloc (b : Blk) (ys : List Blk) (hb : b.alloc = 0) :
    (mergeNext b ys).1.alloc = 0 := by
  unfold mergeNext
  split
  · split
    · rfl
    · exact hb
  · exact hb

theorem mergeNext_usable_le (b : Blk) (ys : List Blk) : b.usable ≤ (mergeNext b ys).1.usable := by
  unfold mergeNext
  split
  · split
    · dsimp only; omega
    · exact le_refl _
  · exact le_refl _

theorem absFree_next_allocated (xs ys : List Blk) (A B : Blk) (hB : B.alloc ≠ 0) :
    absFree xs A (B :: ys)
      = ((mergePrev xs ⟨A.usable, 0⟩).1, (mergePrev xs ⟨A.usable, 0⟩).2, B :: ys) := by
  unfold absFree mergeNext
  dsimp only
  rw [if_neg (fun h => hB h.2)]

theorem absFree_prev_free (xs ys : List Blk) (c B : Blk) (hc : c.alloc = 0) :
    absFree (xs ++ [c]) B ys
      = (xs, (mergeNext ⟨c.usable + 24 + B.usable, 0⟩ ys).1,
          (mergeNext ⟨c.usable + 24 + B.usable, 0⟩ ys).2) := by
  unfold absFree
  dsimp only
  rw [mergePrev_concat, if_pos ⟨hc, rfl⟩]

theorem absFree_prev_allocated (xs ys : List Blk) (A B : Blk) (hA : A.alloc ≠ 0) :
    absFree (xs ++ [A]) B ys
      = (xs ++ [A], (mergeNext ⟨B.usable, 0⟩ ys).1, (mergeNext ⟨B.usable, 0⟩ ys).2) := by
  unfold absFree
  dsimp only
  rw [mergePrev_concat, if_neg (fun h => hA h.1)]

theorem absFree_next_free (xs ys : List Blk) (A d : Blk) (hd : d.alloc = 0) :
    absFree xs A (d :: ys)
      = ((mergePrev xs ⟨A.usable, 0⟩).1,
          ⟨(mergePrev xs ⟨A.usable, 0⟩).2.usable + 24 + d.usable, 0⟩, ys) := by
  unfold absFree mergeNext
  dsimp only
  rw [if_pos ⟨mergePrev_alloc _ _ rfl, hd⟩]

theorem mergeNext_assoc (u v : Nat) (ys : List Blk) :
    mergeNext ⟨u + 24 + v, 0⟩ ys
      = (⟨u + 24 + (mergeNext ⟨v, 0⟩ ys).1.usable, 0⟩, (mergeNext ⟨v, 0⟩ ys).2) := by
  unfold mergeNext
  cases ys with
  | nil => rfl
  | cons d ys =>
    dsimp only
    by_cases hd : d.alloc = 0
    · rw [if_pos ⟨rfl, hd⟩, if_pos ⟨rfl, hd⟩]
      dsimp only
      have : u + 24 + v + 24 + d.usable = u + 24 + (v + 24 + d.usable) := by omega
      rw [this]
    · rw [if_neg (fun h => hd h.2), if_neg (fun h => hd h.2)]

/-- C6: in a well-formed arena with adjacent allocated blocks `A` (lower) and
`B` (higher), freeing region `a` then `b`, and freeing `b` then `a`, lead to
arenas with the same block list `pre ++ f :: post`, in which `f` is one free
block that starts at or below the header of `A` and ends at or above the end
of `B`; in both final memories the header of `f` points to the same footer,
its `allocated` field is 0 and that footer points back to the header. -/
theorem free_adjacent_commute (st : State) (xs ys : List Blk) (A B : Blk)
    (hwf : WellFormed st (xs ++ A :: B :: ys)) (hA : A.alloc ≠ 0) (hB : B.alloc ≠ 0) :
    ∃ pre f post,
      WellFormed (freeRegion (st.arenaBegin + span xs + 24 + A.usable + 16)
        (freeRegion (st.arenaBegin + span xs + 16) st)) (pre ++ f :: post) ∧
      WellFormed (freeRegion (st.arenaBegin + span xs + 16)
        (freeRegion (st.arenaBegin + span xs + 24 + A.usable + 16) st)) (pre ++ f :: post) ∧
      f.alloc = 0 ∧
      st.arenaBegin + span pre ≤ st.arenaBegin + span xs ∧
      st.arenaBegin + span xs + 24 + A.usable + 24 + B.usable
        ≤ st.arenaBegin + span pre + 24 + f.usable ∧
      readPtr (freeRegion (st.arenaBegin + span xs + 24 + A.usable + 16)
          (freeRegion (st.arenaBegin + span xs + 16) st)).mem (st.arenaBegin + span pre)
        = st.arenaBegin + span pre + 16 + f.usable ∧
      readPtr (freeRegion (st.arenaBegin + span xs + 16)
          (freeRegion (st.arenaBegin + span xs + 24 + A.usable + 16) st)).mem
          (st.arenaBegin + span pre)
        = st.arenaBegin + span pre + 16 + f.usable ∧
      readInt (freeRegion (st.arenaBegin + span xs + 24 + A.usable + 16)
          (freeRegion (st.arenaBegin + span xs + 16) st)).mem (st.arenaBegin + span pre + 8)
        = 0 ∧
      readInt (freeRegion (st.arenaBegin + span xs + 16)
          (freeRegion (st.arenaBegin + span xs + 24 + A.usable + 16) st)).mem
          (st.arenaBegin + span pre + 8)
        = 0 ∧
      readPtr (freeRegion (st.arenaBegin + span xs + 24 + A.usable + 16)
          (freeRegion (st.arenaBegin + span xs + 16) st)).mem
          (st.arenaBegin + span pre + 16 + f.usable)
        = st.arenaBegin + span pre ∧
      readPtr (freeRegion (st.arenaBegin + span xs + 16)
          (freeRegion (st.arenaBegin + span xs + 24 + A.usable + 16) st)).mem
          (st.arenaBegin + span pre + 16 + f.usable)
        = st.arenaBegin + span pre := by
  have hsp := mergePrev_span xs ⟨A.usable, 0⟩
  have hle := mergePrev_span_le xs ⟨A.usable, 0⟩
  have hal := mergePrev_alloc xs ⟨A.usable, 0⟩ rfl
  dsimp only at hsp
  generalize hR : mergePrev xs ⟨A.usable, 0⟩ = R at hsp hle hal
  -- order 1: free `a`, then `b`
  obtain ⟨m1, e1, w1, -⟩ := freeRegion_spec hwf
  rw [absFree_next_allocated xs ys A B hB, hR] at w1
  dsimp only at w1
  have w1a : WellFormed { st with mem := m1 } ((R.1 ++ [R.2]) ++ B :: ys) := by
    simpa using w1
  obtain ⟨m12, e12, w12, -⟩ := freeRegion_spec w1a
  rw [absFree_prev_free R.1 ys R.2 B hal, mergeNext_assoc] at w12
  dsimp only at w12 e12
  have k1 : st.arenaBegin + span (R.1 ++ [R.2]) + 16
      = st.arenaBegin + span xs + 24 + A.usable + 16 := by
    rw [span_snoc]; omega
  rw [k1] at e12
  -- order 2: free `b`, then `a`
  have hwf2 : WellFormed st ((xs ++ [A]) ++ B :: ys) := by simpa using hwf
  obtain ⟨m2, e2, w2, -⟩ := freeRegion_spec hwf2
  rw [absFree_prev_allocated xs ys A B hA] at w2
  dsimp only at w2
  have k2 : st.arenaBegin + span (xs ++ [A]) + 16
      = st.arenaBegin + span xs + 24 + A.usable + 16 := by
    rw [span_snoc]; omega
  rw [k2] at e2
  have w2a : WellFormed { st with mem := m2 }
      (xs ++ A :: (mergeNext ⟨B.usable, 0⟩ ys).1 :: (mergeNext ⟨B.usable, 0⟩ ys).2) := by
    simpa using w2
  obtain ⟨m21, e21, w21, -⟩ := freeRegion_spec w2a
  rw [absFree_next_free xs _ A _ (mergeNext_alloc _ ys rfl), hR] at w21
  dsimp only at w21 e21
  -- both orders give the same list
  rw [e1, e12, e2, e21]
  have hN := mergeNext_usable_le ⟨B.usable, 0⟩ ys
  dsimp only at hN
  have t12 := (Tiles_append.1 w12.2.2.2.2).2
  have t21 := (Tiles_append.1 w21.2.2.2.2).2
  dsimp only at t12 t21
  exact ⟨R.1, _, _, w12, w21, rfl, by omega, by dsimp only; omega,
    t12.1, t21.1, t12.2.2.1, t21.2.2.1, t12.2.1, t21.2.1⟩

/-- C6 on the arena `pairArena`: the adjacent allocated blocks at 4160
(usable 8) and 4192 (usable 200), behind a free block of usable size 40.
Either order leaves one free block of usable size 296 at 4096. -/
theorem free_adjacent_commute_witness :
    (WellFormed pairArena ([⟨40, 0⟩] ++ ⟨8, 1⟩ :: ⟨200, 1⟩ :: [⟨8, 1⟩, ⟨64, 0⟩]) ∧
      (⟨8, 1⟩ : Blk).alloc ≠ 0 ∧ (⟨200, 1⟩ : Blk).alloc ≠ 0) ∧
    (∃ pre f post,
      WellFormed (freeRegion (pairArena.arenaBegin + span [⟨40, 0⟩] + 24 + 8 + 16)
        (freeRegion (pairArena.arenaBegin + span [⟨40, 0⟩] + 16) pairArena)) (pre ++ f :: post) ∧
      WellFormed (freeRegion (pairArena.arenaBegin + span [⟨40, 0⟩] + 16)
        (freeRegion (pairArena.arenaBegin + span [⟨40, 0⟩] + 24 + 8 + 16) pairArena)) (pre ++ f :: post) ∧
      f.alloc = 0 ∧
      pairArena.arenaBegin + span pre ≤ pairArena.arenaBegin + span [⟨40, 0⟩] ∧
      pairArena.arenaBegin + span [⟨40, 0⟩] + 24 + 8 + 24 + 200
        ≤ pairArena.arenaBegin + span pre + 24 + f.usable ∧
      readPtr (freeRegion (pairArena.arenaBegin + span [⟨40, 0⟩] + 24 + 8 + 16)
          (freeRegion (pairArena.arenaBegin + span [⟨40, 0⟩] + 16) pairArena)).mem (pairArena.arenaBegin + span pre)
        = pairArena.arenaBegin + span pre + 16 + f.usable ∧
      readPtr (freeRegion (pairArena.arenaBegin + span [⟨40, 0⟩] + 16)
          (freeRegion (pairArena.arenaBegin + span [⟨40, 0⟩] + 24 + 8 + 16) pairArena)).mem
          (pairArena.arenaBegin + span pre)
        = pairArena.arenaBegin + span pre + 16 + f.usable ∧
      readInt (freeRegion (pairArena.arenaBegin + span [⟨40, 0⟩] + 24 + 8 + 16)
          (freeRegion (pairArena.arenaBegin + span [⟨40, 0⟩] + 16) pairArena)).mem (pairArena.arenaBegin + span pre + 8)
        = 0 ∧
      readInt (freeRegion (pairArena.arenaBegin + span [⟨40, 0⟩] + 16)
          (freeRegion (pairArena.arenaBegin + span [⟨40, 0⟩] + 24 + 8 + 16) pairArena)).mem
          (pairArena.arenaBegin + span pre + 8)
        = 0 ∧
      readPtr (freeRegion (pairArena.arenaBegin + span [⟨40, 0⟩] + 24 + 8 + 16)
          (freeRegion (pairArena.arenaBegin + span [⟨40, 0⟩] + 16) pairArena)).mem
          (pairArena.arenaBegin + span pre + 16 + f.usable)
        = pairArena.arenaBegin + span pre ∧
      readPtr (freeRegion (pairArena.arenaBegin + span [⟨40, 0⟩] + 16)
          (freeRegion (pairArena.arenaBegin + span [⟨40, 0⟩] + 24 + 8 + 16) pairArena)).mem
          (pairArena.arenaBegin + span pre + 16 + f.usable)
        = pairArena.arenaBegin + span pre) ∧
    WellFormed (freeRegion 4208 (freeRegion 4176 pairArena)) [⟨296, 0⟩, ⟨8, 1⟩, ⟨64, 0⟩] ∧
    WellFormed (freeRegion 4176 (freeRegion 4208 pairArena)) [⟨296, 0⟩, ⟨8, 1⟩, ⟨64, 0⟩] :=
  ⟨⟨by decide, by decide, by decide⟩,
    free_adjacent_commute pairArena [⟨40, 0⟩] [⟨8, 1⟩, ⟨64, 0⟩] ⟨8, 1⟩ ⟨200, 1⟩
      (by decide) (by decide) (by decide),
    by decide, by decide⟩

/-! ## The allocation functions in terms of the search outcome -/

theorem firstFitAllocRegion_eq {st : State} {bs : List Blk} (s : Nat) {fuel : Nat}
    (hwf : WellFormed st bs) (hf : bs.length < fuel) :
    ∃ r, SearchOutcome st bs s r ∧
      firstFitAllocRegion fuel s st = some (allocFound (align8 s) r.1 r.2) := by
  obtain ⟨r, h1, h2⟩ := findFirstFit_outcome s hwf hf
  have hbeg : ¬ st.arenaBegin = 0 := by have := hwf.1; omega
  refine ⟨r, h2, ?_⟩
  unfold firstFitAllocRegion
  simp only [if_neg hbeg, h1]
  unfold allocFound
  split <;> rfl

theorem bestFitAllocRegion_eq {st : State} {bs : List Blk} (s : Nat) {fuel : Nat}
    (hwf : WellFormed st bs) (hf : bs.length < fuel) :
    ∃ r, SearchOutcome st bs s r ∧
      bestFitAllocRegion fuel s st = some (allocFound (align8 s) r.1 r.2) := by
  obtain ⟨r, h1, h2⟩ := findBestFit_outcome s hwf hf
  have hbeg : ¬ st.arenaBegin = 0 := by have := hwf.1; omega
  refine ⟨r, h2, ?_⟩
  unfold bestFitAllocRegion
  simp only [if_neg hbeg, h1]
  unfold allocFound
  split <;> rfl

/-! ## No two adjacent free blocks -/

/-- For a request whose chunk size is a positive increment for `sbrk`, a
block list of the arena after an allocation has no two adjacent free blocks
when the list before had none. -/
theorem allocFound_noAdj {st : State} {bs : List Blk} {s : Nat} {r : Nat × State}
    (hwf : WellFormed st bs) (hna : NoAdjFree bs) (hr : SearchOutcome st bs s r)
    (hpos : chunkSize s < 9223372036854775808)
    (bs1 : List Blk) (h1 : WellFormed (allocFound (align8 s) r.1 r.2).2 bs1) :
    NoAdjFree bs1 := by
  have hal := align8_le s
  rcases hr with ⟨xs, b, ys, hbs, hfit, rfl⟩ | ⟨hno, rfl⟩
  · subst hbs
    have hend := hwf.2.2.2.2.end_eq
    have he := hwf.2.1
    rw [span_append] at hend
    simp only [span] at hend
    have hs := hfit.2
    obtain ⟨m1, e1, w1, -⟩ := allocFound_spec (align8 s) hwf (by omega)
    dsimp only at h1
    rw [e1] at h1
    rw [← w1.blocks_unique h1]
    exact noAdj_absSplit _ hna hfit.1
  · rcases growArena_spec s hwf hpos with ⟨k, hk⟩ | ⟨hg, hbrk, hlim, m1, e1, w1, -⟩
    · rw [hk] at h1
      have h2 : WellFormed { st with brk := k } bs1 := h1
      rw [← (hwf.of_brk k).blocks_unique h2]
      exact hna
    · have hl := hwf.2.2.1
      have hc := chunkSize_ge s
      have hR := noAdj_mergePrev ⟨chunkSize s - 24, 0⟩ hna rfl
      have hRa := mergePrev_alloc bs ⟨chunkSize s - 24, 0⟩ rfl
      have hRu : chunkSize s - 24 ≤ (mergePrev bs ⟨chunkSize s - 24, 0⟩).2.usable := by
        rcases eq_nil_or_snoc bs with rfl | ⟨X, c, rfl⟩
        · exact le_refl _
        · rw [mergePrev_concat]; split
          · dsimp only; omega
          · exact le_refl _
      rw [e1] at h1
      dsimp only at h1
      by_cases ha : align8 s + 32 < 18446744073709551616
      · have w2 : WellFormed
            { st with mem := m1, arenaEnd := st.arenaEnd + chunkSize s, brk := st.brk + chunkSize s }
            ((mergePrev bs ⟨chunkSize s - 24, 0⟩).1 ++ (mergePrev bs ⟨chunkSize s - 24, 0⟩).2 :: []) :=
          w1
        obtain ⟨m2, e2, w3, -⟩ := allocFound_spec (align8 s) w2 ha
        dsimp only at e2
        rw [e2] at h1
        rw [← w3.blocks_unique h1]
        exact noAdj_absSplit _ hR hRa
      · exfalso
        have hcs : chunkSize s ≤ 9223372036854775808 := by omega
        have hk : ∃ k, align8 s + 24 = 18446744073709551616 + k ∧ (k = 0 ∨ k = 8 ∨ k = 16) := by
          unfold chunkSize padd prefixSize suffixSize DEFAULT_BRKSIZE at hcs
          unfold align8 at ha ⊢
          refine ⟨(s + 7) % 18446744073709551616 / 8 * 8 + 24 - 18446744073709551616, ?_, ?_⟩
          · split at hcs <;> omega
          · split at hcs <;> omega
        obtain ⟨k, hk1, hk2⟩ := hk
        exact allocFound_wrapped_not_wellFormed w1 hk1 hk2 (by omega) bs1 h1

/-- Where the property of C5 holds: in a well-formed arena with no two
adjacent free blocks,
(1) `freeRegion` on the region of any allocated block leaves a well-formed
arena with no two adjacent free blocks, whose block list is the old one with
the freed block merged with a free predecessor and a free successor;
(2) for every request whose chunk size `max((s + 24) mod 2^64, 0x100000)` is
below `2^63`, a positive increment for `sbrk`, `firstFitAllocRegion` and
`bestFitAllocRegion` return (with enough fuel), and every block list of the
arena they leave has no two adjacent free blocks;
(3) such a block list exists whenever `s + 24 < 2^63`. -/
theorem noAdjFree_preserved (st : State) (bs : List Blk) (hwf : WellFormed st bs)
    (hna : NoAdjFree bs) :
    (∀ xs b ys, bs = xs ++ b :: ys → b.alloc ≠ 0 →
      WellFormed (freeRegion (st.arenaBegin + span xs + 16) st)
        ((absFree xs b ys).1 ++ (absFree xs b ys).2.1 :: (absFree xs b ys).2.2) ∧
      NoAdjFree ((absFree xs b ys).1 ++ (absFree xs b ys).2.1 :: (absFree xs b ys).2.2)) ∧
    (∀ s fuel, chunkSize s < 9223372036854775808 → bs.length < fuel →
      ∃ res1 res2, firstFitAllocRegion fuel s st = some res1 ∧
        bestFitAllocRegion fuel s st = some res2 ∧
        (∀ bs1, WellFormed res1.2 bs1 → NoAdjFree bs1) ∧
        (∀ bs1, WellFormed res2.2 bs1 → NoAdjFree bs1) ∧
        (s + 24 < 9223372036854775808 →
          (∃ bs1, WellFormed res1.2 bs1) ∧ (∃ bs1, WellFormed res2.2 bs1))) := by
  constructor
  · intro xs b ys hbs _
    subst hbs
    obtain ⟨m1, e1, w1, -⟩ := freeRegion_spec hwf
    rw [e1]
    exact ⟨w1, noAdj_absFree b hna⟩
  · intro s fuel hpos hf
    obtain ⟨r1, o1, e1⟩ := firstFitAllocRegion_eq s hwf hf
    obtain ⟨r2, o2, e2⟩ := bestFitAllocRegion_eq s hwf hf
    refine ⟨_, _, e1, e2, allocFound_noAdj hwf hna o1 hpos, allocFound_noAdj hwf hna o2 hpos, ?_⟩
    intro hs
    constructor
    · rcases allocFound_outcome hwf hs o1 with ⟨-, -, k, hk⟩ | ⟨xs, b, ys, -, -, -, -, -, -, hw, -⟩
      · exact ⟨bs, by rw [hk]; exact hwf.of_brk k⟩
      · exact ⟨_, hw⟩
    · rcases allocFound_outcome hwf hs o2 with ⟨-, -, k, hk⟩ | ⟨xs, b, ys, -, -, -, -, -, -, hw, -⟩
      · exact ⟨bs, by rw [hk]; exact hwf.of_brk k⟩
      · exact ⟨_, hw⟩

/-- The scripted arena, whose block list free 40, allocated 8, free 200,
allocated 8, free 64 has no two adjacent free blocks, meets the hypotheses of
`noAdjFree_preserved`. -/
theorem noAdjFree_preserved_witness :
    (WellFormed scriptedArena scriptedBlocks ∧ NoAdjFree scriptedBlocks) ∧
    ((∀ xs b ys, scriptedBlocks = xs ++ b :: ys → b.alloc ≠ 0 →
      WellFormed (freeRegion (scriptedArena.arenaBegin + span xs + 16) scriptedArena)
        ((absFree xs b ys).1 ++ (absFree xs b ys).2.1 :: (absFree xs b ys).2.2) ∧
      NoAdjFree ((absFree xs b ys).1 ++ (absFree xs b ys).2.1 :: (absFree xs b ys).2.2)) ∧
    (∀ s fuel, chunkSize s < 9223372036854775808 → scriptedBlocks.length < fuel →
      ∃ res1 res2, firstFitAllocRegion fuel s scriptedArena = some res1 ∧
        bestFitAllocRegion fuel s scriptedArena = some res2 ∧
        (∀ bs1, WellFormed res1.2 bs1 → NoAdjFree bs1) ∧
        (∀ bs1, WellFormed res2.2 bs1 → NoAdjFree bs1) ∧
        (s + 24 < 9223372036854775808 →
          (∃ bs1, WellFormed res1.2 bs1) ∧ (∃ bs1, WellFormed res2.2 bs1)))) :=
  ⟨⟨by decide, by simp [NoAdjFree, scriptedBlocks]⟩,
    noAdjFree_preserved scriptedArena scriptedBlocks (by decide)
      (by simp [NoAdjFree, scriptedBlocks])⟩

/-! ## Requests on which the code departs from its specification -/

/-- C1 at the failing input: on the fresh arena, `firstFitAllocRegion` and
`bestFitAllocRegion` of `SIZE_MAX` bytes return the non-null region 4112,
whose block is marked allocated and has usable space 0. -/
theorem sizeMax_request_usable_zero :
    WellFormed freshArena [⟨1048552, 0⟩] ∧
    (firstFitAllocRegion 3 18446744073709551615 freshArena).map
        (fun r => (r.1, readInt r.2.mem (regionToPrefix r.1 + 8),
          computeUsableSpace r.2.mem (regionToPrefix r.1)))
      = some (4112, 1, 0) ∧
    (bestFitAllocRegion 3 18446744073709551615 freshArena).map
        (fun r => (r.1, readInt r.2.mem (regionToPrefix r.1 + 8),
          computeUsableSpace r.2.mem (regionToPrefix r.1)))
      = some (4112, 1, 0) := by
  decide

/-- C2 at the failing input: the fresh arena starts at a multiple of 8 and the
host's break is at `arenaEnd`; after `firstFitAllocRegion(1048577)` grew the
arena, `arenaEnd` is odd, and the third call of `oddGrowthRun` returns a
region at an odd address. -/
theorem odd_growth_unaligned_region :
    freshArena.arenaBegin % 8 = 0 ∧ freshArena.brk = freshArena.arenaEnd ∧
    (firstFitAllocRegion 5 1048577 freshArena).map (fun r => (r.1, r.2.arenaEnd, r.2.brk))
      = some (4112, 2101273, 2101273) ∧
    oddGrowthRun.map (fun r => (r.1, r.1 % 8)) = some (2101289, 1) := by
  decide

/-- C3 at the failing input: on the fresh arena, `firstFitAllocRegion` of
`SIZE_MAX - 7` bytes returns region 4112 whose block has usable space
`2^64 - 8`, although the arena ends at 2101248. -/
theorem wrapped_request_payload_outside :
    WellFormed freshArena [⟨1048552, 0⟩] ∧
    (firstFitAllocRegion 3 18446744073709551608 freshArena).map
        (fun r => (r.1, computeUsableSpace r.2.mem (regionToPrefix r.1), r.2.arenaBegin,
          r.2.arenaEnd))
      = some (4112, 18446744073709551608, 4096, 2101248) := by
  decide

/-- C4 at the failing input: `arenaCheck` passes on the fresh arena, and one
of its asserts fails after `firstFitAllocRegion` or `bestFitAllocRegion` of
`SIZE_MAX - 7` bytes. -/
theorem wrapped_request_fails_arenaCheck :
    WellFormed freshArena [⟨1048552, 0⟩] ∧
    arenaCheck 3 freshArena = some (some ⟨1, 0, 1048552⟩) ∧
    (firstFitAllocRegion 3 18446744073709551608 freshArena).bind (fun r => arenaCheck 5 r.2)
      = some none ∧
    (bestFitAllocRegion 3 18446744073709551608 freshArena).bind (fun r => arenaCheck 5 r.2)
      = some none := by
  decide

/-! ## `growArena`: refusal and growth -/

/-- Growth that succeeds: with growth enabled, the host's break at `arenaEnd`
and room for the chunk, `growArena(s)` extends `arenaEnd` by `chunkSize s`
bytes and returns the header of a free block `b`, the last block of the
well-formed arena, holding at least the chunk; `s ≤ b.usable` when `s + 24`
does not overflow. -/
theorem growArena_grown {st : State} {bs : List Blk} (s : Nat) (hwf : WellFormed st bs)
    (hg : st.growingDisabled = 0) (hbrk : st.brk = st.arenaEnd)
    (hroom : st.brk + chunkSize s ≤ st.brkLimit) :
    ∃ xs b, (growArena st s).1 = st.arenaBegin + span xs ∧
      (growArena st s).2.arenaBegin = st.arenaBegin ∧
      (growArena st s).2.arenaEnd = st.arenaEnd + chunkSize s ∧
      WellFormed (growArena st s).2 (xs ++ [b]) ∧ b.alloc = 0 ∧
      chunkSize s - 24 ≤ b.usable ∧
      (s + 24 < 18446744073709551616 → s ≤ b.usable) ∧
      computeUsableSpace (growArena st s).2.mem (growArena st s).1 = b.usable ∧
      readInt (growArena st s).2.mem ((growArena st s).1 + 8) = 0 ∧
      computeNextPrefixAddr (growArena st s).2.mem (growArena st s).1
        = (growArena st s).2.arenaEnd := by
  have h8 := hwf.1
  have he := hwf.2.1
  have hend := hwf.2.2.2.2.end_eq
  have hcs : (if padd s (prefixSize + suffixSize) < DEFAULT_BRKSIZE then DEFAULT_BRKSIZE
      else padd s (prefixSize + suffixSize)) = chunkSize s := rfl
  have hpos : chunkSize s < 9223372036854775808 := by
    have := hwf.2.2.1
    omega
  have hsb : sbrk (chunkSize s) st = (st.brk, { st with brk := st.brk + chunkSize s }) := by
    unfold sbrk; rw [if_pos hpos, if_pos hroom]
  rcases growArena_spec s hwf hpos with ⟨k, hk⟩ | ⟨-, -, -, m1, e1, w1, -⟩
  · exfalso
    have : (growArena st s).1 ≠ 0 ∨ (growArena st s).2.arenaEnd ≠ st.arenaEnd := by
      unfold growArena
      rw [if_neg (by omega)]
      dsimp only
      rw [hcs, hsb]
      dsimp only
      rw [if_neg (by rw [hbrk]; omega)]
      unfold coalescePrev
      dsimp only
      have hc := chunkSize_ge s
      have hp : padd st.brk (chunkSize s) = st.brk + chunkSize s := by
        unfold padd
        have := hwf.2.2.1
        omega
      split
      · right; dsimp only; rw [hp]; omega
      · right; dsimp only; rw [hp]; omega
    rw [hk] at this
    rcases this with h | h
    · exact h rfl
    · exact h rfl
  · rw [e1]
    dsimp only
    have hRu : chunkSize s - 24 ≤ (mergePrev bs ⟨chunkSize s - 24, 0⟩).2.usable := by
      rcases eq_nil_or_snoc bs with rfl | ⟨X, c, rfl⟩
      · exact le_refl _
      · rw [mergePrev_concat]; split
        · dsimp only; omega
        · exact le_refl _
    have ht := (Tiles_append.1 w1.2.2.2.2).2
    dsimp only at ht
    refine ⟨_, _, rfl, rfl, rfl, w1, mergePrev_alloc _ _ rfl, hRu, ?_, ?_, ?_, ?_⟩
    · intro hs
      have := chunkSize_ge_size hs
      omega
    · exact ht.usable_eq w1.2.1
    · rw [ht.2.2.1]; exact mergePrev_alloc _ _ rfl
    · rw [ht.next_eq w1.2.1]
      exact ht.2.2.2

/-- C18 at the failing input: on the fresh arena (growth enabled, host memory
contiguous) `growArena(SIZE_MAX)` extends `arenaEnd` by 1 MiB, which is
`max((s + 24) mod 2^64, 0x100000)`, and returns the free block at 4096 that
ends at the new `arenaEnd`, whose usable space 2097128 is less than `s`. -/
theorem growArena_sizeMax_too_small :
    WellFormed freshArena [⟨1048552, 0⟩] ∧ freshArena.growingDisabled = 0 ∧
    freshArena.brk = freshArena.arenaEnd ∧
    chunkSize 18446744073709551615 = 1048576 ∧
    (growArena freshArena 18446744073709551615).1 = 4096 ∧
    (growArena freshArena 18446744073709551615).2.arenaEnd = freshArena.arenaEnd + 1048576 ∧
    readInt (growArena freshArena 18446744073709551615).2.mem 4104 = 0 ∧
    computeNextPrefixAddr (growArena freshArena 18446744073709551615).2.mem 4096
      = (growArena freshArena 18446744073709551615).2.arenaEnd ∧
    computeUsableSpace (growArena freshArena 18446744073709551615).2.mem 4096 = 2097128 := by
  decide

/-! ## `resizeRegion` -/

theorem regionToPrefix_region {a : Nat} (h8 : 8 ≤ a) (he : a + 16 ≤ 9223372036854775808) :
    regionToPrefix (a + 16) = a ∧ prefixToRegion a = a + 16 := by
  unfold regionToPrefix prefixToRegion prefixSize psub padd
  rw [if_pos (by omega), if_pos (by omega)]
  omega

/-- The successor path of `resizeRegion`: when the block `b` at `cur` is
followed by a free block `d` with `align8(newSize - b.usable) ≤ d.usable`,
the call stores the four tags of `growUpTags` and returns the same region,
whatever the fuel. -/
theorem resizeRegion_successor_eq (st : State) (xs ys : List Blk) (b d : Blk)
    (newSize fuel : Nat) (hwf : WellFormed st (xs ++ b :: d :: ys))
    (hd : d.alloc = 0) (hnew : b.usable < newSize) (hsz : newSize < 18446744073709551616)
    (hfit : align8 (newSize - b.usable) ≤ d.usable) :
    resizeRegion fuel (st.arenaBegin + span xs + 16) newSize st
      = some (st.arenaBegin + span xs + 16,
          { st with mem := (growUpTags st.mem (st.arenaBegin + span xs)
              (st.arenaBegin + span xs + 24 + b.usable) (align8 (newSize - b.usable))) }) := by
  obtain ⟨h8, he, -, -, ht⟩ := hwf
  have hend := ht.end_eq
  rw [span_append] at hend
  simp only [span] at hend
  have ht2 := (Tiles_append.1 ht).2
  have ht3 := ht2.2.2.2
  obtain ⟨hreg, hpre⟩ := regionToPrefix_region (a := st.arenaBegin + span xs) (by omega) (by omega)
  have hnext := getNextPrefix_eq ht2 he
  rw [if_neg (List.cons_ne_nil d ys)] at hnext
  have hps : psub newSize b.usable = newSize - b.usable := by unfold psub; omega
  have hr : st.arenaBegin + span xs + 16 ≠ 0 := by omega
  have hnot : ¬ b.usable ≥ newSize := by omega
  have hcond : st.arenaBegin + span xs + 24 + b.usable ≠ 0
      ∧ readInt st.mem (st.arenaBegin + span xs + 24 + b.usable + 8) = 0
      ∧ computeUsableSpace st.mem (st.arenaBegin + span xs + 24 + b.usable)
          ≥ align8 (newSize - b.usable) :=
    ⟨by omega, by rw [ht3.2.2.1]; exact hd, by rw [ht3.usable_eq he]; exact hfit⟩
  unfold resizeRegion
  simp only [if_pos hr, hreg, ht2.usable_eq he, if_neg hnot, hnext, hps, if_pos hcond, hpre]
  rfl

theorem align8_mod (x : Nat) : align8 x % 8 = 0 := by
  unfold align8; omega

/-- The tag stores of the successor path change only the footer pointer in
the header of the growing block, and bytes from its old footer to the end of
its successor, for every `d` that is a multiple of 8 (`d = 8` included, where
the third store lands in the block's own header). -/
theorem growUpTags_frame {m : Mem} {cur u du d : Nat}
    (h1 : readPtr m cur = cur + 16 + u)
    (h2 : readPtr m (cur + 24 + u) = cur + 24 + u + 16 + du)
    (hb : cur + 24 + u + 24 + du ≤ 9223372036854775808) (hd : d ≤ du) (hd8 : d % 8 = 0) :
    ∀ x, x < cur ∨ (cur + 8 ≤ x ∧ x < cur + 16 + u) ∨ cur + 24 + u + 24 + du ≤ x →
      growUpTags m cur (cur + 24 + u) d x = m x := by
  intro x hx
  have e1 : readPtr (writePtr m cur (padd (readPtr m cur) d)) cur = cur + 16 + u + d := by
    rw [readPtr_writePtr_same, h1]; unfold padd; omega
  have e2 : readPtr (writePtr (writePtr m cur (padd (readPtr m cur) d)) (cur + 16 + u + d) cur) cur
      = cur + 16 + u + d := by
    rw [readPtr_writePtr_disj _ _ _ _ (by omega), e1]
  unfold growUpTags
  rw [e1]
  by_cases h8 : d = 8
  · subst h8
    have e3 : readPtr (writePtr (writePtr m cur (padd (readPtr m cur) 8)) (cur + 16 + u + 8) cur)
        (cur + 24 + u) = cur := by
      have : cur + 16 + u + 8 = cur + 24 + u := by omega
      rw [this, readPtr_writePtr_same]; omega
    have e4 : computeNextPrefixAddr
        (writePtr (writePtr m cur (padd (readPtr m cur) 8)) (cur + 16 + u + 8) cur) cur
        = cur + 16 + u + 8 + 8 := by
      unfold computeNextPrefixAddr suffixSize
      rw [e2]; unfold padd; omega
    rw [e3, e4]
    have e5 : computeNextPrefixAddr
        (writePtr (writePtr (writePtr m cur (padd (readPtr m cur) 8)) (cur + 16 + u + 8) cur) cur
          (cur + 16 + u + 8 + 8)) cur = cur + 16 + u + 8 + 8 + 8 := by
      unfold computeNextPrefixAddr suffixSize
      rw [readPtr_writePtr_same]; unfold padd; omega
    rw [e5, writePtr_outside _ _ _ _ (by omega), writePtr_outside _ _ _ _ (by omega),
      writePtr_outside _ _ _ _ (by omega), writePtr_outside _ _ _ _ (by omega)]
  · have e3 : readPtr (writePtr (writePtr m cur (padd (readPtr m cur) d)) (cur + 16 + u + d) cur)
        (cur + 24 + u) = cur + 24 + u + 16 + du := by
      rw [readPtr_writePtr_disj _ _ _ _ (by omega), readPtr_writePtr_disj _ _ _ _ (by omega), h2]
    rw [e3]
    have e5 : computeNextPrefixAddr
        (writePtr (writePtr (writePtr m cur (padd (readPtr m cur) d)) (cur + 16 + u + d) cur)
          (cur + 24 + u + 16 + du)
          (computeNextPrefixAddr
            (writePtr (writePtr m cur (padd (readPtr m cur) d)) (cur + 16 + u + d) cur) cur)) cur
        = cur + 16 + u + d + 8 := by
      unfold computeNextPrefixAddr suffixSize
      rw [readPtr_writePtr_disj _ _ _ _ (by omega), e2]; unfold padd; omega
    rw [e5, writePtr_outside _ _ _ _ (by omega), writePtr_outside _ _ _ _ (by omega),
      writePtr_outside _ _ _ _ (by omega), writePtr_outside _ _ _ _ (by omega)]


/-- C11: in a well-formed arena, for the region `r` of an allocated block `b`
whose successor `d` is free with `align8(newSize - b.usable) ≤ d.usable`, and
`b.usable < newSize`, `resizeRegion(r, newSize)` returns exactly `r`, for
every fuel (also fuel 0, with which no search of `bestFitAllocRegion`
returns).  The state it leaves is the old one with the four tag stores of the
successor path and nothing else: `arenaBegin`, `arenaEnd`, `growingDisabled`
and the host's break are unchanged, and the only bytes that changed are the
footer pointer in the header of `b` and bytes from the old footer of `b` to
the end of `d`; the `allocated` field of `b` and every other block are as
they were. -/
theorem resizeRegion_successor_same_region (st : State) (xs ys : List Blk) (b d : Blk)
    (newSize : Nat) (hwf : WellFormed st (xs ++ b :: d :: ys)) (hb : b.alloc ≠ 0)
    (hd : d.alloc = 0) (hnew : b.usable < newSize) (hsz : newSize < 18446744073709551616)
    (hfit : align8 (newSize - b.usable) ≤ d.usable) :
    (∀ fuel, resizeRegion fuel (st.arenaBegin + span xs + 16) newSize st
      = some (st.arenaBegin + span xs + 16,
          { st with mem := (growUpTags st.mem (st.arenaBegin + span xs)
              (st.arenaBegin + span xs + 24 + b.usable) (align8 (newSize - b.usable))) })) ∧
    (∀ x, x < st.arenaBegin + span xs ∨
        (st.arenaBegin + span xs + 8 ≤ x ∧ x < st.arenaBegin + span xs + 16 + b.usable) ∨
        st.arenaBegin + span xs + 24 + b.usable + 24 + d.usable ≤ x →
      growUpTags st.mem (st.arenaBegin + span xs) (st.arenaBegin + span xs + 24 + b.usable)
        (align8 (newSize - b.usable)) x = st.mem x) ∧
    readInt (growUpTags st.mem (st.arenaBegin + span xs)
        (st.arenaBegin + span xs + 24 + b.usable) (align8 (newSize - b.usable)))
      (st.arenaBegin + span xs + 8) = b.alloc ∧ b.alloc ≠ 0 := by
  have ht := hwf.2.2.2.2
  have he := hwf.2.1
  have hend := ht.end_eq
  rw [span_append] at hend
  simp only [span] at hend
  have ht2 := (Tiles_append.1 ht).2
  have ht3 := ht2.2.2.2
  have hfr := growUpTags_frame (d := align8 (newSize - b.usable)) ht2.1 ht3.1 (by omega) hfit
    (align8_mod _)
  refine ⟨fun fuel => resizeRegion_successor_eq st xs ys b d newSize fuel hwf hd hnew hsz hfit,
    hfr, ?_, hb⟩
  rw [readInt_congr (fun x hx1 hx2 => hfr x (Or.inr (Or.inl ⟨by omega, by omega⟩)))]
  exact ht2.2.2.1

/-- C11 on the arena after: allocate `A` with 100 bytes (region 4112, usable
space 104), allocate `B` with 100 bytes right after it, free `B`; `A` is
resized to `100 + 104 / 2 = 152` bytes. -/
theorem resizeRegion_successor_same_region_witness :
    WellFormed abArena ([] ++ ⟨104, 1⟩ :: ⟨1048424, 0⟩ :: []) ∧
    abArena.arenaBegin + span [] + 16 = 4112 ∧
    ((∀ fuel, resizeRegion fuel (abArena.arenaBegin + span [] + 16) 152 abArena
      = some (abArena.arenaBegin + span [] + 16,
          { abArena with mem := (growUpTags abArena.mem (abArena.arenaBegin + span [])
              (abArena.arenaBegin + span [] + 24 + (⟨104, 1⟩ : Blk).usable)
              (align8 (152 - (⟨104, 1⟩ : Blk).usable))) })) ∧
    (∀ x, x < abArena.arenaBegin + span [] ∨
        (abArena.arenaBegin + span [] + 8 ≤ x ∧
          x < abArena.arenaBegin + span [] + 16 + (⟨104, 1⟩ : Blk).usable) ∨
        abArena.arenaBegin + span [] + 24 + (⟨104, 1⟩ : Blk).usable + 24
          + (⟨1048424, 0⟩ : Blk).usable ≤ x →
      growUpTags abArena.mem (abArena.arenaBegin + span [])
        (abArena.arenaBegin + span [] + 24 + (⟨104, 1⟩ : Blk).usable)
        (align8 (152 - (⟨104, 1⟩ : Blk).usable)) x = abArena.mem x) ∧
    readInt (growUpTags abArena.mem (abArena.arenaBegin + span [])
        (abArena.arenaBegin + span [] + 24 + (⟨104, 1⟩ : Blk).usable)
        (align8 (152 - (⟨104, 1⟩ : Blk).usable)))
      (abArena.arenaBegin + span [] + 8) = (⟨104, 1⟩ : Blk).alloc ∧
      (⟨104, 1⟩ : Blk).alloc ≠ 0) :=
  ⟨by decide, by decide,
    resizeRegion_successor_same_region abArena [] [] ⟨104, 1⟩ ⟨1048424, 0⟩ 152
      (by decide) (by decide) (by decide) (by decide) (by decide) (by decide)⟩

/-! ## `resizeRegion` and the split: inputs on which the code departs from its specification -/

/-- C12 at the failing inputs: on the fresh arena `bestFitAllocRegion(8)`
returns region 4112 and leaves a block with usable space 8 at 4096, while
`resizeRegion(null, 8)` returns null, leaves the block at 4096 as it was and
stores 16 in the byte at address 0: it read the tags `0->suffix` and
`next->allocated` through the null header and took the successor path.  With
the pointer at address 0 set to `2^63` (`freshHigh`, the same arena) the same
call returns 4112.  `resizeRegion(null, 0)` returns null at once, while
`bestFitAllocRegion(0)` returns 4112. -/
theorem resizeRegion_null_not_alloc :
    WellFormed freshArena [⟨1048552, 0⟩] ∧ WellFormed freshHigh [⟨1048552, 0⟩] ∧
    (bestFitAllocRegion 3 8 freshArena).map
        (fun r => (r.1, computeUsableSpace r.2.mem 4096, r.2.mem 0))
      = some (4112, 8, 0) ∧
    (resizeRegion 3 0 8 freshArena).map
        (fun r => (r.1, computeUsableSpace r.2.mem 4096, r.2.mem 0))
      = some (0, 1048552, 16) ∧
    getNextPrefix freshArena (regionToPrefix 0) = 8 ∧
    (resizeRegion 3 0 8 freshHigh).map (fun r => (r.1, computeUsableSpace r.2.mem 4096))
      = some (4112, 8) ∧
    (resizeRegion 3 0 0 freshArena).map (fun r => (r.1, computeUsableSpace r.2.mem 4096))
      = some (0, 1048552) ∧
    (bestFitAllocRegion 3 0 freshArena).map (fun r => (r.1, computeUsableSpace r.2.mem 4096))
      = some (4112, 0) := by
  decide

/-- C13 at the failing input: in `dataArena` (growth disabled) region 4176 is
allocated with usable space 8 and payload byte 171, both neighbours are free
but smaller than the 992 bytes needed, and `bestFitAllocRegion(1000)` returns
null.  `resizeRegion(4176, 1000)` returns null, but the block of region 4176
is no longer marked allocated, it has been merged into one free block of
usable space 296 at 4096, and the payload byte 171 was stored at address 0. -/
theorem resizeRegion_failure_frees_region :
    WellFormed dataArena scriptedBlocks ∧
    readInt dataArena.mem 4168 = 1 ∧ computeUsableSpace dataArena.mem 4160 = 8 ∧
    dataArena.mem 4176 = 171 ∧ dataArena.mem 0 = 0 ∧
    computeUsableSpace dataArena.mem 4096 = 40 ∧
    (bestFitAllocRegion 16 1000 dataArena).map (fun r => r.1) = some 0 ∧
    (resizeRegion 16 4176 1000 dataArena).map
        (fun r => (r.1, readInt r.2.mem 4168, computeUsableSpace r.2.mem 4096, r.2.mem 0))
      = some (0, 0, 296, 171) ∧
    (resizeRegion 16 4176 1000 dataArena).bind (fun r => arenaCheck 16 r.2)
      = some (some ⟨3, 8, 360⟩) := by
  decide

/-- C15 at the failing inputs.  With `d = 8` (`scriptedArena`, region 4176 of
usable space 8, free successor of usable space 200, `newSize = 16`): after
`resizeRegion` the block has usable space 24, not 16, the footer it points to
does not point back to it, and `arenaCheck` fails.  With `d = 24`
(`staleArena`, the same arena with stale bytes in the free payload,
`newSize = 32`): the block has usable space 32 and the new successor header at
4216 has usable space 176, but its `allocated` field is 3735928559: the
field is never written. -/
theorem resizeRegion_successor_tags_wrong :
    WellFormed scriptedArena scriptedBlocks ∧ WellFormed staleArena scriptedBlocks ∧
    align8 (16 - 8) = 8 ∧ align8 (32 - 8) = 24 ∧
    (resizeRegion 16 4176 16 scriptedArena).map
        (fun r => (r.1, computeUsableSpace r.2.mem 4160, readPtr r.2.mem (readPtr r.2.mem 4160)))
      = some (4176, 24, 0) ∧
    (resizeRegion 16 4176 16 scriptedArena).bind (fun r => arenaCheck 16 r.2) = some none ∧
    (resizeRegion 16 4176 32 staleArena).map
        (fun r => (r.1, computeUsableSpace r.2.mem 4160, getNextPrefix r.2 4160,
          computeUsableSpace r.2.mem 4216, readInt r.2.mem (4216 + 8)))
      = some (4176, 32, 4216, 176, 3735928559) := by
  decide

/-- C16 at the failing input: in `pairArena` region 4176 is allocated with
usable space 8, its successor is allocated and its predecessor at 4096 is
free with usable space 40; `newSize = 32` gives `d = 24`.  `resizeRegion`
returns `4176 - 24` and the moved header at 4136 has usable space 32, the
predecessor has usable space 16, but the moved header has `allocated = 0`,
the predecessor's new footer at 4128 holds 0 instead of 4096, and
`arenaCheck` fails. -/
theorem resizeRegion_predecessor_tags_wrong :
    WellFormed pairArena [⟨40, 0⟩, ⟨8, 1⟩, ⟨200, 1⟩, ⟨8, 1⟩, ⟨64, 0⟩] ∧
    align8 (32 - 8) = 24 ∧
    (resizeRegion 16 4176 32 pairArena).map
        (fun r => (r.1, computeUsableSpace r.2.mem 4136, computeUsableSpace r.2.mem 4096))
      = some (4152, 32, 16) ∧
    (resizeRegion 16 4176 32 pairArena).map
        (fun r => (readInt r.2.mem (4136 + 8), readPtr r.2.mem 4128)) = some (0, 0) ∧
    (resizeRegion 16 4176 32 pairArena).bind (fun r => arenaCheck 16 r.2) = some none := by
  decide

/-- C17 at the failing input: on the fresh arena with `s = 2^64 - 24`
(`align8 s = s`) the search returns the block at 4096 with usable space
`U = 2097128 < s` (the arena grew by 1 MiB); `U ≥ s + 32` does not hold, yet
after `firstFitAllocRegion(s)` and `bestFitAllocRegion(s)` the returned block
has usable space `s`, not `U`, and it is its own successor. -/
theorem split_rule_wrapped_request :
    WellFormed freshArena [⟨1048552, 0⟩] ∧
    align8 18446744073709551592 = 18446744073709551592 ∧
    (findFirstFit 3 freshArena 18446744073709551592).map
        (fun r => (r.1, computeUsableSpace r.2.mem r.1)) = some (4096, 2097128) ∧
    (findBestFit 3 freshArena 18446744073709551592).map
        (fun r => (r.1, computeUsableSpace r.2.mem r.1)) = some (4096, 2097128) ∧
    (firstFitAllocRegion 3 18446744073709551592 freshArena).map
        (fun r => (r.1, computeUsableSpace r.2.mem 4096, getNextPrefix r.2 4096))
      = some (4112, 18446744073709551592, 4096) ∧
    (bestFitAllocRegion 3 18446744073709551592 freshArena).map
        (fun r => (r.1, computeUsableSpace r.2.mem 4096, getNextPrefix r.2 4096))
      = some (4112, 18446744073709551592, 4096) := by
  decide

/-- C20 at the failing input: in `fullArena` the only block `X` (header 4096,
usable space 1048552) is allocated and its footer at 1052664 points back to
4096; after `firstFitAllocRegion(2^64 - 24)` or `bestFitAllocRegion(2^64 - 24)`
that footer holds 1052672, the header of the newly grown block. -/
theorem wrapped_request_overwrites_footer :
    WellFormed fullArena [⟨1048552, 1⟩] ∧
    readPtr fullArena.mem 4096 = 1052664 ∧ readPtr fullArena.mem 1052664 = 4096 ∧
    (firstFitAllocRegion 3 18446744073709551592 fullArena).map
        (fun r => (r.1, readPtr r.2.mem 4096, readPtr r.2.mem 1052664))
      = some (1052688, 1052664, 1052672) ∧
    (bestFitAllocRegion 3 18446744073709551592 fullArena).map
        (fun r => (r.1, readPtr r.2.mem 4096, readPtr r.2.mem 1052664))
      = some (1052688, 1052664, 1052672) := by
  decide

/-! ## The copy loop and the predecessor path of `resizeRegion` -/

theorem intToSize_range {i : Nat} (h : i < 4294967296) :
    intToSize i < 2147483648 ∨
      (18446744071562067968 ≤ intToSize i ∧ intToSize i < 18446744073709551616) := by
  unfold intToSize; split <;> omega

/-- The copy loop stores nothing at an address that no `int` index reaches. -/
theorem copyBytes_outside {o n old a : Nat}
    (ha : ∀ j, j < 2147483648 ∨ (18446744071562067968 ≤ j ∧ j < 18446744073709551616) →
      a ≠ padd n j) :
    ∀ (fuel i : Nat) (m m1 : Mem), i < 4294967296 →
      copyBytes o n old fuel i m = some m1 → m1 a = m a := by
  intro fuel
  induction fuel with
  | zero => intro i m m1 _ h; simp [copyBytes] at h
  | succ k ih =>
    intro i m m1 hi h
    unfold copyBytes at h
    split at h
    · rw [ih _ _ _ (Nat.mod_lt _ (by norm_num)) h]
      unfold writeByte
      rw [if_neg (ha _ (intToSize_range hi))]
    · cases h; rfl

/-- With `2^31 ≤ oldSize ≤ 2^64 - 2^31` the copy loop ends when the counter
wraps: from counter `i ≤ 2^31` it takes `2^31 - i` iterations. -/
theorem copyBytes_stops_at_wrap (o n old : Nat) (h1 : 2147483648 ≤ old)
    (h2 : old ≤ 18446744071562067968) :
    ∀ (k i fuel : Nat) (m : Mem), i + k = 2147483648 → k < fuel →
      ∃ m1, copyBytes o n old fuel i m = some m1 := by
  intro k
  induction k with
  | zero =>
    intro i fuel m hi hf
    obtain ⟨f, rfl⟩ : ∃ f, fuel = f + 1 := ⟨fuel - 1, by omega⟩
    unfold copyBytes
    rw [if_neg (by unfold intToSize; rw [if_neg (by omega)]; omega)]
    exact ⟨m, rfl⟩
  | succ k ih =>
    intro i fuel m hi hf
    obtain ⟨f, rfl⟩ : ∃ f, fuel = f + 1 := ⟨fuel - 1, by omega⟩
    unfold copyBytes
    rw [if_pos (by unfold intToSize; rw [if_pos (by omega)]; omega)]
    have e : (i + 1) % 4294967296 = i + 1 := by omega
    rw [e]
    exact ih (i + 1) f _ (by omega) (by omega)

/-- The predecessor path of `resizeRegion`: when the block `b` at `cur`
cannot grow into its successor and its predecessor `a` is free with
`align8(newSize - b.usable) ≤ a.usable`, the call stores the three tags of
`moveDownTags`, runs the copy loop and returns the region `d` bytes lower. -/
theorem resizeRegion_predecessor_eq (st : State) (xs ys : List Blk) (a b : Blk)
    (newSize fuel : Nat) (hwf : WellFormed st (xs ++ a :: b :: ys)) (ha : a.alloc = 0)
    (hnew : b.usable < newSize) (hsz : newSize < 18446744073709551616)
    (hsucc : ∀ c zs, ys = c :: zs → ¬ (c.alloc = 0 ∧ align8 (newSize - b.usable) ≤ c.usable))
    (hfit : align8 (newSize - b.usable) ≤ a.usable) :
    resizeRegion fuel (st.arenaBegin + span xs + 24 + a.usable + 16) newSize st =
      (copyBytes (st.arenaBegin + span xs + 24 + a.usable + 16)
        (st.arenaBegin + span xs + 24 + a.usable - align8 (newSize - b.usable) + 16)
        b.usable fuel 0
        (moveDownTags st.mem (st.arenaBegin + span xs) (st.arenaBegin + span xs + 24 + a.usable)
          b.usable (align8 (newSize - b.usable)))).map
        (fun m => (st.arenaBegin + span xs + 24 + a.usable - align8 (newSize - b.usable) + 16,
          { st with mem := m })) := by
  obtain ⟨h8, he, -, -, ht⟩ := hwf
  have hend := ht.end_eq
  rw [span_append] at hend
  simp only [span] at hend
  have ht2 := (Tiles_append.1 ht).2
  have ht3 := ht2.2.2.2
  obtain ⟨hreg, hpre⟩ := regionToPrefix_region (a := st.arenaBegin + span xs + 24 + a.usable)
    (by omega) (by omega)
  have hnext := getNextPrefix_eq ht3 he
  have hprev := getPrevPrefix_eq h8 (by omega) he ht2
  have hps : psub newSize b.usable = newSize - b.usable := by unfold psub; omega
  have hr : st.arenaBegin + span xs + 24 + a.usable + 16 ≠ 0 := by omega
  have hnot : ¬ b.usable ≥ newSize := by omega
  have hcond1 : ¬ ((if ys = [] then 0 else st.arenaBegin + span xs + 24 + a.usable + 24 + b.usable) ≠ 0
      ∧ readInt st.mem ((if ys = [] then 0
          else st.arenaBegin + span xs + 24 + a.usable + 24 + b.usable) + 8) = 0
      ∧ computeUsableSpace st.mem (if ys = [] then 0
          else st.arenaBegin + span xs + 24 + a.usable + 24 + b.usable)
        ≥ align8 (newSize - b.usable)) := by
    cases ys with
    | nil => simp
    | cons c zs =>
      have ht4 := ht3.2.2.2
      rw [if_neg (List.cons_ne_nil c zs), ht4.2.2.1, ht4.usable_eq he]
      intro h
      exact hsucc c zs rfl ⟨h.2.1, h.2.2⟩
  have hcond2 : st.arenaBegin + span xs ≠ 0 ∧ readInt st.mem (st.arenaBegin + span xs + 8) = 0
      ∧ computeUsableSpace st.mem (st.arenaBegin + span xs) ≥ align8 (newSize - b.usable) :=
    ⟨by omega, by rw [ht2.2.2.1]; exact ha, by rw [ht2.usable_eq he]; exact hfit⟩
  have hcur1 : psub (st.arenaBegin + span xs + 24 + a.usable) (align8 (newSize - b.usable))
      = st.arenaBegin + span xs + 24 + a.usable - align8 (newSize - b.usable) :=
    psub_eq (by omega) (by omega)
  obtain ⟨-, hpre1⟩ := regionToPrefix_region
    (a := st.arenaBegin + span xs + 24 + a.usable - align8 (newSize - b.usable))
    (by omega) (by omega)
  have hps8 : computePrevSuffixAddr
      (st.arenaBegin + span xs + 24 + a.usable - align8 (newSize - b.usable))
      = st.arenaBegin + span xs + 24 + a.usable - align8 (newSize - b.usable) - 8 := by
    unfold computePrevSuffixAddr suffixSize
    exact psub_eq (by omega) (by omega)
  have hsame : readPtr (writePtr st.mem
      (st.arenaBegin + span xs + 24 + a.usable - align8 (newSize - b.usable))
      (st.arenaBegin + span xs + 24 + a.usable + 16 + b.usable))
      (st.arenaBegin + span xs + 24 + a.usable - align8 (newSize - b.usable))
      = st.arenaBegin + span xs + 24 + a.usable + 16 + b.usable := by
    rw [readPtr_writePtr_same]; omega
  unfold resizeRegion
  simp only [if_pos hr, hreg, ht3.usable_eq he, if_neg hnot, hnext, hprev, hps, if_neg hcond1,
    if_pos hcond2, hpre, hcur1, hpre1, hps8, ht3.1, hsame]
  unfold moveDownTags
  cases copyBytes (st.arenaBegin + span xs + 24 + a.usable + 16)
      (st.arenaBegin + span xs + 24 + a.usable - align8 (newSize - b.usable) + 16) b.usable fuel 0
      (writePtr (writePtr (writePtr st.mem
        (st.arenaBegin + span xs + 24 + a.usable - align8 (newSize - b.usable))
        (st.arenaBegin + span xs + 24 + a.usable + 16 + b.usable))
        (st.arenaBegin + span xs + 24 + a.usable + 16 + b.usable)
        (st.arenaBegin + span xs + 24 + a.usable - align8 (newSize - b.usable)))
        (st.arenaBegin + span xs)
        (st.arenaBegin + span xs + 24 + a.usable - align8 (newSize - b.usable) - 8)) <;> rfl

/-! ## `resizeRegion`: the `int` counter of the copy loop -/

/-- C14 at the failing input: in `hugeArena` region 4176 is allocated with
usable space `2^31 + 8`, its successor is allocated, its predecessor is free
with usable space 40, and the byte at offset `2^31` of the region is 171.
`resizeRegion(4176, 2^31 + 16)` takes the predecessor path and returns region
4168, but the byte at offset `2^31` of region 4168 is 0: the `int` counter of
the copy loop wraps after `2^31` iterations and the loop ends there. -/
theorem resizeRegion_copy_stops_at_int_max :
    WellFormed hugeArena [⟨40, 0⟩, ⟨2147483656, 1⟩, ⟨8, 1⟩, ⟨1048456, 0⟩] ∧
    computeUsableSpace hugeArena.mem (regionToPrefix 4176) = 2147483656 ∧
    readByte hugeArena.mem (4176 + 2147483648) = 171 ∧
    ∃ st1, resizeRegion 2147483649 4176 2147483664 hugeArena = some (4168, st1) ∧
      readByte st1.mem (4168 + 2147483648) = 0 := by
  have hwf : WellFormed hugeArena [⟨40, 0⟩, ⟨2147483656, 1⟩, ⟨8, 1⟩, ⟨1048456, 0⟩] := by decide
  refine ⟨hwf, by decide, by decide, ?_⟩
  have heq := resizeRegion_predecessor_eq hugeArena [] [⟨8, 1⟩, ⟨1048456, 0⟩] ⟨40, 0⟩
    ⟨2147483656, 1⟩ 2147483664 2147483649 hwf rfl (by decide) (by decide)
    (by intro c zs h hc; cases h; exact absurd hc.1 (by decide)) (by decide)
  have e1 : hugeArena.arenaBegin + span [] + 24 + (⟨40, 0⟩ : Blk).usable + 16 = 4176 := by
    decide
  have e2 : hugeArena.arenaBegin + span [] + 24 + (⟨40, 0⟩ : Blk).usable
      - align8 (2147483664 - (⟨2147483656, 1⟩ : Blk).usable) + 16 = 4168 := by decide
  rw [e1, e2] at heq
  have hstop : ∀ o n m, copyBytes o n 2147483656 2147483649 0 m ≠ none := by
    intro o n m h
    obtain ⟨m1, hm1⟩ := copyBytes_stops_at_wrap o n 2147483656
      (by omega) (by omega) 2147483648 0 2147483649 m rfl (by omega)
    rw [hm1] at h
    cases h
  rcases hres : resizeRegion 2147483649 4176 2147483664 hugeArena with _ | ⟨n, st1⟩
  · rw [hres] at heq
    exact absurd (Option.map_eq_none'.1 heq.symm) (hstop _ _ _)
  · rw [hres] at heq
    obtain ⟨m1, hc, hf⟩ := Option.map_eq_some'.1 heq.symm
    cases hf
    refine ⟨_, rfl, ?_⟩
    have hout := copyBytes_outside (a := 4168 + 2147483648)
      (by intro j hj; unfold padd; omega) _ _ _ _ (by norm_num) hc
    unfold readByte
    dsimp only
    rw [hout]
    decide

/-! ## The split rule and the frame of the allocation functions, for requests below `2^63 - 24` bytes -/

/-- The search on a well-formed arena, for `s + 24 < 2^63`: either it found
nothing and the arena is as it was, or it returns the header of a free block
`b` with `s ≤ b.usable` of a well-formed arena (the old one, or the grown
one), and memory changed only inside `b`. -/
theorem SearchOutcome.site {st : State} {bs : List Blk} {s : Nat} {r : Nat × State}
    (hwf : WellFormed st bs) (hs : s + 24 < 9223372036854775808)
    (hr : SearchOutcome st bs s r) :
    (r.1 = 0 ∧ (∀ c ∈ bs, ¬ Fits s c) ∧ ∃ k, r.2 = { st with brk := k }) ∨
    (∃ xs b ys, AllocSite bs xs b ys ∧ b.alloc = 0 ∧ s ≤ b.usable ∧
      r.1 = st.arenaBegin + span xs ∧ r.2.arenaBegin = st.arenaBegin ∧
      WellFormed r.2 (xs ++ b :: ys) ∧
      EqOutside st.mem r.2.mem (st.arenaBegin + span xs)
        (st.arenaBegin + span xs + 24 + b.usable)) := by
  rcases hr with ⟨xs, b, ys, hbs, hfit, rfl⟩ | ⟨hno, rfl⟩
  · right
    subst hbs
    exact ⟨xs, b, ys, Or.inl rfl, hfit.1, hfit.2, rfl, rfl, hwf, fun _ _ => rfl⟩
  · rcases growArena_spec s hwf (chunkSize_lt_half hs) with
      ⟨k, hk⟩ | ⟨hg, hbrk, hlim, m1, h1, h2, h3⟩
    · left
      rw [hk]
      exact ⟨rfl, hno, k, rfl⟩
    · right
      have hcs := chunkSize_ge_size (s := s) (by omega)
      have hsp := mergePrev_span bs ⟨chunkSize s - 24, 0⟩
      have hbe := hwf.2.2.2.2.end_eq
      dsimp only at hsp
      rw [h1]
      refine ⟨(mergePrev bs ⟨chunkSize s - 24, 0⟩).1, (mergePrev bs ⟨chunkSize s - 24, 0⟩).2, [],
        Or.inr ⟨rfl, chunkSize s - 24, rfl⟩, mergePrev_alloc _ _ rfl, ?_, rfl, rfl, h2, ?_⟩
      · have : chunkSize s - 24 ≤ (mergePrev bs ⟨chunkSize s - 24, 0⟩).2.usable := by
          rcases eq_nil_or_snoc bs with rfl | ⟨xs, c, rfl⟩
          · exact le_refl _
          · rw [mergePrev_concat]; split
            · dsimp only; omega
            · exact le_refl _
        omega
      · intro x hx
        exact h3 x (by omega)

/-- The tail of the allocation functions follows the split rule on every
free block `b` with `s ≤ b.usable` of a well-formed arena. -/
theorem allocFound_splitRule {st : State} {xs ys : List Blk} {b : Blk} (s : Nat)
    (hwf : WellFormed st (xs ++ b :: ys)) (hfit : s ≤ b.usable) :
    SplitRule s (st.arenaBegin + span xs, st)
      (allocFound (align8 s) (st.arenaBegin + span xs) st) := by
  have hal := align8_le s
  have hend := hwf.2.2.2.2.end_eq
  rw [span_append] at hend
  simp only [span] at hend
  have he0 := hwf.2.1
  have h80 := hwf.1
  have ht0 := (Tiles_append.1 hwf.2.2.2.2).2
  have hU := ht0.usable_eq he0
  have hN := ht0.next_eq he0
  obtain ⟨m1, h1, h2, -⟩ := allocFound_spec (align8 s) hwf (by omega)
  obtain ⟨-, he, -, -, ht⟩ := h2
  dsimp only at he ht
  rw [List.append_assoc] at ht
  have ht2 := (Tiles_append.1 ht).2
  rw [h1]
  unfold SplitRule
  dsimp only
  rw [hU, hN]
  by_cases hsplit : align8 s + 32 ≤ b.usable
  · have e : absSplit (align8 s) b = [⟨align8 s, 1⟩, ⟨b.usable - align8 s - 24, 0⟩] := by
      unfold absSplit; rw [if_pos hsplit]
    rw [e] at ht2
    have ht3 : Tiles m1 (st.arenaBegin + span xs + 24 + align8 s)
        (⟨b.usable - align8 s - 24, 0⟩ :: ys) st.arenaEnd := ht2.2.2.2
    have hf3 := ht3.2.1
    dsimp only at hf3
    have ea : st.arenaBegin + span xs + 24 + align8 s + 16 + (b.usable - align8 s - 24)
        = st.arenaBegin + span xs + 16 + b.usable := by omega
    rw [ea] at hf3
    refine ⟨rfl, ht2.2.2.1, fun _ => ⟨ht2.usable_eq he, ht2.2.1, ht3.2.2.1, ht3.usable_eq he, ?_, ?_,
      hf3⟩, fun h => absurd hsplit (by omega)⟩
    · rw [ht3.usable_eq he]; dsimp only; omega
    · rw [ht3.next_eq he]; dsimp only; omega
  · have e : absSplit (align8 s) b = [⟨b.usable, 1⟩] := by
      unfold absSplit; rw [if_neg hsplit]
    rw [e] at ht2
    exact ⟨rfl, ht2.2.2.1, fun h => absurd h hsplit,
      fun _ => ⟨ht2.usable_eq he, ht2.next_eq he, ht2.2.1⟩⟩

/-- Where the split rule of C17 holds: on a well-formed arena, for every
request `s` with `s + 24 < 2^63` and enough fuel, the search of either
policy returns, the allocation function returns, a search that found no block
gives a null region, and otherwise the result follows `SplitRule` for the
candidate the search returned. -/
theorem alloc_split_rule (st : State) (bs : List Blk) (s fuel : Nat) (hwf : WellFormed st bs)
    (hs : s + 24 < 9223372036854775808) (hf : bs.length < fuel) :
    (∃ r res, findFirstFit fuel st s = some r ∧ firstFitAllocRegion fuel s st = some res ∧
      (r.1 = 0 → res.1 = 0) ∧ (r.1 ≠ 0 → SplitRule s r res)) ∧
    (∃ r res, findBestFit fuel st s = some r ∧ bestFitAllocRegion fuel s st = some res ∧
      (r.1 = 0 → res.1 = 0) ∧ (r.1 ≠ 0 → SplitRule s r res)) := by
  have hbeg : ¬ st.arenaBegin = 0 := by have := hwf.1; omega
  have key : ∀ r, SearchOutcome st bs s r →
      ((r.1 = 0 → (allocFound (align8 s) r.1 r.2).1 = 0) ∧
        (r.1 ≠ 0 → SplitRule s r (allocFound (align8 s) r.1 r.2))) := by
    intro r hr
    rcases SearchOutcome.site hwf hs hr with ⟨h0, -, -⟩ | ⟨xs, b, ys, -, -, hsb, hp, hb, hw, -⟩
    · refine ⟨fun _ => ?_, fun h => absurd h0 h⟩
      rw [h0]; unfold allocFound; rw [if_neg (by simp)]
    · refine ⟨fun h => ?_, fun _ => ?_⟩
      · have := hwf.1
        omega
      · have := allocFound_splitRule s hw hsb
        rw [hb, ← hp] at this
        exact this
  constructor
  · obtain ⟨r, h1, h2⟩ := findFirstFit_outcome s hwf hf
    refine ⟨r, allocFound (align8 s) r.1 r.2, h1, ?_, key r h2⟩
    unfold firstFitAllocRegion
    simp only [if_neg hbeg, h1]
    unfold allocFound
    split <;> rfl
  · obtain ⟨r, h1, h2⟩ := findBestFit_outcome s hwf hf
    refine ⟨r, allocFound (align8 s) r.1 r.2, h1, ?_, key r h2⟩
    unfold bestFitAllocRegion
    simp only [if_neg hbeg, h1]
    unfold allocFound
    split <;> rfl

/-! ## Frame of the allocation functions and of `freeRegion` -/

theorem mem_blocksAt_mid (a : Nat) (xs ys : List Blk) (b : Blk) :
    (a + span xs, b) ∈ blocksAt a (xs ++ b :: ys) := by
  rw [blocksAt_append]
  exact List.mem_append_right _ (List.mem_cons_self _ _)

theorem mem_blocksAt_left {a : Nat} {xs : List Blk} (ys : List Blk) {qc : Nat × Blk}
    (h : qc ∈ blocksAt a xs) : qc ∈ blocksAt a (xs ++ ys) := by
  rw [blocksAt_append]
  exact List.mem_append_left _ h

theorem mem_blocksAt_right (a : Nat) (xs : List Blk) {ys : List Blk} {qc : Nat × Blk}
    (h : qc ∈ blocksAt (a + span xs) ys) : qc ∈ blocksAt a (xs ++ ys) := by
  rw [blocksAt_append]
  exact List.mem_append_right _ h

/-- Two blocks of a list are the same block or occupy disjoint ranges. -/
theorem blocksAt_disjoint {xs : List Blk} {a : Nat} {qc qd : Nat × Blk}
    (h1 : qc ∈ blocksAt a xs) (h2 : qd ∈ blocksAt a xs) :
    qc = qd ∨ qc.1 + 24 + qc.2.usable ≤ qd.1 ∨ qd.1 + 24 + qd.2.usable ≤ qc.1 := by
  induction xs generalizing a with
  | nil => simp [blocksAt] at h1
  | cons x xs ih =>
    simp only [blocksAt, List.mem_cons] at h1 h2
    rcases h1 with rfl | h1 <;> rcases h2 with rfl | h2
    · exact Or.inl rfl
    · have := mem_blocksAt_bounds h2
      right; left; dsimp only; omega
    · have := mem_blocksAt_bounds h1
      right; right; dsimp only; omega
    · exact ih h1 h2

theorem mergePrev_cases (xs : List Blk) (b : Blk) (hb : b.alloc = 0) :
    mergePrev xs b = (xs, b) ∨
    ∃ X c, xs = X ++ [c] ∧ c.alloc = 0 ∧ mergePrev xs b = (X, ⟨c.usable + 24 + b.usable, 0⟩) := by
  rcases eq_nil_or_snoc xs with rfl | ⟨X, c, rfl⟩
  · exact Or.inl rfl
  · rw [mergePrev_concat]
    by_cases hc : c.alloc = 0
    · rw [if_pos ⟨hc, hb⟩]
      exact Or.inr ⟨X, c, rfl, hc, rfl⟩
    · rw [if_neg (fun h => hc h.1)]
      exact Or.inl rfl

theorem mergeNext_cases (b : Blk) (ys : List Blk) :
    mergeNext b ys = (b, ys) ∨
    ∃ d Y, ys = d :: Y ∧ d.alloc = 0 ∧ mergeNext b ys = (⟨b.usable + 24 + d.usable, 0⟩, Y) := by
  cases ys with
  | nil => exact Or.inl rfl
  | cons d Y =>
    unfold mergeNext
    dsimp only
    by_cases h : b.alloc = 0 ∧ d.alloc = 0
    · rw [if_pos h]
      exact Or.inr ⟨d, Y, rfl, h.2, rfl⟩
    · rw [if_neg h]
      exact Or.inl rfl

/-- On a well-formed arena, if every changed byte lies in a free block, in
the block at `skip` or at or above `arenaEnd`, then every other allocated
block is unchanged. -/
theorem FrameOK.of_written {st : State} {bs : List Blk} {skip : Nat} {m1 : Mem}
    (hwf : WellFormed st bs)
    (h : ∀ x, m1 x ≠ st.mem x →
      st.arenaEnd ≤ x ∨
      ∃ qc ∈ blocksAt st.arenaBegin bs,
        (qc.2.alloc = 0 ∨ qc.1 = skip) ∧ qc.1 ≤ x ∧ x < qc.1 + 24 + qc.2.usable) :
    FrameOK st bs skip m1 := by
  refine ⟨?_, h⟩
  intro qc hqc ha hs x hx1 hx2
  by_contra hne
  have hend := hwf.2.2.2.2.end_eq
  have hb := mem_blocksAt_bounds hqc
  rcases h x hne with h1 | ⟨qd, hqd, hf, hd1, hd2⟩
  · omega
  · rcases blocksAt_disjoint hqc hqd with rfl | h3 | h3
    · rcases hf with hf | hf
      · exact ha hf
      · exact hs hf
    · omega
    · omega

/-- Frame of `freeRegion` on the region of the block `b` of a well-formed arena. -/
theorem free_frame (st : State) (xs ys : List Blk) (b : Blk)
    (hwf : WellFormed st (xs ++ b :: ys)) :
    FrameOK st (xs ++ b :: ys) (st.arenaBegin + span xs)
      (freeRegion (st.arenaBegin + span xs + 16) st).mem := by
  apply FrameOK.of_written hwf
  obtain ⟨m1, e1, -, hout⟩ := freeRegion_spec hwf
  rw [e1]
  dsimp only
  intro x hne
  right
  have hin : st.arenaBegin + span (absFree xs b ys).1 ≤ x ∧
      x < st.arenaBegin + span (absFree xs b ys).1 + 24 + (absFree xs b ys).2.1.usable := by
    by_contra hc
    exact hne (hout x (by omega))
  have hsp := mergePrev_span xs ⟨b.usable, 0⟩
  dsimp only at hsp
  unfold absFree at hin
  dsimp only at hin
  by_cases hx1 : x < st.arenaBegin + span xs
  · rcases mergePrev_cases xs ⟨b.usable, 0⟩ rfl with hm | ⟨X, c, rfl, hc, hm⟩
    · rw [hm] at hin
      dsimp only at hin
      omega
    · rw [hm] at hin
      dsimp only at hin
      rw [span_snoc] at hx1
      refine ⟨(st.arenaBegin + span X, c), ?_, Or.inl hc, hin.1, by dsimp only; omega⟩
      rw [List.append_assoc]
      exact mem_blocksAt_mid _ _ _ _
  · by_cases hx2 : x < st.arenaBegin + span xs + 24 + b.usable
    · exact ⟨(st.arenaBegin + span xs, b), mem_blocksAt_mid _ _ _ _, Or.inr rfl, by dsimp only; omega,
        hx2⟩
    · rcases mergeNext_cases (mergePrev xs ⟨b.usable, 0⟩).2 ys with hm | ⟨d, Y, rfl, hd, hm⟩
      · rw [hm] at hin
        dsimp only at hin
        omega
      · rw [hm] at hin
        dsimp only at hin
        refine ⟨(st.arenaBegin + span xs + 24 + b.usable, d), ?_, Or.inl hd, by dsimp only; omega,
          by dsimp only; omega⟩
        have e : xs ++ b :: d :: Y = (xs ++ [b]) ++ d :: Y := by simp
        have e2 : st.arenaBegin + span xs + 24 + b.usable = st.arenaBegin + span (xs ++ [b]) := by
          rw [span_snoc]; omega
        rw [e, e2]
        exact mem_blocksAt_mid _ _ _ _

/-- Frame of the tail of the allocation functions after the search, for a
request `s` with `s + 24 < 2^63`. -/
theorem allocFound_frame {st : State} {bs : List Blk} {s : Nat} {r : Nat × State}
    (hwf : WellFormed st bs) (hs : s + 24 < 9223372036854775808)
    (hr : SearchOutcome st bs s r) :
    FrameOK st bs 0 (allocFound (align8 s) r.1 r.2).2.mem := by
  apply FrameOK.of_written hwf
  have hend := hwf.2.2.2.2.end_eq
  rcases allocFound_outcome hwf hs hr with
    ⟨-, -, k, hk⟩ | ⟨xs, b, ys, hg, hb, -, -, -, -, -, hout⟩
  · rw [hk]
    intro x hne
    exact absurd rfl hne
  · intro x hne
    have hin : st.arenaBegin + span xs ≤ x ∧ x < st.arenaBegin + span xs + 24 + b.usable := by
      by_contra hc
      exact hne (hout x (by omega))
    rcases hg with hbs | ⟨-, v, hbs⟩
    · right
      subst hbs
      exact ⟨(st.arenaBegin + span xs, b), mem_blocksAt_mid _ _ _ _, Or.inl hb, hin.1, hin.2⟩
    · rcases mergePrev_cases bs ⟨v, 0⟩ rfl with hm | ⟨X, c, rfl, hc, hm⟩
      · rw [hm] at hbs
        obtain ⟨hx, -⟩ := Prod.mk.inj hbs
        subst hx
        left; omega
      · rw [hm] at hbs
        obtain ⟨hx, -⟩ := Prod.mk.inj hbs
        subst hx
        rw [span_snoc] at hend
        by_cases hxe : st.arenaEnd ≤ x
        · exact Or.inl hxe
        · right
          exact ⟨(st.arenaBegin + span X, c), mem_blocksAt_mid _ _ _ _, Or.inl hc, hin.1,
            by dsimp only; omega⟩

/-- Frame of the allocation functions on a well-formed arena, for a request
`s` with `s + 24 < 2^63`: both return (with enough fuel), and only bytes of
blocks that were free, or newly grown memory, changed. -/
theorem alloc_frame (st : State) (bs : List Blk) (s fuel : Nat) (hwf : WellFormed st bs)
    (hs : s + 24 < 9223372036854775808) (hf : bs.length < fuel) :
    ∃ res1 res2, firstFitAllocRegion fuel s st = some res1 ∧
      bestFitAllocRegion fuel s st = some res2 ∧
      FrameOK st bs 0 res1.2.mem ∧ FrameOK st bs 0 res2.2.mem := by
  obtain ⟨r1, o1, e1⟩ := firstFitAllocRegion_eq s hwf hf
  obtain ⟨r2, o2, e2⟩ := bestFitAllocRegion_eq s hwf hf
  exact ⟨_, _, e1, e2, allocFound_frame hwf hs o1, allocFound_frame hwf hs o2⟩

theorem mem_blocksAt_split {L : List Blk} {a : Nat} {qc : Nat × Blk}
    (h : qc ∈ blocksAt a L) : ∃ xs ys, L = xs ++ qc.2 :: ys ∧ qc.1 = a + span xs := by
  induction L generalizing a with
  | nil => simp [blocksAt] at h
  | cons x L ih =>
    simp only [blocksAt, List.mem_cons] at h
    rcases h with rfl | h
    · exact ⟨[], L, rfl, rfl⟩
    · obtain ⟨xs, ys, e1, e2⟩ := ih h
      refine ⟨x :: xs, ys, by rw [e1]; rfl, ?_⟩
      rw [e2]; simp only [span]; omega

theorem span_absSplit (asize : Nat) (b : Blk) : span (absSplit asize b) = 24 + b.usable := by
  unfold absSplit
  split
  · simp only [span]; omega
  · simp only [span]; omega

/-- A block that was allocated before an allocation is still a block of the
list afterwards, at the same address: the allocation replaced a free block
(or the new chunk) by blocks spanning the same bytes. -/
theorem allocSite_mem {bs xs ys : List Blk} {b : Blk} {a : Nat} {qc : Nat × Blk}
    (hg : AllocSite bs xs b ys) (hb : b.alloc = 0) (hq : qc ∈ blocksAt a bs)
    (hqa : qc.2.alloc ≠ 0) (mid : List Blk) (hmid : span mid = 24 + b.usable) :
    qc ∈ blocksAt a (xs ++ mid ++ ys) := by
  rcases hg with hbs | ⟨hys, v, hbs⟩
  · subst hbs
    rw [blocksAt_append] at hq
    rcases List.mem_append.1 hq with h1 | h1
    · rw [List.append_assoc]
      exact mem_blocksAt_left _ h1
    · simp only [blocksAt, List.mem_cons] at h1
      rcases h1 with rfl | h1
      · exact absurd hb hqa
      · have e : a + span (xs ++ mid) = a + span xs + 24 + b.usable := by
          rw [span_append, hmid]; omega
        apply mem_blocksAt_right
        rw [e]
        exact h1
  · subst hys
    rw [List.append_nil]
    rcases mergePrev_cases bs ⟨v, 0⟩ rfl with hm | ⟨X, c, rfl, hc, hm⟩
    · rw [hm] at hbs
      obtain ⟨hx, -⟩ := Prod.mk.inj hbs
      subst hx
      exact mem_blocksAt_left _ hq
    · rw [hm] at hbs
      obtain ⟨hx, -⟩ := Prod.mk.inj hbs
      subst hx
      rw [blocksAt_append] at hq
      rcases List.mem_append.1 hq with h1 | h1
      · exact mem_blocksAt_left _ h1
      · simp only [blocksAt, List.mem_cons, List.not_mem_nil, or_false] at h1
        subst h1
        exact absurd hc hqa

/-- Stores into the payload of one block keep the tiling. -/
theorem Tiles.payload_congr {m m1 : Mem} {xs ys : List Blk} {c : Blk} {a e : Nat}
    (h : Tiles m a (xs ++ c :: ys) e)
    (hm : ∀ x, x < a + span xs + 16 ∨ a + span xs + 16 + c.usable ≤ x → m1 x = m x) :
    Tiles m1 a (xs ++ c :: ys) e := by
  obtain ⟨h1, h2⟩ := Tiles_append.1 h
  have hend := h2.2.2.2.end_eq
  rw [Tiles_append]
  refine ⟨h1.congr (fun x _ hx => hm x (by omega)), ?_, ?_, ?_, ?_⟩
  · rw [readPtr_congr (fun x _ hx => hm x (by omega))]; exact h2.1
  · rw [readPtr_congr (fun x hx _ => hm x (by omega))]; exact h2.2.1
  · rw [readInt_congr (fun x _ hx => hm x (by omega))]; exact h2.2.2.1
  · exact h2.2.2.2.congr (fun x hx _ => hm x (by omega))

/-! ## The copy loop on regions of at most `INT_MAX` bytes -/

/-- For `oldSize ≤ INT_MAX` the copy loop ends after `oldSize` iterations,
stores only into `[n, n + oldSize)`, and, when the destination starts at or
below the source or the two ranges are disjoint, leaves there the bytes that
were in `[o, o + oldSize)`. -/
theorem copyBytes_spec {o n old : Nat} (hold : old < 2147483648)
    (ho : o + old < 18446744073709551616) (hn : n + old < 18446744073709551616) :
    ∀ (k i fuel : Nat) (m : Mem), i + k = old → k < fuel →
      ∃ m1, copyBytes o n old fuel i m = some m1 ∧
        (∀ x, x < n + i ∨ n + old ≤ x → m1 x = m x) ∧
        ((n ≤ o ∨ o + old ≤ n) → ∀ j, i ≤ j → j < old → m1 (n + j) = m (o + j) % 256) := by
  intro k
  induction k with
  | zero =>
    intro i fuel m hi hf
    obtain ⟨f, rfl⟩ : ∃ f, fuel = f + 1 := ⟨fuel - 1, by omega⟩
    have hii : intToSize i = i := by unfold intToSize; rw [if_pos (by omega)]
    unfold copyBytes
    rw [hii, if_neg (by omega)]
    exact ⟨m, rfl, fun _ _ => rfl, fun _ j hj1 hj2 => absurd hj2 (by omega)⟩
  | succ k ih =>
    intro i fuel m hi hf
    obtain ⟨f, rfl⟩ : ∃ f, fuel = f + 1 := ⟨fuel - 1, by omega⟩
    have hii : intToSize i = i := by unfold intToSize; rw [if_pos (by omega)]
    have e : (i + 1) % 4294967296 = i + 1 := by omega
    unfold copyBytes
    rw [hii, if_pos (by omega), e, padd_eq (by omega), padd_eq (by omega)]
    obtain ⟨m1, h1, h2, h3⟩ := ih (i + 1) f (writeByte m (n + i) (readByte m (o + i)))
      (by omega) (by omega)
    refine ⟨m1, h1, ?_, ?_⟩
    · intro x hx
      rw [h2 x (by omega)]
      unfold writeByte
      rw [if_neg (by omega)]
    · intro hdir j hj1 hj2
      by_cases hji : j = i
      · subst hji
        rw [h2 (n + j) (Or.inl (by omega))]
        unfold writeByte readByte
        rw [if_pos rfl]
        omega
      · rw [h3 hdir j (by omega) hj2]
        unfold writeByte
        rw [if_neg (by omega)]

/-! ## `resizeRegion` keeps the payload of regions of at most `INT_MAX` bytes -/

/-- The tag stores of the predecessor path leave the payload of the moved
block as it was. -/
theorem moveDownTags_payload {m : Mem} {q cur u d : Nat} (hq : q + 24 ≤ cur - d) (hd : d ≤ cur) :
    ∀ x, cur + 16 ≤ x → x < cur + 16 + u → moveDownTags m q cur u d x = m x := by
  intro x hx1 hx2
  unfold moveDownTags
  rw [writePtr_outside _ _ _ _ (by omega), writePtr_outside _ _ _ _ (by omega),
    writePtr_outside _ _ _ _ (by omega)]

/-- The fallback of `resizeRegion`: when the block `b` can grow neither into
its successor nor into its predecessor, the call is `bestFitAllocRegion`,
then the copy loop, then `freeRegion`. -/
theorem resizeRegion_fallback_eq (st : State) (xs ys : List Blk) (b : Blk)
    (newSize fuel : Nat) (hwf : WellFormed st (xs ++ b :: ys))
    (hnew : b.usable < newSize) (hsz : newSize < 18446744073709551616)
    (hsucc : ∀ c zs, ys = c :: zs → ¬ (c.alloc = 0 ∧ align8 (newSize - b.usable) ≤ c.usable))
    (hpred : ∀ X a, xs = X ++ [a] → ¬ (a.alloc = 0 ∧ align8 (newSize - b.usable) ≤ a.usable)) :
    resizeRegion fuel (st.arenaBegin + span xs + 16) newSize st =
      (bestFitAllocRegion fuel newSize st).bind (fun res =>
        (copyBytes (st.arenaBegin + span xs + 16) res.1 b.usable fuel 0 res.2.mem).map
          (fun m => (res.1, freeRegion (st.arenaBegin + span xs + 16) { res.2 with mem := m }))) := by
  obtain ⟨h8, he, -, -, ht⟩ := hwf
  have hend := ht.end_eq
  rw [span_append] at hend
  simp only [span] at hend
  have ht2 := (Tiles_append.1 ht).2
  obtain ⟨hreg, -⟩ := regionToPrefix_region (a := st.arenaBegin + span xs) (by omega) (by omega)
  have hnext := getNextPrefix_eq ht2 he
  have hps : psub newSize b.usable = newSize - b.usable := by unfold psub; omega
  have hr : st.arenaBegin + span xs + 16 ≠ 0 := by omega
  have hnot : ¬ b.usable ≥ newSize := by omega
  have hcond1 : ¬ (getNextPrefix st (st.arenaBegin + span xs) ≠ 0
      ∧ readInt st.mem (getNextPrefix st (st.arenaBegin + span xs) + 8) = 0
      ∧ computeUsableSpace st.mem (getNextPrefix st (st.arenaBegin + span xs))
        ≥ align8 (newSize - b.usable)) := by
    rw [hnext]
    cases ys with
    | nil => simp
    | cons c zs =>
      have ht4 := ht2.2.2.2
      rw [if_neg (List.cons_ne_nil c zs), ht4.2.2.1, ht4.usable_eq he]
      intro h
      exact hsucc c zs rfl ⟨h.2.1, h.2.2⟩
  have hcond2 : ¬ (getPrevPrefix st (st.arenaBegin + span xs) ≠ 0
      ∧ readInt st.mem (getPrevPrefix st (st.arenaBegin + span xs) + 8) = 0
      ∧ computeUsableSpace st.mem (getPrevPrefix st (st.arenaBegin + span xs))
        ≥ align8 (newSize - b.usable)) := by
    rcases eq_nil_or_snoc xs with rfl | ⟨X, a, rfl⟩
    · have : st.arenaBegin + span [] = st.arenaBegin := by simp [span]
      rw [this, getPrevPrefix_first st h8 (by omega)]
      simp
    · rw [List.append_assoc] at ht
      have ht5 := (Tiles_append.1 ht).2
      have hp := getPrevPrefix_eq h8 (by omega) he ht5
      rw [span_snoc] at hend ⊢
      have e : st.arenaBegin + (span X + 24 + a.usable) = st.arenaBegin + span X + 24 + a.usable := by
        omega
      rw [e, hp, ht5.2.2.1, ht5.usable_eq he]
      intro h
      exact hpred X a rfl ⟨h.2.1, h.2.2⟩
  unfold resizeRegion
  simp only [if_pos hr, hreg, ht2.usable_eq he, if_neg hnot, hps, if_neg hcond1, if_neg hcond2]
  cases bestFitAllocRegion fuel newSize st with
  | none => rfl
  | some res =>
    obtain ⟨n, st1⟩ := res
    dsimp only [Option.bind]
    cases copyBytes (st.arenaBegin + span xs + 16) n b.usable fuel 0 st1.mem <;> rfl

theorem resizeRegion_successor_payload (st : State) (xs ys : List Blk) (b d : Blk)
    (newSize fuel : Nat) (hwf : WellFormed st (xs ++ b :: d :: ys))
    (hd : d.alloc = 0) (hnew : b.usable < newSize) (hsz : newSize < 18446744073709551616)
    (hfit : align8 (newSize - b.usable) ≤ d.usable) :
    ∃ st1, resizeRegion fuel (st.arenaBegin + span xs + 16) newSize st
        = some (st.arenaBegin + span xs + 16, st1) ∧
      ∀ j, j < b.usable → readByte st1.mem (st.arenaBegin + span xs + 16 + j)
        = readByte st.mem (st.arenaBegin + span xs + 16 + j) := by
  refine ⟨_, resizeRegion_successor_eq st xs ys b d newSize fuel hwf hd hnew hsz hfit, ?_⟩
  obtain ⟨h8, he, -, -, ht⟩ := hwf
  have hend := ht.end_eq
  rw [span_append] at hend
  simp only [span] at hend
  have ht2 := (Tiles_append.1 ht).2
  have ht3 := ht2.2.2.2
  intro j hj
  unfold readByte
  dsimp only
  rw [growUpTags_frame ht2.1 ht3.1 (by omega) hfit (align8_mod _) _
    (Or.inr (Or.inl ⟨by omega, by omega⟩))]

theorem resizeRegion_predecessor_payload (st : State) (xs ys : List Blk) (a b : Blk)
    (newSize fuel : Nat) (hwf : WellFormed st (xs ++ a :: b :: ys)) (ha : a.alloc = 0)
    (hnew : b.usable < newSize) (hsz : newSize < 18446744073709551616)
    (hsucc : ∀ c zs, ys = c :: zs → ¬ (c.alloc = 0 ∧ align8 (newSize - b.usable) ≤ c.usable))
    (hfit : align8 (newSize - b.usable) ≤ a.usable)
    (hint : b.usable < 2147483648) (hf : b.usable < fuel) :
    ∃ st1, resizeRegion fuel (st.arenaBegin + span xs + 24 + a.usable + 16) newSize st
        = some (st.arenaBegin + span xs + 24 + a.usable - align8 (newSize - b.usable) + 16, st1) ∧
      ∀ j, j < b.usable →
        readByte st1.mem
            (st.arenaBegin + span xs + 24 + a.usable - align8 (newSize - b.usable) + 16 + j)
          = readByte st.mem (st.arenaBegin + span xs + 24 + a.usable + 16 + j) := by
  rw [resizeRegion_predecessor_eq st xs ys a b newSize fuel hwf ha hnew hsz hsucc hfit]
  obtain ⟨h8, he, -, -, ht⟩ := hwf
  have hend := ht.end_eq
  rw [span_append] at hend
  simp only [span] at hend
  obtain ⟨m1, h1, -, h3⟩ := copyBytes_spec (o := st.arenaBegin + span xs + 24 + a.usable + 16)
    (n := st.arenaBegin + span xs + 24 + a.usable - align8 (newSize - b.usable) + 16)
    hint (by omega) (by omega) b.usable 0 fuel
    (moveDownTags st.mem (st.arenaBegin + span xs) (st.arenaBegin + span xs + 24 + a.usable)
      b.usable (align8 (newSize - b.usable))) (by omega) hf
  rw [h1]
  refine ⟨_, rfl, ?_⟩
  intro j hj
  unfold readByte
  dsimp only
  rw [h3 (Or.inl (by omega)) j (Nat.zero_le _) hj,
    moveDownTags_payload (by omega) (by omega) _ (by omega) (by omega)]
  omega

theorem resizeRegion_fallback_payload (st : State) (xs ys : List Blk) (b : Blk)
    (newSize fuel : Nat) (hwf : WellFormed st (xs ++ b :: ys)) (hb : b.alloc ≠ 0)
    (hnew : b.usable < newSize) (hs : newSize + 24 < 9223372036854775808)
    (hsucc : ∀ c zs, ys = c :: zs → ¬ (c.alloc = 0 ∧ align8 (newSize - b.usable) ≤ c.usable))
    (hpred : ∀ X a, xs = X ++ [a] → ¬ (a.alloc = 0 ∧ align8 (newSize - b.usable) ≤ a.usable))
    (hint : b.usable < 2147483648) (hf : (xs ++ b :: ys).length < fuel)
    (hf2 : b.usable < fuel) :
    ∃ n st1, resizeRegion fuel (st.arenaBegin + span xs + 16) newSize st = some (n, st1) ∧
      (n ≠ 0 → ∀ j, j < b.usable →
        readByte st1.mem (n + j) = readByte st.mem (st.arenaBegin + span xs + 16 + j)) := by
  obtain ⟨r0, ho, hbest⟩ := bestFitAllocRegion_eq newSize hwf hf
  have hfr := (allocFound_frame hwf hs ho).1
  have hout := allocFound_outcome hwf hs ho
  rw [resizeRegion_fallback_eq st xs ys b newSize fuel hwf hnew (by omega) hsucc hpred, hbest]
  generalize allocFound (align8 newSize) r0.1 r0.2 = res at hfr hout ⊢
  obtain ⟨n, ⟨mem1, ab, ae, gd, bk, bl, bm⟩⟩ := res
  simp only [Option.some_bind]
  dsimp only at hfr hout ⊢
  have h8 := hwf.1
  have he := hwf.2.1
  have hend := hwf.2.2.2.2.end_eq
  rw [span_append] at hend
  simp only [span] at hend
  have hmem : (st.arenaBegin + span xs, b) ∈ blocksAt st.arenaBegin (xs ++ b :: ys) :=
    mem_blocksAt_mid _ _ _ _
  rcases hout with ⟨h0, -, -, -⟩ | ⟨xs1, b1, ys1, hg, hb1, hsb, hreg, hbeg, hend1, hw, -⟩
  · obtain ⟨m1, h1, -, -⟩ := copyBytes_spec (o := st.arenaBegin + span xs + 16) (n := n)
      hint (by omega) (by omega) b.usable 0 fuel mem1 (by omega) hf2
    rw [h1]
    exact ⟨_, _, rfl, fun hn => absurd h0 hn⟩
  · subst hbeg hreg hend1
    -- the new block and the old block occupy disjoint ranges
    have hdisj : st.arenaBegin + span xs + 24 + b.usable ≤ st.arenaBegin + span xs1 ∨
        st.arenaBegin + span xs1 + 24 + b1.usable ≤ st.arenaBegin + span xs := by
      have m1 := allocSite_mem (a := st.arenaBegin) hg hb1 hmem hb [b1] (by simp [span])
      have m2 : (st.arenaBegin + span xs1, b1) ∈ blocksAt st.arenaBegin (xs1 ++ [b1] ++ ys1) := by
        rw [List.append_assoc]; exact mem_blocksAt_mid _ _ _ _
      rcases blocksAt_disjoint m1 m2 with h | h | h
      · have : b = b1 := (Prod.mk.inj h).2
        rw [this] at hb
        exact absurd hb1 hb
      · exact Or.inl h
      · exact Or.inr h
    obtain ⟨u, rest, hsplit, hu, hu2⟩ := absSplit_head (align8 newSize) b1
    have hnu : newSize ≤ u := by
      rcases hu2 with rfl | rfl
      · exact align8_ge (by omega)
      · exact hsb
    have hmemL := allocSite_mem (a := st.arenaBegin) hg hb1 hmem hb (absSplit (align8 newSize) b1)
      (span_absSplit _ _)
    rw [hsplit, List.append_assoc, List.cons_append] at hw hmemL
    have he1 : st.arenaBegin + span (xs1 ++ b1 :: ys1) ≤ 9223372036854775808 := hw.2.1
    rw [span_append] at he1
    simp only [span] at he1
    obtain ⟨m2, h1, h2, h3⟩ := copyBytes_spec (o := st.arenaBegin + span xs + 16)
      (n := st.arenaBegin + span xs1 + 16)
      hint (by omega) (by omega) b.usable 0 fuel mem1 (by omega) hf2
    rw [h1]
    refine ⟨_, _, rfl, fun _ => ?_⟩
    -- the arena after the copy is still well formed
    have hw2 : WellFormed
        { mem := m2, arenaBegin := st.arenaBegin,
          arenaEnd := st.arenaBegin + span (xs1 ++ b1 :: ys1), growingDisabled := gd, brk := bk,
          brkLimit := bl, brkMin := bm } (xs1 ++ ⟨u, 1⟩ :: (rest ++ ys1)) :=
      ⟨hw.1, hw.2.1, hw.2.2.1, hw.2.2.2.1,
        Tiles.payload_congr hw.2.2.2.2 (fun x hx => h2 x (by dsimp only at hx; omega))⟩
    obtain ⟨xs2, ys2, hL, hcur⟩ := mem_blocksAt_split hmemL
    dsimp only at hL hcur
    have hnew1 : (st.arenaBegin + span xs1, (⟨u, 1⟩ : Blk)) ∈
        blocksAt st.arenaBegin (xs2 ++ b :: ys2) := by
      rw [← hL]; exact mem_blocksAt_mid _ _ _ _
    rw [hL] at hw2
    have hff := (free_frame _ xs2 ys2 b hw2).1
    dsimp only at hff
    rw [← hcur] at hff
    intro j hj
    have hx := hff (st.arenaBegin + span xs1, ⟨u, 1⟩) hnew1 (Nat.succ_ne_zero 0)
      (fun h => by dsimp only at h; omega) (st.arenaBegin + span xs1 + 16 + j)
      (by dsimp only; omega) (by dsimp only; omega)
    have hy := hfr (st.arenaBegin + span xs, b) hmem hb (fun h => by dsimp only at h; omega)
      (st.arenaBegin + span xs + 16 + j) (by dsimp only; omega) (by dsimp only; omega)
    have hz := h3 (by omega) j (Nat.zero_le _) hj
    unfold readByte
    rw [hx, hz, hy]
    omega

/-- Where C14 holds: on a well-formed arena, for an allocated block `b` of
usable space at most `INT_MAX`, with `b.usable < newSize`,
`newSize + 24 < 2^63` and enough fuel, `resizeRegion` returns, and when the
result `n` is non-null the first `b.usable` bytes at `n` afterwards are the
bytes that were in the region before, whichever of the three paths is
taken. -/
theorem resizeRegion_payload_preserved (st : State) (xs ys : List Blk) (b : Blk)
    (newSize fuel : Nat) (hwf : WellFormed st (xs ++ b :: ys)) (hb : b.alloc ≠ 0)
    (hnew : b.usable < newSize) (hint : b.usable < 2147483648)
    (hs : newSize + 24 < 9223372036854775808)
    (hf : (xs ++ b :: ys).length < fuel) (hf2 : b.usable < fuel) :
    ∃ n st1, resizeRegion fuel (st.arenaBegin + span xs + 16) newSize st = some (n, st1) ∧
      (n ≠ 0 → ∀ j, j < b.usable →
        readByte st1.mem (n + j) = readByte st.mem (st.arenaBegin + span xs + 16 + j)) := by
  by_cases hsucc : ∀ c zs, ys = c :: zs →
      ¬ (c.alloc = 0 ∧ align8 (newSize - b.usable) ≤ c.usable)
  · by_cases hpred : ∀ X a, xs = X ++ [a] →
        ¬ (a.alloc = 0 ∧ align8 (newSize - b.usable) ≤ a.usable)
    · exact resizeRegion_fallback_payload st xs ys b newSize fuel hwf hb hnew hs hsucc hpred hint
        hf hf2
    · push_neg at hpred
      obtain ⟨X, a, rfl, ha, hfit⟩ := hpred
      rw [List.append_assoc] at hwf
      obtain ⟨st1, h1, h2⟩ := resizeRegion_predecessor_payload st X ys a b newSize fuel hwf ha hnew
        (by omega) hsucc hfit hint hf2
      have e : st.arenaBegin + span (X ++ [a]) + 16 = st.arenaBegin + span X + 24 + a.usable + 16 := by
        rw [span_snoc]; omega
      rw [e]
      exact ⟨_, st1, h1, fun _ => h2⟩
  · push_neg at hsucc
    obtain ⟨d, zs, rfl, hd, hfit⟩ := hsucc
    obtain ⟨st1, h1, h2⟩ := resizeRegion_successor_payload st xs zs b d newSize fuel hwf hd hnew
      (by omega) hfit
    exact ⟨_, st1, h1, fun _ => h2⟩

/-! ## Adjacent free blocks after a request that shrinks the arena -/

theorem walkFindsAdjFree_null (st : State) (fuel : Nat) : walkFindsAdjFree st fuel 0 = false := by
  cases fuel <;> simp [walkFindsAdjFree]

theorem walkFindsAdjFree_tiles (st : State) (he : st.arenaEnd ≤ 9223372036854775808) :
    ∀ (fuel : Nat) (bs : List Blk) (p : Nat), bs ≠ [] → 8 ≤ p →
      Tiles st.mem p bs st.arenaEnd → bs.length ≤ fuel →
      (walkFindsAdjFree st fuel p = true ↔ ¬ NoAdjFree bs) := by
  intro fuel
  induction fuel with
  | zero =>
    intro bs p hne _ _ hl
    cases bs with
    | nil => exact absurd rfl hne
    | cons b ys => simp at hl
  | succ k ih =>
    intro bs p hne hp ht hl
    cases bs with
    | nil => exact absurd rfl hne
    | cons b ys =>
      have hnext := getNextPrefix_eq ht he
      have hp0 : ¬ p = 0 := by omega
      unfold walkFindsAdjFree
      rw [if_neg hp0, hnext]
      cases ys with
      | nil =>
        simp [walkFindsAdjFree_null, NoAdjFree]
      | cons c zs =>
        have ht2 := ht.2.2.2
        rw [if_neg (List.cons_ne_nil c zs), ht.2.2.1, ht2.2.2.1]
        have hq : p + 24 + b.usable ≠ 0 := by omega
        have hch : NoAdjFree (b :: c :: zs) ↔
            ¬ (b.alloc = 0 ∧ c.alloc = 0) ∧ NoAdjFree (c :: zs) := by
          unfold NoAdjFree; exact List.chain'_cons
        by_cases hbc : b.alloc = 0 ∧ c.alloc = 0
        · rw [if_pos ⟨hq, hbc.1, hbc.2⟩, hch]
          simp [hbc]
        · rw [if_neg (fun h => hbc ⟨h.2.1, h.2.2⟩), hch,
            ih (c :: zs) (p + 24 + b.usable) (List.cons_ne_nil c zs) (by omega) ht2
              (by simp only [List.length_cons] at hl ⊢; omega)]
          simp [hbc]

/-- On a well-formed arena the walk from `arenaBegin` finds two consecutive
free blocks exactly when the block list has two adjacent free blocks. -/
theorem walkFindsAdjFree_iff (st : State) (bs : List Blk) (fuel : Nat) (hwf : WellFormed st bs)
    (hf : bs.length ≤ fuel) :
    walkFindsAdjFree st fuel st.arenaBegin = true ↔ ¬ NoAdjFree bs :=
  walkFindsAdjFree_tiles st hwf.2.1 fuel bs st.arenaBegin hwf.2.2.2.1 hwf.1 hwf.2.2.2.2 hf

/-- C5 at the failing input: `tailArena` is well formed with blocks
allocated 1048656, free 1048472 (header 1052776), allocated 16 (header
2101272), free 16, no two adjacent blocks are free, and the host's break is
at `arenaEnd`.  For `s = 2^64 - 64` no block fits and `growArena` passes
`s + 24 = 2^64 - 40` to `sbrk`, a negative increment, which the host grants,
returning `arenaEnd`.  After `firstFitAllocRegion(s)` or
`bestFitAllocRegion(s)` the arena ends at 2101312, the block at 1052776 is
free, its successor is the block at 2101272, which is now free as well and is
the last block: the walk over the arena finds two adjacent free blocks. -/
theorem shrunk_arena_adjacent_free :
    (WellFormed tailArena [⟨1048656, 1⟩, ⟨1048472, 0⟩, ⟨16, 1⟩, ⟨16, 0⟩] ∧
      NoAdjFree [⟨1048656, 1⟩, ⟨1048472, 0⟩, ⟨16, 1⟩, ⟨16, 0⟩] ∧
      walkFindsAdjFree tailArena 5 tailArena.arenaBegin = false) ∧
    (tailArena.growingDisabled = 0 ∧ tailArena.brk = tailArena.arenaEnd ∧
      tailArena.arenaEnd = 2101352 ∧
      chunkSize 18446744073709551552 = 18446744073709551576 ∧
      (sbrk (chunkSize 18446744073709551552) tailArena).1 = 2101352) ∧
    (firstFitAllocRegion 5 18446744073709551552 tailArena).map
        (fun r => (r.1, r.2.arenaBegin, r.2.arenaEnd)) = some (2101328, 4096, 2101312) ∧
    (firstFitAllocRegion 5 18446744073709551552 tailArena).map
        (fun r => (readInt r.2.mem (1052776 + 8), getNextPrefix r.2 1052776,
          readInt r.2.mem (2101272 + 8), getNextPrefix r.2 2101272))
      = some (0, 2101272, 0, 0) ∧
    (firstFitAllocRegion 5 18446744073709551552 tailArena).map
        (fun r => walkFindsAdjFree r.2 5 r.2.arenaBegin) = some true ∧
    (bestFitAllocRegion 5 18446744073709551552 tailArena).map
        (fun r => (readInt r.2.mem (1052776 + 8), getNextPrefix r.2 1052776,
          readInt r.2.mem (2101272 + 8), getNextPrefix r.2 2101272))
      = some (0, 2101272, 0, 0) ∧
    (bestFitAllocRegion 5 18446744073709551552 tailArena).map
        (fun r => walkFindsAdjFree r.2 5 r.2.arenaBegin) = some true :=
  ⟨⟨by decide, by simp [NoAdjFree], by decide⟩, by decide, by decide, by decide, by decide,
    by decide, by decide⟩

end MyAllocator
